import Mathlib

/-!
# Upgrade run coordinator of the NSX-T provider

A shallow embedding of `nsxt/resource_nsxt_upgrade_run.go`.

The coordinator talks to a remote service through six clients.  The remote
service is embedded as an arbitrary responder: every client method receives
the history of all remote calls made so far (with their replies) and the
arguments of the call, and produces the reply.  A Go function that performs
remote calls becomes a function from the history to a `Run`: its outcome
(value, Go error, or Go run-time panic) and the list of remote calls it
issued, in the order of issue.
-/

namespace NsxtUpgrade

/-! ## Data model -/

/-- Component identifiers: the values of the string constants
`edgeUpgradeGroup`, `hostUpgradeGroup`, `mpUpgradeGroup`. -/
inductive Component where
  | EDGE
  | HOST
  | MP
  deriving DecidableEq, Repr

abbrev edgeUpgradeGroup : Component := Component.EDGE
abbrev hostUpgradeGroup : Component := Component.HOST
abbrev mpUpgradeGroup : Component := Component.MP

/-- Status vocabulary: the constants `model.ComponentUpgradeStatus_STATUS_*`. -/
inductive Status where
  | NOT_STARTED
  | IN_PROGRESS
  | PAUSING
  | PAUSED
  | FAILED
  | SUCCESS
  deriving DecidableEq, Repr

/-- Errors of a single remote call, classified the way `isServiceUnavailableError`
and `isTimeoutError` classify them. -/
inductive RemoteErr where
  | serviceUnavailable
  | timeout
  | other (msg : String)
  deriving DecidableEq, Repr

/-- Reply of a remote call that returns a value and an error. -/
inductive Reply (α : Type) where
  | ok (a : α)
  | fail (e : RemoteErr)
  deriving DecidableEq, Repr

/-- Pair `model.KeyValuePair`; both pointers are set wherever the code builds or reads one. -/
structure KeyValuePair where
  Key : String
  Value : String
  deriving DecidableEq, Repr

/-- Request `model.ReorderRequest`. -/
structure ReorderRequest where
  Id : Option String
  IsBefore : Option Bool
  deriving DecidableEq, Repr

/-- Remote object `model.UpgradeUnitGroup`; pointer fields are options. -/
structure UpgradeUnitGroup where
  Id : Option String
  DisplayName : Option String
  Type_ : Option String
  Enabled : Option Bool
  Parallel : Option Bool
  PauseAfterEachUpgradeUnit : Option Bool
  ExtendedConfiguration : List KeyValuePair
  UpgradeUnitCount : Option Nat
  deriving DecidableEq, Repr

/-- Remote object `model.UpgradePlanSettings`; pointer fields are options. -/
structure UpgradePlanSettings where
  Parallel : Option Bool
  PauseAfterEachGroup : Option Bool
  PauseOnError : Option Bool
  deriving DecidableEq, Repr

/-- One entry of `status.ComponentStatus`.  `ComponentType` and `Status` are
dereferenced unconditionally by the code and are modelled as present. -/
structure ComponentUpgradeStatus where
  ComponentType : Component
  Status : Status
  Details : Option String
  deriving DecidableEq, Repr

/-- Remote object `model.UpgradeStatus` (the status summary). -/
structure UpgradeStatus where
  OverallUpgradeStatus : Status
  ComponentStatus : List ComponentUpgradeStatus
  deriving DecidableEq, Repr

/-- One entry of the group status list returned by `GroupStatusClient.Getall`. -/
structure UpgradeUnitGroupStatus where
  GroupId : String
  GroupName : String
  Status : String
  deriving DecidableEq, Repr

/-- A remote call together with the reply it received. -/
inductive Event where
  | StatusGet (component : Option Component) (r : Reply UpgradeStatus)
  | Pause (r : Option RemoteErr)
  | Reset (component : Component) (r : Option RemoteErr)
  | Upgrade (component : Component) (r : Option RemoteErr)
  | GroupGet (id : String) (r : Reply UpgradeUnitGroup)
  | GroupUpdate (id : String) (g : UpgradeUnitGroup) (r : Reply UpgradeUnitGroup)
  | GroupReorder (id : String) (req : ReorderRequest) (r : Option RemoteErr)
  | GroupList (r : Reply (List UpgradeUnitGroup))
  | SettingGet (component : Component) (r : Reply UpgradePlanSettings)
  | SettingUpdate (component : Component) (s : UpgradePlanSettings) (r : Reply UpgradePlanSettings)
  | Executepostupgradechecks (component : Component) (r : Option RemoteErr)
  | GroupStatusGetall (component : Component) (r : Reply (List UpgradeUnitGroupStatus))
  deriving DecidableEq, Repr

/-- The history of remote calls, oldest first. -/
abbrev History := List Event

/-- Client `upgrade.UpgradeUnitGroupsClient`. -/
structure UpgradeUnitGroupsClient where
  Get : History → String → Reply UpgradeUnitGroup
  Update : History → String → UpgradeUnitGroup → Reply UpgradeUnitGroup
  Reorder : History → String → ReorderRequest → Option RemoteErr
  List : History → Reply (List UpgradeUnitGroup)

/-- Client `plan.SettingsClient`. -/
structure SettingsClient where
  Get : History → Component → Reply UpgradePlanSettings
  Update : History → Component → UpgradePlanSettings → Reply UpgradePlanSettings

/-- Client `upgrade.PlanClient`. -/
structure PlanClient where
  Pause : History → Option RemoteErr
  Reset : History → Component → Option RemoteErr
  Upgrade : History → Component → Option RemoteErr

/-- Client `upgrade.StatusSummaryClient`. -/
structure StatusSummaryClient where
  Get : History → Option Component → Reply UpgradeStatus

/-- Client `nsx.UpgradeClient`. -/
structure UpgradeClient where
  Executepostupgradechecks : History → Component → Option RemoteErr

/-- Client `upgrade.UpgradeUnitGroupsStatusClient`. -/
structure UpgradeUnitGroupsStatusClient where
  Getall : History → Component → Reply (List UpgradeUnitGroupStatus)

/-- The struct `upgradeClientSet`. -/
structure upgradeClientSet where
  GroupClient : UpgradeUnitGroupsClient
  SettingClient : SettingsClient
  PlanClient : PlanClient
  StatusClient : StatusSummaryClient
  UpgradeClient : UpgradeClient
  GroupStatusClient : UpgradeUnitGroupsStatusClient
  Timeout : Nat
  Delay : Nat
  Interval : Nat
  /-- Real time is not embedded: the number of status probes that fit between the
  initial delay and the timeout of a wait that starts at the given history. -/
  Probes : History → Nat

/-- The struct `upgradeStatusAndDetail`. -/
structure upgradeStatusAndDetail where
  Status : Status
  Detail : String
  deriving DecidableEq, Repr

/-- Value of Go type `interface{}` returned by the refresh function of a wait:
the nil interface, a (possibly nil) `*upgradeStatusAndDetail`, or a string. -/
inductive RefreshResult where
  | nilInterface
  | statusPtr (p : Option upgradeStatusAndDetail)
  | str (s : Status)
  deriving DecidableEq, Repr

mutual
/-- Go errors that the coordinator returns. -/
inductive Err where
  | remote (e : RemoteErr)
  | statusNotFound (component : Component)
  | waitFailed (target : List Status) (cause : WaitErr) (statusDetail : Option (Status × String))
  | handled (resourceType : String) (id : String) (cause : Err)
  | goPanic
/-- Errors produced by `StateChangeConf.WaitForState`. -/
inductive WaitErr where
  | refresh (e : Err)
  | unexpectedState (state : Status)
  | timeout (lastState : Option Status)
end

/-- Outcome and issued remote calls of one execution. -/
structure Run (α : Type) where
  out : Except Err α
  calls : List Event

/-- A Go function that performs remote calls: from the history to its run. -/
def M (α : Type) : Type := History → Run α

/-- Return without issuing a call. -/
def M.pure {α : Type} (a : α) : M α := fun _ => ⟨Except.ok a, []⟩

/-- Return a Go error (or panic) without issuing a call. -/
def M.fail {α : Type} (e : Err) : M α := fun _ => ⟨Except.error e, []⟩

/-- Sequencing: the second part sees the history extended by the calls of the
first; an error of the first part ends the execution. -/
def M.bind {α β : Type} (m : M α) (f : α → M β) : M β := fun h =>
  match (m h).out with
  | Except.ok a => ⟨(f a (h ++ (m h).calls)).out, (m h).calls ++ (f a (h ++ (m h).calls)).calls⟩
  | Except.error e => ⟨Except.error e, (m h).calls⟩

/-- Issue one remote call and hand back its reply. -/
def M.call {ρ : Type} (remote : History → ρ) (ev : ρ → Event) : M ρ := fun h =>
  ⟨Except.ok (remote h), [ev (remote h)]⟩

/-- The Go idiom `if err != nil { return err }` on a value-and-error reply. -/
def M.check {α : Type} : Reply α → M α
  | Reply.ok a => M.pure a
  | Reply.fail e => M.fail (Err.remote e)

/-- The Go idiom `if err != nil { return err }` on an error-only reply. -/
def M.checkErr : Option RemoteErr → M Unit
  | none => M.pure ()
  | some e => M.fail (Err.remote e)

/-! ## Declared configuration (`schema.ResourceData`) -/

/-- One element of `edge_group` or `host_group` (schema `getUpgradeGroupSchema`).
The last four attributes exist in the host schema only; the code reads them
for Host groups only. -/
structure UpgradeGroupConfig where
  id : String
  enabled : Bool
  parallel : Bool
  pause_after_each_upgrade_unit : Bool
  upgrade_mode : String
  maintenance_mode_config_vsan_mode : String
  maintenance_mode_config_evacuate_powered_off_vms : Bool
  rebootless_upgrade : Bool
  deriving DecidableEq, Repr

/-- The element of `edge_upgrade_setting` or `host_upgrade_setting` (schema
`getUpgradeSettingSchema`).  `stop_on_error` is deleted from the edge schema;
the code reads it for components other than Edge only. -/
structure UpgradeSettingConfig where
  post_upgrade_check : Bool
  parallel : Bool
  stop_on_error : Bool
  deriving DecidableEq, Repr

/-- What `d.Get(key)` returns, as far as the coordinator looks at it. -/
inductive Value where
  | groupList (l : List UpgradeGroupConfig)
  | settingList (l : List UpgradeSettingConfig)
  | other
  deriving DecidableEq, Repr

/-- One element of the computed attribute `upgrade_group_plan`. -/
structure UpgradeGroupPlan where
  id : Option String
  parallel : Option Bool
  enabled : Option Bool
  pause_after_each_upgrade_unit : Option Bool
  type : Option String
  extended_config : String → Option String

/-- One element of `group_state` in the computed attribute `state`. -/
structure GroupState where
  group_id : String
  group_name : String
  status : String
  deriving DecidableEq, Repr

/-- One element of the computed attribute `state`. -/
structure ComponentState where
  type : Component
  status : Status
  details : Option String
  group_state : List GroupState
  deriving DecidableEq, Repr

/-- The resource data `d`: the declared attributes, the change flags of the
framework's diff, and the computed attributes. -/
structure ResourceData where
  Id : String
  edge_group : List UpgradeGroupConfig
  host_group : List UpgradeGroupConfig
  edge_upgrade_setting : List UpgradeSettingConfig
  host_upgrade_setting : List UpgradeSettingConfig
  HasChange : String → Bool
  upgrade_group_plan : List UpgradeGroupPlan := []
  state : List ComponentState := []

/-- The lookup `d.Get(key)`. -/
def ResourceData.Get (d : ResourceData) (key : String) : Value :=
  if key = "edge_group" then Value.groupList d.edge_group
  else if key = "host_group" then Value.groupList d.host_group
  else if key = "edge_upgrade_setting" then Value.settingList d.edge_upgrade_setting
  else if key = "host_upgrade_setting" then Value.settingList d.host_upgrade_setting
  else Value.other

/-- Type assertion of a looked-up value to a list of group maps; a failed
assertion is a Go panic. -/
def Value.asGroupList : Value → M (List UpgradeGroupConfig)
  | Value.groupList l => M.pure l
  | _ => M.fail Err.goPanic

/-- Type assertion of a looked-up value to a list of setting maps; a failed
assertion is a Go panic. -/
def Value.asSettingList : Value → M (List UpgradeSettingConfig)
  | Value.settingList l => M.pure l
  | _ => M.fail Err.goPanic

/-! ## Package-level tables -/

/-- Order matters. -/
def upgradeComponentList : List Component :=
  [edgeUpgradeGroup, hostUpgradeGroup, mpUpgradeGroup]

/-- The map `componentToGroupKey`; a missing key yields the empty string. -/
def componentToGroupKey (component : Component) : String :=
  if component = edgeUpgradeGroup then "edge_group"
  else if component = hostUpgradeGroup then "host_group"
  else ""

/-- The map `componentToSettingKey`; a missing key yields the empty string. -/
def componentToSettingKey (component : Component) : String :=
  if component = edgeUpgradeGroup then "edge_upgrade_setting"
  else if component = hostUpgradeGroup then "host_upgrade_setting"
  else ""

def staticComponentUpgradeStatus : List Status :=
  [Status.FAILED, Status.NOT_STARTED, Status.PAUSED]

def inFlightComponentUpgradeStatus : List Status :=
  [Status.IN_PROGRESS, Status.PAUSING]

/-! ## Group configurator -/

/-- The closure `getReorderAfterReq` of `updateUpgradeUnitGroups` (`isBefore` is false). -/
def getReorderAfterReq (id : String) : ReorderRequest :=
  { Id := some id, IsBefore := some false }

/-- The field overwrites that `updateUpgradeUnitGroups` applies to the fetched group
`groupGet` of one declared group before sending it to `Update`. -/
def overwriteGroup (component : Component) (group : UpgradeGroupConfig)
    (groupGet : UpgradeUnitGroup) : UpgradeUnitGroup :=
  let enabled := group.enabled
  let pause := group.pause_after_each_upgrade_unit
  let groupGet := { groupGet with Enabled := some enabled, PauseAfterEachUpgradeUnit := some pause }
  -- Parallel can't be modified for EDGE upgrade unit group
  let groupGet :=
    if component ≠ edgeUpgradeGroup then
      let parallel := group.parallel
      { groupGet with Parallel := some parallel }
    else groupGet
  let groupGet :=
    if component = hostUpgradeGroup then
      let upgradeMode := group.upgrade_mode
      let mmcVsanMode := group.maintenance_mode_config_vsan_mode
      let mmcEvacuateOffVms := group.maintenance_mode_config_evacuate_powered_off_vms
      let rebootlessUpgrade := group.rebootless_upgrade
      let extendConfig : List KeyValuePair := []
      let extendConfig :=
        if upgradeMode ≠ "" then
          extendConfig ++ [{ Key := "upgrade_mode", Value := upgradeMode }]
        else extendConfig
      let extendConfig :=
        if mmcVsanMode ≠ "" then
          extendConfig ++ [{ Key := "maintenance_mode_config_vsan_mode", Value := mmcVsanMode }]
        else extendConfig
      let mmcEvacuateOffVmsStr := if mmcEvacuateOffVms then "true" else "false"
      let extendConfig := extendConfig ++
        [{ Key := "maintenance_mode_config_evacuate_powered_off_vms", Value := mmcEvacuateOffVmsStr }]
      let rebootlessUpgradeStr := if rebootlessUpgrade then "true" else "false"
      let extendConfig := extendConfig ++
        [{ Key := "rebootless_upgrade", Value := rebootlessUpgradeStr }]
      { groupGet with ExtendedConfiguration := extendConfig }
    else groupGet
  groupGet

/-- The loop of `updateUpgradeUnitGroups` over the declared groups, with the
loop variable `preUpgradeGroupID`. -/
def updateUpgradeUnitGroupsLoop (cs : upgradeClientSet) (component : Component) :
    List UpgradeGroupConfig → String → M Unit
  | [], _ => M.pure ()
  | group :: rest, preUpgradeGroupID =>
    let groupID := group.id
    M.bind (M.bind (M.call (fun h => cs.GroupClient.Get h groupID) (Event.GroupGet groupID)) M.check)
      fun groupGet =>
    let groupGet := overwriteGroup component group groupGet
    M.bind (M.bind (M.call (fun h => cs.GroupClient.Update h groupID groupGet)
        (Event.GroupUpdate groupID groupGet)) M.check) fun _ =>
    M.bind
      (if preUpgradeGroupID ≠ "" then
        M.bind (M.call (fun h => cs.GroupClient.Reorder h groupID (getReorderAfterReq preUpgradeGroupID))
          (Event.GroupReorder groupID (getReorderAfterReq preUpgradeGroupID))) M.checkErr
      else M.pure ()) fun _ =>
    updateUpgradeUnitGroupsLoop cs component rest groupID

/-- The function `updateUpgradeUnitGroups`. -/
def updateUpgradeUnitGroups (cs : upgradeClientSet) (d : ResourceData) (component : Component) :
    M Unit :=
  M.bind (d.Get (componentToGroupKey component)).asGroupList fun groups =>
  updateUpgradeUnitGroupsLoop cs component groups ""

/-! ## Settings configurator -/

/-- The function `updateComponentUpgradePlanSetting`. -/
def updateComponentUpgradePlanSetting (settingClient : SettingsClient) (d : ResourceData)
    (component : Component) : M Unit :=
  M.bind (d.Get (componentToSettingKey component)).asSettingList fun settingI =>
  match settingI with
  | [] => M.pure ()
  | setting :: _ =>
    M.bind (M.bind (M.call (fun h => settingClient.Get h component) (Event.SettingGet component))
      M.check) fun settingGet =>
    let parallel := setting.parallel
    let settingGet := { settingGet with Parallel := some parallel }
    let settingGet :=
      if component ≠ edgeUpgradeGroup then
        let stopOnErr := setting.stop_on_error
        { settingGet with PauseOnError := some stopOnErr }
      else settingGet
    M.bind (M.bind (M.call (fun h => settingClient.Update h component settingGet)
      (Event.SettingUpdate component settingGet)) M.check) fun _ =>
    M.pure ()

/-! ## Observations on the issued calls -/

/-- The `Reorder` calls among the issued calls: group id and request, in order of issue. -/
def reorderCalls (calls : List Event) : List (String × ReorderRequest) :=
  calls.filterMap fun e =>
    match e with
    | Event.GroupReorder id req _ => some (id, req)
    | _ => none

/-- The group list the code reads for a component (empty when the lookup is
not a group list, in which case the code panics before any call). -/
def declaredGroups (d : ResourceData) (component : Component) : List UpgradeGroupConfig :=
  match d.Get (componentToGroupKey component) with
  | Value.groupList l => l
  | _ => []

/-- The claimed `Reorder` calls for declared ids `[g1, ..., gn]`:
`Reorder(g_i, after g_(i-1))` for `i = 2..n`. -/
def claimedReorders (ids : List String) : List (String × ReorderRequest) :=
  (List.zip ids ids.tail).map fun p => (p.2, { Id := some p.1, IsBefore := some false })

/-- The `Reorder` calls the code issues for declared ids `[g1, ..., gn]`: the claimed
ones whose predecessor id is not the empty string. -/
def issuedReorders (ids : List String) : List (String × ReorderRequest) :=
  ((List.zip ids ids.tail).filter fun p => p.1 ≠ "").map
    fun p => (p.2, { Id := some p.1, IsBefore := some false })

/-- A remote service on which every call succeeds: `Get` returns an empty
group or empty settings, `Update` returns what it was sent. -/
def okClientSet : upgradeClientSet where
  GroupClient :=
    { Get := fun _ id => Reply.ok
        { Id := some id, DisplayName := none, Type_ := none, Enabled := none, Parallel := none,
          PauseAfterEachUpgradeUnit := none, ExtendedConfiguration := [], UpgradeUnitCount := none }
      Update := fun _ _ g => Reply.ok g
      Reorder := fun _ _ _ => none
      List := fun _ => Reply.ok [] }
  SettingClient :=
    { Get := fun _ _ => Reply.ok { Parallel := none, PauseAfterEachGroup := none, PauseOnError := none }
      Update := fun _ _ s => Reply.ok s }
  PlanClient := { Pause := fun _ => none, Reset := fun _ _ => none, Upgrade := fun _ _ => none }
  StatusClient :=
    { Get := fun _ _ => Reply.ok { OverallUpgradeStatus := Status.SUCCESS, ComponentStatus := [] } }
  UpgradeClient := { Executepostupgradechecks := fun _ _ => none }
  GroupStatusClient := { Getall := fun _ _ => Reply.ok [] }
  Timeout := 3600
  Delay := 30
  Interval := 30
  Probes := fun _ => 119

/-- A declared group with the schema defaults and the given id. -/
def groupWithId (id : String) : UpgradeGroupConfig :=
  { id := id, enabled := true, parallel := true, pause_after_each_upgrade_unit := false,
    upgrade_mode := "", maintenance_mode_config_vsan_mode := "",
    maintenance_mode_config_evacuate_powered_off_vms := false, rebootless_upgrade := true }

/-- Resource data declaring the given edge and host groups and no settings. -/
def dataWithGroups (edge host : List UpgradeGroupConfig) : ResourceData :=
  { Id := "", edge_group := edge, host_group := host, edge_upgrade_setting := [],
    host_upgrade_setting := [], HasChange := fun _ => true }

/-! ## The remote order of a component's groups -/

/-- Insert `x` immediately after the first occurrence of `y`. -/
def insertAfter (y x : String) : List String → List String
  | [] => []
  | a :: l => if a = y then a :: x :: l else a :: insertAfter y x l

/-- The remote effect of `Reorder(x, after = y)` on the order of the groups:
remove `x` and re-insert it immediately after `y`. -/
def reorderAfter (order : List String) (x y : String) : List String :=
  if y ∈ order.erase x then insertAfter y x (order.erase x) else order

/-- The remote order after a sequence of `Reorder` calls; only requests of the
form "after" move a group. -/
def applyReorders (order : List String) (reqs : List (String × ReorderRequest)) : List String :=
  reqs.foldl
    (fun o r =>
      match r.2.Id, r.2.IsBefore with
      | some y, some false => reorderAfter o r.1 y
      | _, _ => o)
    order

/-! ## What the claims say about the groups sent to `GroupClient.Update` -/

/-- The `Update` calls among the issued calls: group id and group sent, in order of issue. -/
def sentUpdates (calls : List Event) : List (String × UpgradeUnitGroup) :=
  calls.filterMap fun e =>
    match e with
    | Event.GroupUpdate id g _ => some (id, g)
    | _ => none

/-- The groups returned by the successful `GroupClient.Get` calls, in order of issue. -/
def fetchedGroups (calls : List Event) : List UpgradeUnitGroup :=
  calls.filterMap fun e =>
    match e with
    | Event.GroupGet _ (Reply.ok g) => some g
    | _ => none

/-- The extended configuration claimed for a declared Host group. -/
def claimedExtendedConfiguration (group : UpgradeGroupConfig) : List KeyValuePair :=
  (if group.upgrade_mode ≠ "" then [{ Key := "upgrade_mode", Value := group.upgrade_mode }]
    else []) ++
  (if group.maintenance_mode_config_vsan_mode ≠ "" then
      [{ Key := "maintenance_mode_config_vsan_mode",
         Value := group.maintenance_mode_config_vsan_mode }]
    else []) ++
  [{ Key := "maintenance_mode_config_evacuate_powered_off_vms",
     Value := if group.maintenance_mode_config_evacuate_powered_off_vms then "true" else "false" },
   { Key := "rebootless_upgrade",
     Value := if group.rebootless_upgrade then "true" else "false" }]

/-- The group claimed to be sent for a declared group and the group fetched for it. -/
def claimedUpdate (component : Component) (group : UpgradeGroupConfig)
    (fetched : UpgradeUnitGroup) : UpgradeUnitGroup :=
  { fetched with
    Enabled := some group.enabled
    PauseAfterEachUpgradeUnit := some group.pause_after_each_upgrade_unit
    Parallel := if component = Component.EDGE then fetched.Parallel else some group.parallel
    ExtendedConfiguration :=
      if component = Component.HOST then claimedExtendedConfiguration group
      else fetched.ExtendedConfiguration }

/-! ## Observations on the settings calls -/

/-- The `SettingClient.Update` calls among the issued calls: component and settings sent. -/
def sentSettings (calls : List Event) : List (Component × UpgradePlanSettings) :=
  calls.filterMap fun e =>
    match e with
    | Event.SettingUpdate component s _ => some (component, s)
    | _ => none

/-- Resource data declaring no groups and the given settings blocks. -/
def dataWithSettings (edge host : List UpgradeSettingConfig) : ResourceData :=
  { Id := "", edge_group := [], host_group := [], edge_upgrade_setting := edge,
    host_upgrade_setting := host, HasChange := fun _ => true }

/-- A settings client whose `Get` returns settings with all three fields set. -/
def fullSettingsClient : SettingsClient where
  Get := fun _ _ =>
    Reply.ok { Parallel := some false, PauseAfterEachGroup := some false, PauseOnError := some true }
  Update := fun _ _ s => Reply.ok s

/-! ## Status poller -/

/-- Modelled from the spec: `isServiceUnavailableError` is not in src/; it holds of the
service-unavailable error of a remote call and of nothing else (not of nil). -/
def isServiceUnavailableError : Option Err → Bool
  | some (Err.remote RemoteErr.serviceUnavailable) => true
  | _ => false

/-- Modelled from the spec: `isTimeoutError` is not in src/; it holds of the timeout
error of a remote call and of nothing else (not of nil). -/
def isTimeoutError : Option Err → Bool
  | some (Err.remote RemoteErr.timeout) => true
  | _ => false

/-- Run a Go function that returns `(value, err)` and hand both back; a panic is not
a returned error and keeps propagating. -/
def M.attempt {α : Type} (m : M α) : M (Option α × Option Err) := fun h =>
  match (m h).out with
  | Except.ok a => ⟨Except.ok (some a, none), (m h).calls⟩
  | Except.error Err.goPanic => ⟨Except.error Err.goPanic, (m h).calls⟩
  | Except.error e => ⟨Except.ok (none, some e), (m h).calls⟩

/-- The function `getUpgradeStatus`: component upgrade status, or the overall upgrade
status for the nil component. -/
def getUpgradeStatus (statusClient : StatusSummaryClient) (component : Option Component) :
    M upgradeStatusAndDetail :=
  M.bind (M.bind (M.call (fun h => statusClient.Get h component) (Event.StatusGet component))
    M.check) fun status =>
  match component with
  | none => M.pure { Status := status.OverallUpgradeStatus, Detail := "" }
  | some component =>
    match status.ComponentStatus.find? (fun componentStatus =>
        componentStatus.ComponentType = component) with
    | some componentStatus =>
      let detail := match componentStatus.Details with
        | some details => details
        | none => ""
      M.pure { Status := componentStatus.Status, Detail := detail }
    | none => M.fail (Err.statusNotFound component)

/-- The three values a refresh function returns. -/
structure RefreshOutput where
  result : RefreshResult
  state : Status
  err : Option Err

/-- The struct `resource.StateChangeConf`, with the fields the code sets. -/
structure StateChangeConf where
  Pending : List Status
  Target : List Status
  Refresh : M RefreshOutput
  Timeout : Nat
  PollInterval : Nat
  Delay : Nat

/-- The refresh loop of `StateChangeConf.WaitForState` of the plugin SDK, with the
number of probes left before the timeout and the last state seen.  A refresh error ends
the wait with that error and the refreshed result; a state in `Target` ends it with
success; a state in `Pending` continues; any other state is an unexpected-state error
when `Pending` is not empty; the timeout returns the nil result.  The refresh function
of this program never returns the nil interface, so the not-found counting of the SDK
is left out. -/
def WaitForStateLoop (conf : StateChangeConf) :
    Nat → Option Status → M (RefreshResult × Option WaitErr)
  | 0, lastState => M.pure (RefreshResult.nilInterface, some (WaitErr.timeout lastState))
  | n + 1, _ =>
    M.bind conf.Refresh fun r =>
    match r.err with
    | some err => M.pure (r.result, some (WaitErr.refresh err))
    | none =>
      if r.state ∈ conf.Target then M.pure (r.result, none)
      else if r.state ∈ conf.Pending then WaitForStateLoop conf n (some r.state)
      else if conf.Pending ≠ [] then M.pure (r.result, some (WaitErr.unexpectedState r.state))
      else WaitForStateLoop conf n (some r.state)

/-- The method `StateChangeConf.WaitForState` for a given number of probes. -/
def WaitForState (probes : Nat) (conf : StateChangeConf) : M (RefreshResult × Option WaitErr) :=
  WaitForStateLoop conf probes none

/-- The closure `Refresh` of `waitUpgradeForStatus`. -/
def waitUpgradeForStatusRefresh (cs : upgradeClientSet) (component : Option Component) :
    M RefreshOutput :=
  M.bind (M.attempt (getUpgradeStatus cs.StatusClient component)) fun (status, err) =>
  if component ≠ none ∧ component = some mpUpgradeGroup ∧
      (isServiceUnavailableError err || isTimeoutError err) then
    -- After MP upgrade is completed, NSXT will restart and service_unavailable error or
    -- timeout error will be received depending on the request timing.
    -- Keep polling for this case.
    M.pure { result := RefreshResult.str Status.IN_PROGRESS, state := Status.IN_PROGRESS,
             err := none }
  else
    match err, status with
    | some err, _ =>
      M.pure { result := RefreshResult.statusPtr status, state := Status.FAILED, err := some err }
    | none, some status =>
      M.pure { result := RefreshResult.statusPtr (some status), state := status.Status,
               err := none }
    | none, none => M.fail Err.goPanic

/-- The function `waitUpgradeForStatus`: wait for the component upgrade status to become
a target status; the nil component stands for the overall upgrade status. -/
def waitUpgradeForStatus (cs : upgradeClientSet) (component : Option Component)
    (pending target : List Status) : M Unit :=
  let stateConf : StateChangeConf :=
    { Pending := pending
      Target := target
      Refresh := waitUpgradeForStatusRefresh cs component
      Timeout := cs.Timeout
      PollInterval := cs.Interval
      Delay := cs.Delay }
  fun h =>
  M.bind (WaitForState (cs.Probes h) stateConf)
    (fun (statusI, err) =>
      match err with
      | some err =>
        match statusI with
        | RefreshResult.nilInterface => M.fail (Err.waitFailed target err none)
        | RefreshResult.statusPtr (some status) =>
          M.fail (Err.waitFailed target err (some (status.Status, status.Detail)))
        -- `status.Status` on the nil pointer held by a non-nil interface
        | RefreshResult.statusPtr none => M.fail Err.goPanic
        -- the type assertion `statusI.(*upgradeStatusAndDetail)` on a string
        | RefreshResult.str _ => M.fail Err.goPanic
      | none => M.pure ()) h

/-! ## Run driver -/

/-- The loop of `prepareUpgrade` over `upgradeComponentList`. -/
def prepareUpgradeLoop (cs : upgradeClientSet) (d : ResourceData) : List Component → M Unit
  | [] => M.pure ()
  | component :: rest =>
    -- Customize MP upgrade is not allowed
    if component = mpUpgradeGroup then prepareUpgradeLoop cs d rest
    else if (!d.HasChange (componentToGroupKey component) &&
        !d.HasChange (componentToSettingKey component)) = true then
      prepareUpgradeLoop cs d rest
    else
      M.bind (getUpgradeStatus cs.StatusClient (some component)) fun status =>
      if status.Status = Status.SUCCESS then prepareUpgradeLoop cs d rest
      else
        M.bind
          (if status.Status = Status.IN_PROGRESS then
            M.bind (M.call (fun h => cs.PlanClient.Pause h) Event.Pause) fun _ => M.pure ()
          else M.pure ()) fun _ =>
        M.bind (waitUpgradeForStatus cs (some component) inFlightComponentUpgradeStatus
          staticComponentUpgradeStatus) fun _ =>
        -- Call reset regardless
        M.bind (M.bind (M.call (fun h => cs.PlanClient.Reset h component) (Event.Reset component))
          M.checkErr) fun _ =>
        M.bind (updateUpgradeUnitGroups cs d component) fun _ =>
        M.bind (updateComponentUpgradePlanSetting cs.SettingClient d component) fun _ =>
        prepareUpgradeLoop cs d rest

/-- The function `prepareUpgrade`. -/
def prepareUpgrade (cs : upgradeClientSet) (d : ResourceData) : M Unit :=
  prepareUpgradeLoop cs d upgradeComponentList

/-- The inner loop of `getPartialUpgradeMap` over the groups of one component: whether
it reaches the assignment before the `break`. -/
def getPartialUpgradeMapGroups : List UpgradeGroupConfig → Bool
  | [] => false
  | group :: rest =>
    let enabled := group.enabled
    let pauseAfterEach := group.pause_after_each_upgrade_unit
    if (!enabled || pauseAfterEach) = true then true else getPartialUpgradeMapGroups rest

/-- The outer loop of `getPartialUpgradeMap`; the map is a function, a missing key
reads as false. -/
def getPartialUpgradeMapLoop (d : ResourceData) :
    List Component → (Component → Bool) → (Component → Bool)
  | [], isPartialUpgradeMap => isPartialUpgradeMap
  | component :: rest, isPartialUpgradeMap =>
    if component = mpUpgradeGroup then getPartialUpgradeMapLoop d rest isPartialUpgradeMap
    else
      match d.Get (componentToGroupKey component) with
      | Value.groupList groups =>
        if getPartialUpgradeMapGroups groups = true then
          getPartialUpgradeMapLoop d rest (Function.update isPartialUpgradeMap component true)
        else getPartialUpgradeMapLoop d rest isPartialUpgradeMap
      | _ => getPartialUpgradeMapLoop d rest isPartialUpgradeMap

/-- The function `getPartialUpgradeMap`. -/
def getPartialUpgradeMap (d : ResourceData) : Component → Bool :=
  getPartialUpgradeMapLoop d upgradeComponentList (fun _ => false)

/-- The pending set, the target set and the new value of `partialUpgradeExist` that one
iteration of `runUpgrade` computes for its component before it calls `Upgrade`. -/
def runUpgradeStatusSets (partialUpgradeMap : Component → Bool) (component : Component)
    (partialUpgradeExist : Bool) : List Status × List Status × Bool :=
  let pendingStatus := [Status.IN_PROGRESS]
  let targetStatus := [Status.SUCCESS]
  if partialUpgradeMap component = true then
    -- For partial upgrade, some groups are disabled, component upgrade status will be
    -- paused after all enabled groups upgraded.
    (pendingStatus ++ [Status.PAUSING], targetStatus ++ [Status.PAUSED], true)
  else (pendingStatus, targetStatus, partialUpgradeExist)

/-- The loop of `runUpgrade` over `upgradeComponentList`, with the loop variable
`partialUpgradeExist`.  The result of `PlanClient.Upgrade` is dropped. -/
def runUpgradeLoop (cs : upgradeClientSet) (partialUpgradeMap : Component → Bool) :
    List Component → Bool → M Unit
  | [], _ => M.pure ()
  | component :: rest, partialUpgradeExist =>
    M.bind (waitUpgradeForStatus cs none inFlightComponentUpgradeStatus
      staticComponentUpgradeStatus) fun _ =>
    if component = mpUpgradeGroup ∧ partialUpgradeExist = true then
      runUpgradeLoop cs partialUpgradeMap rest partialUpgradeExist
    else
      let sets := runUpgradeStatusSets partialUpgradeMap component partialUpgradeExist
      let pendingStatus := sets.1
      let targetStatus := sets.2.1
      let partialUpgradeExist := sets.2.2
      M.bind (M.call (fun h => cs.PlanClient.Upgrade h component) (Event.Upgrade component))
        fun _ =>
      M.bind (waitUpgradeForStatus cs (some component) pendingStatus targetStatus) fun _ =>
      runUpgradeLoop cs partialUpgradeMap rest partialUpgradeExist

/-- The function `runUpgrade`. -/
def runUpgrade (cs : upgradeClientSet) (partialUpgradeMap : Component → Bool) : M Unit :=
  runUpgradeLoop cs partialUpgradeMap upgradeComponentList false

/-- The loop of `runPostcheck` over `upgradeComponentList`; the result of the post-check
call is dropped. -/
def runPostcheckLoop (upgradeClient : UpgradeClient) (d : ResourceData) :
    List Component → M Unit
  | [] => M.pure ()
  | component :: rest =>
    if component ≠ mpUpgradeGroup then
      M.bind (d.Get (componentToSettingKey component)).asSettingList fun settingI =>
      match settingI with
      | [] => runPostcheckLoop upgradeClient d rest
      | setting :: _ =>
        let postCheck := setting.post_upgrade_check
        if postCheck = true then
          M.bind (M.call (fun h => upgradeClient.Executepostupgradechecks h component)
            (Event.Executepostupgradechecks component)) fun _ =>
          runPostcheckLoop upgradeClient d rest
        else runPostcheckLoop upgradeClient d rest
    else runPostcheckLoop upgradeClient d rest

/-- The function `runPostcheck`. -/
def runPostcheck (upgradeClient : UpgradeClient) (d : ResourceData) : M Unit :=
  runPostcheckLoop upgradeClient d upgradeComponentList

/-! ## Output collector -/

/-- The inner loop of `setUpgradeRunOutput` that fills the map `extConfig`. -/
def setUpgradeRunOutputExtConfig :
    List KeyValuePair → (String → Option String) → (String → Option String)
  | [], extConfig => extConfig
  | config :: rest, extConfig =>
    setUpgradeRunOutputExtConfig rest (Function.update extConfig config.Key (some config.Value))

/-- The first loop of `setUpgradeRunOutput`, which builds `plans`. -/
def setUpgradeRunOutputPlans :
    List UpgradeUnitGroup → List UpgradeGroupPlan → List UpgradeGroupPlan
  | [], plans => plans
  | result :: rest, plans =>
    let elem : UpgradeGroupPlan :=
      { id := result.Id
        parallel := result.Parallel
        enabled := result.Enabled
        pause_after_each_upgrade_unit := result.PauseAfterEachUpgradeUnit
        type := result.Type_
        extended_config :=
          setUpgradeRunOutputExtConfig result.ExtendedConfiguration (fun _ => none) }
    setUpgradeRunOutputPlans rest (plans ++ [elem])

/-- The loop over the group status list of one component, which builds `groupStates`. -/
def setUpgradeRunOutputGroupStates :
    List UpgradeUnitGroupStatus → List GroupState → List GroupState
  | [], groupStates => groupStates
  | groupStatusInList :: rest, groupStates =>
    let groupElem : GroupState :=
      { group_id := groupStatusInList.GroupId
        group_name := groupStatusInList.GroupName
        status := groupStatusInList.Status }
    setUpgradeRunOutputGroupStates rest (groupStates ++ [groupElem])

/-- The second loop of `setUpgradeRunOutput`, which builds `states`. -/
def setUpgradeRunOutputStates (cs : upgradeClientSet) :
    List ComponentUpgradeStatus → List ComponentState → M (List ComponentState)
  | [], states => M.pure states
  | result :: rest, states =>
    M.bind (M.bind (M.call (fun h => cs.GroupStatusClient.Getall h result.ComponentType)
      (Event.GroupStatusGetall result.ComponentType)) M.check) fun groupStatusList =>
    let elem : ComponentState :=
      { type := result.ComponentType
        status := result.Status
        details := result.Details
        group_state := setUpgradeRunOutputGroupStates groupStatusList [] }
    setUpgradeRunOutputStates cs rest (states ++ [elem])

/-- The function `setUpgradeRunOutput`; the resource data it has written is the value. -/
def setUpgradeRunOutput (cs : upgradeClientSet) (d : ResourceData) : M ResourceData :=
  M.bind (M.bind (M.call (fun h => cs.GroupClient.List h) Event.GroupList) M.check) fun results =>
  let plans := setUpgradeRunOutputPlans results []
  let d := { d with upgrade_group_plan := plans }
  M.bind (M.bind (M.call (fun h => cs.StatusClient.Get h none) (Event.StatusGet none)) M.check)
    fun status =>
  M.bind (setUpgradeRunOutputStates cs status.ComponentStatus []) fun states =>
  M.pure { d with state := states }

/-- Modelled from the spec: `handleCreateError` is not in src/; the error is surfaced
to the caller, annotated with the resource type and the identity. -/
def handleCreateError (resourceType : String) (id : String) (err : Err) : Err :=
  Err.handled resourceType id err

/-- Modelled from the spec: `handleReadError` is not in src/; the error is surfaced
to the caller, annotated with the resource type and the identity. -/
def handleReadError (resourceType : String) (id : String) (err : Err) : Err :=
  Err.handled resourceType id err

/-- Replace a returned error by its handled form; a panic is not a returned error. -/
def M.handle {α : Type} (m : M α) (handler : Err → Err) : M α := fun h =>
  match (m h).out with
  | Except.ok a => ⟨Except.ok a, (m h).calls⟩
  | Except.error Err.goPanic => ⟨Except.error Err.goPanic, (m h).calls⟩
  | Except.error e => ⟨Except.error (handler e), (m h).calls⟩

/-- The function `resourceNsxtUpgradeRunRead`. -/
def resourceNsxtUpgradeRunRead (cs : upgradeClientSet) (d : ResourceData) : M ResourceData :=
  let id := d.Id
  M.handle (setUpgradeRunOutput cs d) (handleReadError "NsxtUpgradeRun" id)

/-- The function `upgradeRunCreateOrUpdate`; `newUUID` is the identity that `newUUID()`
allocates, and the client set stands for the connector. -/
def upgradeRunCreateOrUpdate (cs : upgradeClientSet) (d : ResourceData) (newUUID : String) :
    M ResourceData :=
  let id := d.Id
  let id := if id = "" then newUUID else id
  M.bind (M.handle (prepareUpgrade cs d) (handleCreateError "NsxtUpgradeRun" id)) fun _ =>
  M.bind (M.handle (runUpgrade cs (getPartialUpgradeMap d)) (handleCreateError "NsxtUpgradeRun" id))
    fun _ =>
  M.bind (runPostcheck cs.UpgradeClient d) fun _ =>
  let d := { d with Id := id }
  resourceNsxtUpgradeRunRead cs d

/-! ## Observations on the calls of a run -/

/-- Whether an execution returned without error. -/
def Run.succeeded {α : Type} (r : Run α) : Bool :=
  match r.out with
  | Except.ok _ => true
  | Except.error _ => false

/-- The status of a component in a status summary: that of the first entry of the
component, as `getUpgradeStatus` reads it. -/
def observedStatus (c : Component) (s : UpgradeStatus) : Option Status :=
  (s.ComponentStatus.find? (fun componentStatus => componentStatus.ComponentType = c)).map
    (fun componentStatus => componentStatus.Status)

/-- The status that a probe of the component observed, if the probe succeeded and the
summary has the component. -/
def observedReply (c : Component) : Reply UpgradeStatus → Option Status
  | Reply.ok s => observedStatus c s
  | Reply.fail _ => none

/-- The observations of the status probes of a component among the calls, in order. -/
def probesOf (c : Component) (calls : List Event) : List (Option Status) :=
  calls.filterMap fun e =>
    match e with
    | Event.StatusGet (some c2) reply => if c2 = c then some (observedReply c reply) else none
    | _ => none

/-- The status of a component observed by the last status probe of it among the calls. -/
def lastObserved (c : Component) (calls : List Event) : Option Status :=
  (probesOf c calls).getLast?.join

/-- The components of the `Upgrade` calls among the calls, in order of issue. -/
def upgradeCalls (calls : List Event) : List Component :=
  calls.filterMap fun e =>
    match e with
    | Event.Upgrade c _ => some c
    | _ => none

/-- Whether a call names the component. -/
def Event.onComponent (c : Component) : Event → Bool
  | Event.StatusGet (some c2) _ => c2 = c
  | Event.Reset c2 _ => c2 = c
  | Event.Upgrade c2 _ => c2 = c
  | Event.SettingGet c2 _ => c2 = c
  | Event.SettingUpdate c2 _ _ => c2 = c
  | Event.Executepostupgradechecks c2 _ => c2 = c
  | Event.GroupStatusGetall c2 _ => c2 = c
  | _ => false

/-- Among the calls, `Upgrade(c)` was issued and a later status probe of `c` observed it
in Success or Paused. -/
def terminalObserved (c : Component) (calls : List Event) : Prop :=
  ∃ p1 r p2 s p3,
    calls = p1 ++ Event.Upgrade c r :: (p2 ++ Event.StatusGet (some c) (Reply.ok s) :: p3) ∧
      (observedStatus c s = some Status.SUCCESS ∨ observedStatus c s = some Status.PAUSED)

/-- The state that the refresh function of a wait reports without error for a reply of
the status client, if it reports one. -/
def refreshState (component : Option Component) : Reply UpgradeStatus → Option Status
  | Reply.ok s =>
    match component with
    | none => some s.OverallUpgradeStatus
    | some c => observedStatus c s
  | Reply.fail e =>
    if component = some Component.MP ∧ (e = RemoteErr.serviceUnavailable ∨ e = RemoteErr.timeout)
    then some Status.IN_PROGRESS else none

/-- The run of the wait for a stable overall status that starts an iteration of `runUpgrade`. -/
def overallWait (cs : upgradeClientSet) (h : History) : Run Unit :=
  waitUpgradeForStatus cs none inFlightComponentUpgradeStatus staticComponentUpgradeStatus h

/-- The `Upgrade(c)` call issued at a history, with the reply of the remote service. -/
def upgradeEvent (cs : upgradeClientSet) (c : Component) (h : History) : Event :=
  Event.Upgrade c (cs.PlanClient.Upgrade h c)

/-- The run of the status wait that follows `Upgrade(c)` in an iteration of `runUpgrade`. -/
def componentWait (cs : upgradeClientSet) (pm : Component → Bool) (c : Component) (pe : Bool)
    (h : History) : Run Unit :=
  waitUpgradeForStatus cs (some c) (runUpgradeStatusSets pm c pe).1
    (runUpgradeStatusSets pm c pe).2.1 h

/-- A run that comes after the given calls. -/
def Run.after {α : Type} (pre : List Event) (r : Run α) : Run α :=
  ⟨r.out, pre ++ r.calls⟩

/-! ## A scripted remote service for concrete runs -/

/-- The status summary of the scripted service once `Upgrade` was called for the listed
components: the overall status is Paused, a component is in `done` once its `Upgrade` was
called and not started before. -/
def statusAfter (done : Status) (upgraded : List Component) : UpgradeStatus :=
  { OverallUpgradeStatus := Status.PAUSED
    ComponentStatus :=
      [Component.EDGE, Component.HOST, Component.MP].map fun c =>
        { ComponentType := c
          Status := if c ∈ upgraded then done else Status.NOT_STARTED
          Details := none } }

/-- A remote service on which every call succeeds and a component reaches the status
`done` as soon as `Upgrade` is called for it. -/
def scriptedClientSet (done : Status) : upgradeClientSet :=
  { okClientSet with
    StatusClient := { Get := fun h _ => Reply.ok (statusAfter done (upgradeCalls h)) } }

/-- Resource data with no declared groups or settings in which every attribute changed. -/
def changedData : ResourceData :=
  { Id := "", edge_group := [], host_group := [], edge_upgrade_setting := [],
    host_upgrade_setting := [], HasChange := fun _ => true }

/-- Whether a call is an `Upgrade` call. -/
def Event.isUpgrade : Event → Bool
  | Event.Upgrade _ _ => true
  | _ => false

/-- Calls that prepare or report: not an `Upgrade` call and not naming Management. -/
def Event.offManagement (e : Event) : Prop :=
  e.isUpgrade = false ∧ e.onComponent Component.MP = false

/-! ## Observations on single status probes -/

/-- The status and detail that `getUpgradeStatus` reads from a status summary for a
selector, if the summary has them. -/
def statusAndDetailOf (component : Option Component) (s : UpgradeStatus) :
    Option upgradeStatusAndDetail :=
  match component with
  | none => some { Status := s.OverallUpgradeStatus, Detail := "" }
  | some c =>
    (s.ComponentStatus.find? (fun componentStatus => componentStatus.ComponentType = c)).map
      fun componentStatus =>
        { Status := componentStatus.Status
          Detail := match componentStatus.Details with
            | some details => details
            | none => "" }

/-- The error that `getUpgradeStatus` returns for a reply of the status client, if any. -/
def probeError (component : Option Component) : Reply UpgradeStatus → Option Err
  | Reply.fail e => some (Err.remote e)
  | Reply.ok s =>
    match component, statusAndDetailOf component s with
    | some c, none => some (Err.statusNotFound c)
    | _, _ => none

/-- Whether the refresh function of a wait keeps polling on a probe error: the selector
is Management and the error is the service-unavailable or the timeout error. -/
def tolerated (component : Option Component) (err : Err) : Prop :=
  component = some Component.MP ∧
    (err = Err.remote RemoteErr.serviceUnavailable ∨ err = Err.remote RemoteErr.timeout)

/-- What the refresh function of a wait returns for a reply of the status client. -/
def probeOutput (component : Option Component) (reply : Reply UpgradeStatus) : RefreshOutput :=
  match reply with
  | Reply.fail e =>
    if component = some Component.MP ∧
        (e = RemoteErr.serviceUnavailable ∨ e = RemoteErr.timeout) then
      { result := RefreshResult.str Status.IN_PROGRESS, state := Status.IN_PROGRESS, err := none }
    else
      { result := RefreshResult.statusPtr none, state := Status.FAILED,
        err := some (Err.remote e) }
  | Reply.ok s =>
    match component, statusAndDetailOf component s with
    | _, some status =>
      { result := RefreshResult.statusPtr (some status), state := status.Status, err := none }
    | some c, none =>
      { result := RefreshResult.statusPtr none, state := Status.FAILED,
        err := some (Err.statusNotFound c) }
    | none, none =>
      { result := RefreshResult.statusPtr none, state := Status.FAILED, err := none }

/-- The configuration that `waitUpgradeForStatus` hands to `WaitForState`. -/
def stateConfOf (cs : upgradeClientSet) (component : Option Component)
    (pending target : List Status) : StateChangeConf :=
  { Pending := pending
    Target := target
    Refresh := waitUpgradeForStatusRefresh cs component
    Timeout := cs.Timeout
    PollInterval := cs.Interval
    Delay := cs.Delay }

/-! ## Further scripted remote services -/

/-- A status summary with the given overall status in which every component has the
given status and details. -/
def fixedStatus (overall st : Status) (details : Option String) : UpgradeStatus :=
  { OverallUpgradeStatus := overall
    ComponentStatus :=
      [Component.EDGE, Component.HOST, Component.MP].map fun c =>
        { ComponentType := c, Status := st, Details := details } }

/-- A remote service whose status summary never changes; every other call succeeds, and
a wait has room for the given number of probes. -/
def fixedClientSet (overall st : Status) (details : Option String) (probes : Nat) :
    upgradeClientSet :=
  { okClientSet with
    StatusClient := { Get := fun _ _ => Reply.ok (fixedStatus overall st details) }
    Probes := fun _ => probes }

/-- A remote service whose components are in the status `first` at the first call and in
Paused afterwards, with overall status Paused; `Pause` and `Upgrade` reply `planErr`. -/
def quiescingClientSet (first : Status) (planErr : Option RemoteErr) : upgradeClientSet :=
  { okClientSet with
    StatusClient :=
      { Get := fun h _ =>
          Reply.ok (fixedStatus Status.PAUSED (if h.isEmpty then first else Status.PAUSED) none) }
    PlanClient :=
      { Pause := fun _ => planErr, Reset := fun _ _ => none, Upgrade := fun _ _ => planErr } }

/-- A remote service on which nothing has started and `Upgrade` is rejected. -/
def rejectingClientSet : upgradeClientSet :=
  { fixedClientSet Status.NOT_STARTED Status.NOT_STARTED none 119 with
    PlanClient :=
      { Pause := fun _ => some (RemoteErr.other "rejected")
        Reset := fun _ _ => none
        Upgrade := fun _ _ => some (RemoteErr.other "rejected") } }

/-- A remote service whose first status probe succeeds (nothing started) and whose later
status probes fail. -/
def probeFailClientSet : upgradeClientSet :=
  { okClientSet with
    StatusClient :=
      { Get := fun h _ =>
          if h.isEmpty then Reply.ok (fixedStatus Status.NOT_STARTED Status.NOT_STARTED none)
          else Reply.fail (RemoteErr.other "connection reset") } }

/-- A remote service whose status probes of Management fail with service-unavailable
until `k` of them were made and then report Success. -/
def restartingClientSet (k : Nat) : upgradeClientSet :=
  { okClientSet with
    StatusClient :=
      { Get := fun h _ =>
          if (probesOf Component.MP h).length < k then
            Reply.fail RemoteErr.serviceUnavailable
          else Reply.ok (fixedStatus Status.PAUSED Status.SUCCESS none) } }

/-- Resource data with no declared groups or settings in which nothing changed. -/
def unchangedData : ResourceData :=
  { Id := "u", edge_group := [], host_group := [], edge_upgrade_setting := [],
    host_upgrade_setting := [], HasChange := fun _ => false }

/-- Whether a call is a `Pause` call. -/
def Event.isPause : Event → Bool
  | Event.Pause _ => true
  | _ => false

/-! ## Observations on mutating calls -/

/-- Whether a call changes the upgrade plan of a component: `Reset`, group `Update`,
group `Reorder` or settings `Update`. -/
def Event.isMutation : Event → Bool
  | Event.Reset _ _ => true
  | Event.GroupUpdate _ _ _ => true
  | Event.GroupReorder _ _ _ => true
  | Event.SettingUpdate _ _ _ => true
  | _ => false

/-- The component that a mutating call names: `Reset` and settings `Update` name one, the
group calls name a group id only. -/
def Event.mutatedComponent : Event → Option Component
  | Event.Reset c _ => some c
  | Event.SettingUpdate c _ _ => some c
  | _ => none

/-- Whether a call is a status probe of a component. -/
def Event.isComponentProbe : Event → Bool
  | Event.StatusGet (some _) _ => true
  | _ => false

/-- The status probes of components among the calls, in order: the component and the
status observed for it (none when the probe failed or the summary lacks the component). -/
def componentProbes (calls : List Event) : List (Component × Option Status) :=
  calls.filterMap fun e =>
    match e with
    | Event.StatusGet (some c) reply => some (c, observedReply c reply)
    | _ => none

/-- The most recent status probe of a component among the calls. -/
def lastProbe (calls : List Event) : Option (Component × Option Status) :=
  (componentProbes calls).getLast?

/-- A call that is not a component status probe and names no component other than `c`. -/
def Event.quietFor (c : Component) (e : Event) : Prop :=
  e.isComponentProbe = false ∧ ∀ c2, e.mutatedComponent = some c2 → c2 = c

/-- Every mutating call among `calls`, issued after the calls `before`, is issued when the
most recent component status probe was of a component observed in a static status, and
names that component if it names one. -/
def Quiesced (before calls : List Event) : Prop :=
  ∀ pre e post, calls = pre ++ e :: post → e.isMutation = true →
    ∃ c st, lastProbe (before ++ pre) = some (c, some st) ∧
      st ∈ staticComponentUpgradeStatus ∧
      ∀ c2, e.mutatedComponent = some c2 → c2 = c

/-! ## Observations on returned errors -/

/-- Errors that are not produced by a wait or by an error handler: the error of a remote
call, the missing component status, and the Go panic. -/
def Err.isPlain : Err → Bool
  | Err.remote _ => true
  | Err.statusNotFound _ => true
  | Err.goPanic => true
  | _ => false

/-- The calls issued from the history `h` end with the calls of a `waitUpgradeForStatus`
that returned the error `e`: nothing was issued after that wait. -/
def EndsInWait (cs : upgradeClientSet) (h : History) (calls : List Event) (e : Err) : Prop :=
  ∃ pre sel pending target,
    calls = pre ++ (waitUpgradeForStatus cs sel pending target (h ++ pre)).calls ∧
      (waitUpgradeForStatus cs sel pending target (h ++ pre)).out = Except.error e

/-- Every error that the function returns is plain. -/
def PlainErrs {α : Type} (m : M α) : Prop :=
  ∀ h e, (m h).out = Except.error e → e.isPlain = true

/-- Every error that the function returns is plain or is the error of a wait after which
the function issued no call. -/
def WaitErrs (cs : upgradeClientSet) {α : Type} (m : M α) : Prop :=
  ∀ h e, (m h).out = Except.error e → e.isPlain = true ∨ EndsInWait cs h (m h).calls e

/-- Every handled error that the function returns and whose cause is not plain is the
handled error of a wait after which the function issued no call. -/
def HandledWaitErrs (cs : upgradeClientSet) {α : Type} (m : M α) : Prop :=
  ∀ h rt id e0, e0.isPlain = false → (m h).out = Except.error (Err.handled rt id e0) →
    EndsInWait cs h (m h).calls e0

/-! ## Observations on the wait after `Upgrade` -/

/-- The pending set of the status wait that follows `Upgrade(c)` in `runUpgrade`. -/
def pendingOf (partialUpgradeMap : Component → Bool) (c : Component) : List Status :=
  (runUpgradeStatusSets partialUpgradeMap c false).1

/-- The target set of the status wait that follows `Upgrade(c)` in `runUpgrade`. -/
def targetOf (partialUpgradeMap : Component → Bool) (c : Component) : List Status :=
  (runUpgradeStatusSets partialUpgradeMap c false).2.1

/-- Whenever a status probe of a component among the calls observed a status outside the
pending and the target set of the component, the execution returned the error of the wait
with that status and its detail, and that probe is its last call. -/
def UnexpectedEnds (pm : Component → Bool) {α : Type} (r : Run α) : Prop :=
  ∀ pre c s post sd, r.calls = pre ++ Event.StatusGet (some c) (Reply.ok s) :: post →
    statusAndDetailOf (some c) s = some sd →
    sd.Status ∉ pendingOf pm c → sd.Status ∉ targetOf pm c →
    r.out = Except.error (Err.waitFailed (targetOf pm c)
      (WaitErr.unexpectedState sd.Status) (some (sd.Status, sd.Detail))) ∧ post = []

/-- If the execution returned success, every component with a status probe among the
calls was last observed in its target set, and every `Upgrade(c)` among the calls comes
with a status probe of `c`. -/
def TargetsReached (pm : Component → Bool) {α : Type} (r : Run α) : Prop :=
  r.succeeded = true →
    (∀ c, probesOf c r.calls ≠ [] →
      ∃ st, lastObserved c r.calls = some st ∧ st ∈ targetOf pm c) ∧
    (∀ c ∈ upgradeCalls r.calls, probesOf c r.calls ≠ [])

/-! ## Observations on the post-check and on the declared settings -/

/-- The first element of the declared settings list of a component, if the list has one. -/
def declaredSetting (d : ResourceData) (component : Component) : Option UpgradeSettingConfig :=
  match d.Get (componentToSettingKey component) with
  | Value.settingList (setting :: _) => some setting
  | _ => none

/-- Whether a settings block is declared for the component and has
`post_upgrade_check = true`. -/
def postcheckDeclared (d : ResourceData) (component : Component) : Bool :=
  match declaredSetting d component with
  | some setting => setting.post_upgrade_check
  | none => false

/-- The components of the post-check calls among the calls, in order of issue. -/
def postcheckCalls (calls : List Event) : List Component :=
  calls.filterMap fun e =>
    match e with
    | Event.Executepostupgradechecks c _ => some c
    | _ => none

/-- Whether a call is a post-check call. -/
def Event.isPostcheck : Event → Bool
  | Event.Executepostupgradechecks _ _ => true
  | _ => false

/-- Whether a call is one that the preparation of the component `c` issues: a status
probe, `Reset`, settings `Get` or settings `Update` of `c`, a `Pause`, or a group `Get`,
`Update` or `Reorder` (which name a group id, not a component). -/
def Event.preparesComponent (c : Component) : Event → Bool
  | Event.StatusGet (some c2) _ => c2 = c
  | Event.Pause _ => true
  | Event.Reset c2 _ => c2 = c
  | Event.GroupGet _ _ => true
  | Event.GroupUpdate _ _ _ => true
  | Event.GroupReorder _ _ _ => true
  | Event.SettingGet c2 _ => c2 = c
  | Event.SettingUpdate c2 _ _ => c2 = c
  | _ => false

/-- Whether the framework reports a change of the declared group list or of the declared
settings of the component: the negation of the guard that makes `prepareUpgrade` skip it. -/
def changedFor (d : ResourceData) (component : Component) : Bool :=
  d.HasChange (componentToGroupKey component) || d.HasChange (componentToSettingKey component)

/-- Whether a call is `Reset` of the component. -/
def Event.isReset (c : Component) : Event → Bool
  | Event.Reset c2 _ => c2 = c
  | _ => false

/-- The declared group list of Edge or of Host has a group with `enabled = false` or
`pause_after_each_upgrade_unit = true`. -/
def partialDeclared (d : ResourceData) : Prop :=
  ∃ c, (c = Component.EDGE ∨ c = Component.HOST) ∧
    ∃ g ∈ declaredGroups d c, g.enabled = false ∨ g.pause_after_each_upgrade_unit = true

/-! ## What the claims say about the computed attribute `upgrade_group_plan` -/

/-- The value of the last pair with the given key among the pairs, if there is one. -/
def lastValueOf (config : List KeyValuePair) (key : String) : Option String :=
  (config.reverse.find? (fun c => c.Key = key)).map (fun c => c.Value)

/-- The entry of `upgrade_group_plan` claimed for a remote group: its id, type, parallel,
enabled and pause-after-each-unit, and the map from every key of its extended
configuration to the value of the last occurrence of the key. -/
def claimedPlan (result : UpgradeUnitGroup) : UpgradeGroupPlan :=
  { id := result.Id
    parallel := result.Parallel
    enabled := result.Enabled
    pause_after_each_upgrade_unit := result.PauseAfterEachUpgradeUnit
    type := result.Type_
    extended_config := lastValueOf result.ExtendedConfiguration }

/-- A remote group with the given id and extended configuration. -/
def remoteGroup (id : String) (config : List KeyValuePair) : UpgradeUnitGroup :=
  { Id := some id, DisplayName := none, Type_ := some "HOST", Enabled := some true,
    Parallel := some false, PauseAfterEachUpgradeUnit := some false,
    ExtendedConfiguration := config, UpgradeUnitCount := none }

/-- A remote service that lists the given groups; every other call succeeds. -/
def listingClientSet (groups : List UpgradeUnitGroup) : upgradeClientSet :=
  { okClientSet with
    GroupClient := { okClientSet.GroupClient with List := fun _ => Reply.ok groups } }

/-! ## Firewall section resource (`resource_nsxt_firewall_section.go`) -/

/-- Go's `<` on strings compares them byte by byte; on the code points of the two strings
the comparison is the same one, because UTF-8 keeps the order of code points. -/
def goStringLess : List Nat → List Nat → Bool
  | _, [] => false
  | [], _ :: _ => true
  | a :: as, b :: bs =>
    if a < b then true else if b < a then false else goStringLess as bs

/-- The Go expression `s < t` on strings. -/
def stringLess (s t : String) : Bool :=
  goStringLess (s.data.map Char.toNat) (t.data.map Char.toNat)

/-- The pieces of a string between its dots (code point 46). -/
def splitDots : List Char → List (List Char)
  | [] => [[]]
  | c :: rest =>
    if c.toNat = 46 then [] :: splitDots rest
    else
      match splitDots rest with
      | [] => [[c]]
      | w :: ws => (c :: w) :: ws

/-- The number written by a string of decimal digits. -/
def digitsValue (l : List Char) : Nat :=
  l.foldl (fun n c => 10 * n + (c.toNat - 48)) 0

/-- The numeric components of a version string such as "2.10.0". -/
def versionComponents (s : String) : List Nat :=
  (splitDots s.data).map digitsValue

/-- The ordering of version numbers the claim speaks of: component by component, as
numbers. -/
def versionLower (v w : String) : Bool :=
  goStringLess (versionComponents v) (versionComponents w)

/-- Object `manager.FirewallRule`, with the fields that identify a rule; the other fields
are copied by `getRulesFromSchema` in the same way. -/
structure FirewallRule where
  Id : String
  DisplayName : String
  Action : String
  Disabled : Bool
  deriving DecidableEq, Repr

/-- One element of the declared attribute `rule`. -/
structure FirewallRuleConfig where
  display_name : String
  action : String
  disabled : Bool
  deriving DecidableEq, Repr

/-- Object `manager.FirewallSection`. -/
structure FirewallSection where
  Revision : Int
  Description : String
  DisplayName : String
  SectionType : String
  Stateful : Bool
  deriving DecidableEq, Repr

/-- Object `manager.FirewallSectionRuleList`. -/
structure FirewallSectionRuleList where
  FirewallSection : FirewallSection
  Rules : List FirewallRule
  deriving DecidableEq, Repr

/-- The resource data of a firewall section, with the attributes the update reads. -/
structure FirewallSectionData where
  Id : String
  revision : Int
  description : String
  display_name : String
  section_type : String
  stateful : Bool
  rule : List FirewallRuleConfig
  deriving DecidableEq, Repr

/-- A call on `nsxClient.ServicesApi`. -/
inductive FwCall where
  | UpdateSection (id : String) (sec : FirewallSection)
  | GetSectionWithRulesListWithRules (id : String)
  | DeleteRule (sectionId : String) (ruleId : String)
  | UpdateSectionWithRulesUpdateWithRules (id : String) (sec : FirewallSectionRuleList)
  | GetSection (id : String)
  deriving DecidableEq, Repr

/-- What a call on the API returns: the value, the status code of the `*http.Response`
(none for the nil response) and the error. -/
structure FwReply (α : Type) where
  value : α
  StatusCode : Option Nat
  err : Option String

/-- The part of `nsxClient.ServicesApi` that the update and the read of a firewall section
use; a reply may depend on the calls made so far. -/
structure ServicesApi where
  UpdateSection : List FwCall → String → FirewallSection → FwReply FirewallSection
  GetSectionWithRulesListWithRules : List FwCall → String → FwReply FirewallSectionRuleList
  UpdateSectionWithRulesUpdateWithRules :
    List FwCall → String → FirewallSectionRuleList → FwReply FirewallSectionRuleList
  GetSection : List FwCall → String → FwReply FirewallSection

/-- How a provider function of the firewall section ends. -/
inductive FwOut where
  | ok
  | error (message : String)
  | goPanic
  deriving DecidableEq, Repr

/-- Outcome and issued API calls of one execution. -/
structure FwRun where
  out : FwOut
  calls : List FwCall
  deriving DecidableEq, Repr

/-- The constant `http.StatusNotFound`. -/
def StatusNotFound : Nat := 404

/-- The function `getRulesFromSchema`. -/
def getRulesFromSchema (d : FirewallSectionData) : List FirewallRule :=
  d.rule.map fun data =>
    { Id := "", DisplayName := data.display_name, Action := data.action,
      Disabled := data.disabled }

/-- The function `resourceNsxtFirewallSectionRead`, as far as its API calls and its result
go; the attributes it sets are not modelled.  A nil `*http.Response` makes
`resp.StatusCode` panic. -/
def resourceNsxtFirewallSectionRead (api : ServicesApi) (id : String) (h : List FwCall) :
    FwRun :=
  if id = "" then ⟨FwOut.error "Error obtaining logical object id", []⟩
  else
    let r := api.GetSectionWithRulesListWithRules h id
    let calls := [FwCall.GetSectionWithRulesListWithRules id]
    match r.StatusCode with
    | none => ⟨FwOut.goPanic, calls⟩
    | some code =>
      if code = StatusNotFound then ⟨FwOut.ok, calls⟩
      else if r.err ≠ none then
        ⟨FwOut.error ("Error during FirewallSection " ++ id ++ " read"), calls⟩
      else
        -- Getting the applied tos will require another api call (for NSX 2.1 or less)
        let r2 := api.GetSection (h ++ calls) id
        let calls := calls ++ [FwCall.GetSection id]
        match r2.StatusCode with
        | none => ⟨FwOut.goPanic, calls⟩
        | some code2 =>
          if code2 = StatusNotFound then ⟨FwOut.ok, calls⟩
          else if r2.err ≠ none then
            ⟨FwOut.error ("Error during FirewallSection " ++ id ++ " read"), calls⟩
          else ⟨FwOut.ok, calls⟩

/-- The first block of `resourceNsxtFirewallSectionUpdate`: the update that ignores the
rules and, for an empty rule list, the deletion of the current rules.  It ends the update
(left) or hands on `resp`, `err` and the calls it issued (right).  `nsxVersion` is what
`getNSXVersion(nsxClient)` returns; that helper is not in src/. -/
def resourceNsxtFirewallSectionUpdateEmpty (api : ServicesApi) (nsxVersion : String)
    (id : String) (firewallSection : FirewallSectionRuleList) (h : List FwCall) :
    FwRun ⊕ (Option Nat × Option String × List FwCall) :=
  let rules := firewallSection.Rules
  if rules.length = 0 ∨ stringLess nsxVersion "2.2.0" = true then
    -- Due to an NSX bug, the empty update should also be called to update ToS & tags fields
    let sec := firewallSection.FirewallSection
    -- Update the section ignoring the rules
    let r := api.UpdateSection h id sec
    let calls := [FwCall.UpdateSection id sec]
    if rules.length = 0 then
      -- Read the section, and delete all current rules from it
      let r2 := api.GetSectionWithRulesListWithRules (h ++ calls) id
      let calls := calls ++ [FwCall.GetSectionWithRulesListWithRules id]
      match r2.StatusCode with
      | none => Sum.inl ⟨FwOut.goPanic, calls⟩
      | some code2 =>
        if code2 = StatusNotFound then
          Sum.inl ⟨FwOut.error ("FirewallSection " ++ id ++
            " not found during update empty action"), calls⟩
        else if r2.err ≠ none then
          Sum.inl ⟨FwOut.error ("Error during FirewallSection " ++ id ++
            " update empty: cannot read the section"), calls⟩
        else
          Sum.inr (r.StatusCode, r.err,
            calls ++ r2.value.Rules.map fun rule => FwCall.DeleteRule id rule.Id)
    else Sum.inr (r.StatusCode, r.err, calls)
  else Sum.inr (none, none, [])

/-- The function `resourceNsxtFirewallSectionUpdate`. -/
def resourceNsxtFirewallSectionUpdate (api : ServicesApi) (nsxVersion : String)
    (d : FirewallSectionData) (h : List FwCall) : FwRun :=
  let id := d.Id
  if id = "" then ⟨FwOut.error "Error obtaining logical object id", []⟩
  else
    let rules := getRulesFromSchema d
    let firewallSection : FirewallSectionRuleList :=
      { FirewallSection :=
          { Revision := d.revision, Description := d.description, DisplayName := d.display_name,
            SectionType := d.section_type, Stateful := d.stateful }
        Rules := rules }
    match resourceNsxtFirewallSectionUpdateEmpty api nsxVersion id firewallSection h with
    | Sum.inl run => run
    | Sum.inr (resp, err, calls) =>
      let (resp, err, calls) :=
        if rules.length > 0 then
          -- If we have rules - update the section with the rules
          let r := api.UpdateSectionWithRulesUpdateWithRules (h ++ calls) id firewallSection
          (r.StatusCode, r.err,
            calls ++ [FwCall.UpdateSectionWithRulesUpdateWithRules id firewallSection])
        else (resp, err, calls)
      if err ≠ none then
        ⟨FwOut.error ("Error during FirewallSection " ++ id ++ " update"), calls⟩
      else
        match resp with
        | none => ⟨FwOut.goPanic, calls⟩
        | some code =>
          if code = StatusNotFound then
            ⟨FwOut.error ("Error during FirewallSection " ++ id ++ " update"), calls⟩
          else
            let rd := resourceNsxtFirewallSectionRead api id (h ++ calls)
            ⟨rd.out, calls ++ rd.calls⟩

/-- An API on which every call succeeds with status 200 and the section has the given
current rules. -/
def okServicesApi (current : List FirewallRule) : ServicesApi :=
  { UpdateSection := fun _ _ sec => ⟨sec, some 200, none⟩
    GetSectionWithRulesListWithRules := fun _ _ =>
      ⟨{ FirewallSection := ⟨0, "", "", "LAYER3", true⟩, Rules := current }, some 200, none⟩
    UpdateSectionWithRulesUpdateWithRules := fun _ _ sec => ⟨sec, some 200, none⟩
    GetSection := fun _ _ => ⟨⟨0, "", "", "LAYER3", true⟩, some 200, none⟩ }

/-- A declared firewall section with the given id and rules. -/
def sectionData (id : String) (rules : List FirewallRuleConfig) : FirewallSectionData :=
  { Id := id, revision := 1, description := "", display_name := "web", section_type := "LAYER3",
    stateful := true, rule := rules }

/-! ## Certificate data source (`data_source_nsxt_certificate.go`) -/

/-- Object `trust.Certificate`, with the fields the data source reads. -/
structure Certificate where
  Id : String
  DisplayName : String
  Description : String
  deriving DecidableEq, Repr

/-- The resource data of the certificate data source: the attributes `id`,
`display_name` and `description`, and the identity `Id` of the resource.  `d.SetId` sets
the identity and, with it, attribute `id`. -/
structure CertificateData where
  id : String
  display_name : String
  description : String
  Id : String
  deriving DecidableEq, Repr

/-- The part of `nsxClient.NsxComponentAdministrationApi` that the data source uses. -/
structure NsxComponentAdministrationApi where
  GetCertificate : String → FwReply Certificate
  GetCertificates : FwReply (List Certificate)

/-- The loop of `dataSourceNsxtCertificateRead` over `objList.Results`, with the variables
`obj` and `found`; the error is the one returned from inside the loop. -/
def dataSourceNsxtCertificateReadLoop (objName : String) :
    List Certificate → Certificate → Bool → Except String (Certificate × Bool)
  | [], obj, found => Except.ok (obj, found)
  | objInList :: rest, obj, found =>
    if objInList.DisplayName = objName then
      if found = true then
        Except.error ("Found multiple certificates with name '" ++ objName ++ "'")
      else dataSourceNsxtCertificateReadLoop objName rest objInList true
    else dataSourceNsxtCertificateReadLoop objName rest obj found

/-- The function `dataSourceNsxtCertificateRead`: the error message, or the resource data
after the three assignments; `d.SetId(obj.Id)` writes the identity and attribute `id`. -/
def dataSourceNsxtCertificateRead (api : NsxComponentAdministrationApi) (d : CertificateData) :
    Except String CertificateData :=
  -- Read cerificate by name or id
  let objID := d.id
  let objName := d.display_name
  let obj : Except String Certificate :=
    if objID ≠ "" then
      -- Get by id
      let r := api.GetCertificate objID
      if r.StatusCode = some StatusNotFound then
        Except.error ("certificate " ++ objID ++ " was not found")
      else if r.err ≠ none then
        Except.error ("Error while reading certificate " ++ objID)
      else Except.ok r.value
    else if objName ≠ "" then
      -- Get by name
      let r := api.GetCertificates
      if r.err ≠ none then Except.error "Error while reading certificates"
      else
        -- go over the list to find the correct one
        match dataSourceNsxtCertificateReadLoop objName r.value ⟨"", "", ""⟩ false with
        | Except.error e => Except.error e
        | Except.ok (obj, found) =>
          if found = false then
            Except.error ("Certificate with name '" ++ objName ++ "' was not found")
          else Except.ok obj
    else Except.error "Error obtaining certificate ID or name during read"
  match obj with
  | Except.error e => Except.error e
  | Except.ok obj =>
    Except.ok { d with Id := obj.Id, id := obj.Id, display_name := obj.DisplayName,
                       description := obj.Description }

/-- The certificates of the list whose display name is the given name. -/
def certificatesNamed (objName : String) (results : List Certificate) : List Certificate :=
  results.filter fun c => c.DisplayName = objName

/-- An API that lists the given certificates and finds none by id. -/
def listingCertificateApi (results : List Certificate) : NsxComponentAdministrationApi :=
  { GetCertificate := fun _ => ⟨⟨"", "", ""⟩, some 404, some "not found"⟩
    GetCertificates := ⟨results, some 200, none⟩ }

/-! ## Gateway redistribution config (`resource_nsxt_policy_gateway_redistribution_config.go`) -/

/-- Object `model.Tier0RouteRedistributionConfig`, with its two flags; the rules are set by
helpers that are not in src/ and are left out. -/
structure Tier0RouteRedistributionConfig where
  BgpEnabled : Option Bool
  OspfEnabled : Option Bool
  deriving DecidableEq, Repr

/-- Object `model.LocaleServices`, with the fields the resource uses. -/
structure LocaleServices where
  Id : Option String
  ResourceType : Option String
  RouteRedistributionConfig : Option Tier0RouteRedistributionConfig
  deriving DecidableEq, Repr

/-- A call on a locale-services client; `globalManager` tells which of the two clients
(`gm_tier0s` or `tier_0s`) it is made on. -/
inductive LsCall where
  | Get (globalManager : Bool) (gwID : String) (localeServiceID : String)
  | Patch (globalManager : Bool) (gwID : String) (localeServiceID : String)
      (service : LocaleServices)
  deriving DecidableEq, Repr

/-- The resource data of the redistribution config, with the attributes the functions
read and set. -/
structure RedistributionConfigData where
  Id : String
  gateway_path : String
  site_path : String
  gateway_id : String
  locale_service_id : String
  bgp_enabled : Bool
  ospf_enabled : Bool
  deriving DecidableEq, Repr

/-- How a function of the resource ends: with the resource data, with an error, or with a
Go panic. -/
inductive LsOut where
  | ok (d : RedistributionConfigData)
  | error (message : String)
  | goPanic
  deriving DecidableEq, Repr

/-- Outcome and issued calls of one execution. -/
structure LsRun where
  out : LsOut
  calls : List LsCall
  deriving DecidableEq, Repr

/-- What the functions of the resource use and src/ does not hold: the two locale-services
clients (a reply may depend on the calls made so far), the constant
`defaultPolicyLocaleServiceID`, the kind of manager, the error handlers, and the helpers
with which Create finds the gateway and its locale service. -/
structure PolicyEnv where
  Get : List LsCall → Bool → String → String → Except String LocaleServices
  Patch : List LsCall → Bool → String → String → LocaleServices → Option String
  isPolicyGlobalManager : Bool
  defaultPolicyLocaleServiceID : String
  handleReadError : RedistributionConfigData → String → String → LsOut
  handleUpdateError : String → String → String
  handleCreateError : String → String → String
  parseGatewayPolicyPath : String → Bool × String
  globalLocaleServiceID : String → String → Except String String
  getPolicyTier0GatewayLocaleServiceWithEdgeCluster :
    String → Except String (Option LocaleServices)
  newUUID : String

/-- The function `policyGatewayRedistributionConfigPatch`: its error and its calls.
The conversion of `convertModelBindingType` between the two bindings of the same object
is taken as the identity. -/
def policyGatewayRedistributionConfigPatch (m : PolicyEnv) (d : RedistributionConfigData)
    (gwID : String) (localeServiceID : String) (h : List LsCall) :
    Option String × List LsCall :=
  let bgpEnabled := d.bgp_enabled
  let ospfEnabled := d.ospf_enabled
  let redistributionStruct : Tier0RouteRedistributionConfig :=
    { BgpEnabled := some bgpEnabled, OspfEnabled := some ospfEnabled }
  let lsType := "LocaleServices"
  let serviceStruct : LocaleServices :=
    { Id := some localeServiceID, ResourceType := some lsType,
      RouteRedistributionConfig := some redistributionStruct }
  if m.isPolicyGlobalManager = true then
    -- Use patch to only update the relevant fields
    (m.Patch h true gwID localeServiceID serviceStruct,
      [LsCall.Patch true gwID localeServiceID serviceStruct])
  else
    (m.Patch h false gwID localeServiceID serviceStruct,
      [LsCall.Patch false gwID localeServiceID serviceStruct])

/-- The function `resourceNsxtPolicyGatewayRedistributionConfigRead`. -/
def resourceNsxtPolicyGatewayRedistributionConfigRead (m : PolicyEnv)
    (d : RedistributionConfigData) (h : List LsCall) : LsRun :=
  let id := d.Id
  let gwID := d.gateway_id
  let localeServiceID := d.locale_service_id
  if id = "" ∨ gwID = "" ∨ localeServiceID = "" then
    ⟨LsOut.error "Error obtaining Tier0 Gateway id or Locale Service id", []⟩
  else
    let fetched : Except String LocaleServices × List LsCall :=
      if m.isPolicyGlobalManager = true then
        (m.Get h true gwID localeServiceID, [LsCall.Get true gwID localeServiceID])
      else
        (m.Get h false gwID m.defaultPolicyLocaleServiceID,
          [LsCall.Get false gwID m.defaultPolicyLocaleServiceID])
    match fetched.1 with
    | Except.error err =>
      ⟨m.handleReadError d "Tier0 Redistribution Config" err, fetched.2⟩
    | Except.ok obj =>
      match obj.RouteRedistributionConfig with
      -- `config.BgpEnabled` on the nil pointer
      | none => ⟨LsOut.goPanic, fetched.2⟩
      | some config =>
        ⟨LsOut.ok { d with bgp_enabled := config.BgpEnabled.getD false,
                           ospf_enabled := config.OspfEnabled.getD false }, fetched.2⟩

/-- The function `resourceNsxtPolicyGatewayRedistributionConfigUpdate`. -/
def resourceNsxtPolicyGatewayRedistributionConfigUpdate (m : PolicyEnv)
    (d : RedistributionConfigData) (h : List LsCall) : LsRun :=
  let id := d.Id
  let gwID := d.gateway_id
  let localeServiceID := d.locale_service_id
  if id = "" ∨ gwID = "" ∨ localeServiceID = "" then
    ⟨LsOut.error "Error obtaining Tier0 Gateway id or Locale Service id", []⟩
  else
    let patched := policyGatewayRedistributionConfigPatch m d gwID localeServiceID h
    match patched.1 with
    | some err => ⟨LsOut.error (m.handleUpdateError id err), patched.2⟩
    | none =>
      let rd := resourceNsxtPolicyGatewayRedistributionConfigRead m d (h ++ patched.2)
      ⟨rd.out, patched.2 ++ rd.calls⟩

/-- The function `resourceNsxtPolicyGatewayRedistributionConfigCreate`. The listing of the
locale services of the global manager and the choice among them by site are one helper
of the environment. -/
def resourceNsxtPolicyGatewayRedistributionConfigCreate (m : PolicyEnv)
    (d : RedistributionConfigData) (h : List LsCall) : LsRun :=
  let gwPath := d.gateway_path
  let sitePath := d.site_path
  let parsed := m.parseGatewayPolicyPath gwPath
  let isT0 := parsed.1
  let gwID := parsed.2
  if isT0 = false then
    ⟨LsOut.error ("Tier0 Gateway path expected, got " ++ gwPath), []⟩
  else
    let resolved : Except String String :=
      if m.isPolicyGlobalManager = true then
        if sitePath = "" then
          Except.error "site_path is required on the global manager"
        else
          m.globalLocaleServiceID gwID sitePath
      else
        if sitePath ≠ "" then
          Except.error "site_path is only supported on the global manager"
        else
          match m.getPolicyTier0GatewayLocaleServiceWithEdgeCluster gwID with
          | Except.error err => Except.error err
          | Except.ok none =>
            Except.error ("Edge cluster is mandatory on gateway " ++ gwID ++
              " in order to create interfaces")
          | Except.ok (some localeService) => Except.ok (localeService.Id.getD "")
    match resolved with
    | Except.error err => ⟨LsOut.error err, []⟩
    | Except.ok localeServiceID =>
      let id := m.newUUID
      let patched := policyGatewayRedistributionConfigPatch m d gwID localeServiceID h
      match patched.1 with
      | some err => ⟨LsOut.error (m.handleCreateError id err), patched.2⟩
      | none =>
        let d1 := { d with Id := id, gateway_id := gwID, locale_service_id := localeServiceID }
        let rd := resourceNsxtPolicyGatewayRedistributionConfigRead m d1 (h ++ patched.2)
        ⟨rd.out, patched.2 ++ rd.calls⟩

/-- An environment of the given kind of manager on which every call succeeds: a locale
service carries its own id, and a redistribution config with BGP enabled exactly when it
was patched before; the gateway of a path is the path itself, and its locale service
with an edge cluster is `ls-1`. -/
def okPolicyEnv (globalManager : Bool) : PolicyEnv :=
  { Get := fun h _ _ localeServiceID =>
      Except.ok
        { Id := some localeServiceID, ResourceType := some "LocaleServices"
          RouteRedistributionConfig :=
            some { BgpEnabled := some (h.any fun c =>
                     match c with
                     | LsCall.Patch _ _ ls _ => ls = localeServiceID
                     | _ => false)
                   OspfEnabled := some false } }
    Patch := fun _ _ _ _ _ => none
    isPolicyGlobalManager := globalManager
    defaultPolicyLocaleServiceID := "default"
    handleReadError := fun _ _ err => LsOut.error err
    handleUpdateError := fun _ err => err
    handleCreateError := fun _ err => err
    parseGatewayPolicyPath := fun p => (true, p)
    globalLocaleServiceID := fun _ _ => Except.ok "ls-1"
    getPolicyTier0GatewayLocaleServiceWithEdgeCluster := fun _ =>
      Except.ok (some { Id := some "ls-1", ResourceType := none,
                        RouteRedistributionConfig := none })
    newUUID := "uuid-1" }

/-- Resource data of a config stored for gateway `gw` and locale service `ls-1`, with BGP
redistribution declared. -/
def redistributionData : RedistributionConfigData :=
  { Id := "uuid-1", gateway_path := "gw", site_path := "", gateway_id := "gw",
    locale_service_id := "ls-1", bgp_enabled := true, ospf_enabled := false }

/-! ## Lemmas on sequencing -/

theorem M.bind_call_check {ρ β : Type} (remote : History → Reply ρ) (ev : Reply ρ → Event)
    (f : ρ → M β) (h : History) :
    M.bind (M.bind (M.call remote ev) M.check) f h =
      match remote h with
      | Reply.ok a =>
        ⟨(f a (h ++ [ev (Reply.ok a)])).out, ev (Reply.ok a) :: (f a (h ++ [ev (Reply.ok a)])).calls⟩
      | Reply.fail e => ⟨Except.error (Err.remote e), [ev (Reply.fail e)]⟩ := by
  cases hr : remote h <;> simp [M.bind, M.call, M.check, M.pure, M.fail, hr]

theorem M.bind_call_checkErr {β : Type} (remote : History → Option RemoteErr)
    (ev : Option RemoteErr → Event) (f : Unit → M β) (h : History) :
    M.bind (M.bind (M.call remote ev) M.checkErr) f h =
      match remote h with
      | none => ⟨(f () (h ++ [ev none])).out, ev none :: (f () (h ++ [ev none])).calls⟩
      | some e => ⟨Except.error (Err.remote e), [ev (some e)]⟩ := by
  cases hr : remote h <;> simp [M.bind, M.call, M.checkErr, M.pure, M.fail, hr]

theorem M.bind_pure {α β : Type} (a : α) (f : α → M β) (h : History) :
    M.bind (M.pure a) f h = f a h := by
  simp [M.bind, M.pure]

theorem M.bind_fail {α β : Type} (e : Err) (f : α → M β) (h : History) :
    M.bind (M.fail e : M α) f h = ⟨Except.error e, []⟩ := by
  simp [M.bind, M.fail]

/-! ## Group configurator: the reorder calls -/

theorem updateUpgradeUnitGroupsLoop_reorderCalls (cs : upgradeClientSet) (component : Component) :
    ∀ (groups : List UpgradeGroupConfig) (pre : String) (h : History),
      (updateUpgradeUnitGroupsLoop cs component groups pre h).out = Except.ok () →
      reorderCalls (updateUpgradeUnitGroupsLoop cs component groups pre h).calls =
        ((List.zip (pre :: groups.map (·.id)) (groups.map (·.id))).filter fun p => p.1 ≠ "").map
          fun p => (p.2, { Id := some p.1, IsBefore := some false }) := by
  intro groups
  induction groups with
  | nil => intro pre h _; simp [updateUpgradeUnitGroupsLoop, M.pure, reorderCalls]
  | cons g rest ih =>
    intro pre h hok
    rw [updateUpgradeUnitGroupsLoop] at hok ⊢
    simp only [M.bind_call_check] at hok ⊢
    cases hget : cs.GroupClient.Get h g.id with
    | fail e => simp [hget] at hok
    | ok gg =>
      simp only [hget] at hok ⊢
      split at hok
      · rename_i upd hupd
        simp only [hupd]
        by_cases hpre : pre = ""
        · subst hpre
          simp only [ne_eq, not_true_eq_false, if_false, M.bind_pure] at hok ⊢
          have := ih g.id _ hok
          simp [reorderCalls] at this ⊢
          exact this
        · simp only [ne_eq, hpre, not_false_eq_true, if_true, M.bind_call_checkErr] at hok ⊢
          split at hok
          · rename_i hre
            simp only [hre]
            have := ih g.id _ hok
            simp [reorderCalls, hpre, getReorderAfterReq] at this ⊢
            exact this
          · simp at hok
      · simp at hok

theorem updateUpgradeUnitGroups_eq_loop (cs : upgradeClientSet) (d : ResourceData)
    (component : Component) (h : History)
    (hok : (updateUpgradeUnitGroups cs d component h).out = Except.ok ()) :
    updateUpgradeUnitGroups cs d component h =
      updateUpgradeUnitGroupsLoop cs component (declaredGroups d component) "" h := by
  unfold updateUpgradeUnitGroups declaredGroups at *
  cases hv : d.Get (componentToGroupKey component) <;>
    simp [hv, Value.asGroupList, M.bind_pure, M.bind_fail] at hok ⊢

theorem sentinel_zip_eq_issuedReorders (groups : List UpgradeGroupConfig) :
    ((List.zip ("" :: groups.map (·.id)) (groups.map (·.id))).filter fun p => p.1 ≠ "").map
        (fun p => (p.2, ({ Id := some p.1, IsBefore := some false } : ReorderRequest))) =
      issuedReorders (groups.map (·.id)) := by
  unfold issuedReorders
  cases groups with
  | nil => simp
  | cons g rest => simp

/-- C1 (amended): when all remote calls of `updateUpgradeUnitGroups` succeed on a
component with declared group ids `[g1, ..., gn]`, the `Reorder` calls issued are, in
this order, `Reorder(g_i, {id = g_(i-1), is_before = false})` for exactly those
`i = 2..n` whose predecessor id `g_(i-1)` is not the empty string. -/
theorem updateUpgradeUnitGroups_reorderCalls (cs : upgradeClientSet) (d : ResourceData)
    (component : Component) (h : History)
    (hok : (updateUpgradeUnitGroups cs d component h).out = Except.ok ()) :
    reorderCalls (updateUpgradeUnitGroups cs d component h).calls =
      issuedReorders ((declaredGroups d component).map (·.id)) := by
  have heq := updateUpgradeUnitGroups_eq_loop cs d component h hok
  rw [heq] at hok ⊢
  rw [updateUpgradeUnitGroupsLoop_reorderCalls cs component _ "" h hok]
  exact sentinel_zip_eq_issuedReorders _

theorem updateUpgradeUnitGroups_reorderCalls_witness :
    (updateUpgradeUnitGroups okClientSet
        (dataWithGroups [groupWithId "A", groupWithId "B", groupWithId "C"] [])
        Component.EDGE []).out = Except.ok () ∧
      reorderCalls (updateUpgradeUnitGroups okClientSet
        (dataWithGroups [groupWithId "A", groupWithId "B", groupWithId "C"] [])
        Component.EDGE []).calls =
      [("B", { Id := some "A", IsBefore := some false }),
       ("C", { Id := some "B", IsBefore := some false })] :=
  ⟨rfl, updateUpgradeUnitGroups_reorderCalls okClientSet
    (dataWithGroups [groupWithId "A", groupWithId "B", groupWithId "C"] []) Component.EDGE [] rfl⟩

/-- C1 (as stated) fails: with declared edge groups `["", "b"]` and a remote service on
which every call succeeds, no `Reorder` call is issued, while the claim asks for
`Reorder("b", {id = "", is_before = false})`. -/
theorem updateUpgradeUnitGroups_reorderCalls_counterexample :
    (updateUpgradeUnitGroups okClientSet (dataWithGroups [groupWithId "", groupWithId "b"] [])
        Component.EDGE []).out = Except.ok () ∧
      reorderCalls (updateUpgradeUnitGroups okClientSet
        (dataWithGroups [groupWithId "", groupWithId "b"] []) Component.EDGE []).calls = [] ∧
      claimedReorders ["", "b"] = [("b", { Id := some "", IsBefore := some false })] ∧
      reorderCalls (updateUpgradeUnitGroups okClientSet
        (dataWithGroups [groupWithId "", groupWithId "b"] []) Component.EDGE []).calls ≠
        claimedReorders ["", "b"] := by
  refine ⟨rfl, rfl, rfl, ?_⟩
  decide

/-! ## Group configurator: the resulting remote order -/

theorem insertAfter_append (y x : String) :
    ∀ (A B : List String), y ∉ A → insertAfter y x (A ++ y :: B) = A ++ y :: x :: B := by
  intro A
  induction A with
  | nil => intro B _; simp [insertAfter]
  | cons a A ih =>
    intro B hy
    have ha : a ≠ y := fun e => hy (by simp [e])
    have hA : y ∉ A := fun m => hy (by simp [m])
    simp [insertAfter, ha, ih B hA]

theorem reorderAfter_infix (order P done Q : List String) (prev g : String)
    (hnd : order.Nodup) (horder : order = P ++ (done ++ [prev]) ++ Q)
    (hg : g ∈ order) (hgd : g ∉ done ++ [prev]) :
    ∃ P2 Q2, reorderAfter order g prev = P2 ++ (done ++ [prev] ++ [g]) ++ Q2 ∧
      (reorderAfter order g prev).Perm order := by
  subst horder
  have hprevP : prev ∉ P := by
    intro hm
    have := (List.nodup_append.1 (List.nodup_append.1 hnd).1).2.2
    exact this hm (by simp)
  have hprevd : prev ∉ done := by
    have h1 := (List.nodup_append.1 (List.nodup_append.1 hnd).1).2.1
    have := (List.nodup_append.1 h1).2.2
    intro hm
    exact this hm (by simp)
  have hgprev : g ≠ prev := fun e => hgd (by simp [e])
  have hgdone : g ∉ done := fun m => hgd (by simp [m])
  by_cases hgP : g ∈ P
  · have herase : (P ++ (done ++ [prev]) ++ Q).erase g = (P.erase g ++ done) ++ prev :: Q := by
      rw [List.append_assoc, List.erase_append_left _ hgP]
      simp
    have hprevPe : prev ∉ P.erase g ++ done := by
      intro hm
      rcases List.mem_append.1 hm with hm | hm
      · exact hprevP (List.mem_of_mem_erase hm)
      · exact hprevd hm
    refine ⟨P.erase g, Q, ?_, ?_⟩
    · unfold reorderAfter
      rw [herase, if_pos (by simp), insertAfter_append prev g _ _ hprevPe]
      simp
    · unfold reorderAfter
      rw [herase, if_pos (by simp), insertAfter_append prev g _ _ hprevPe]
      have hp : (g :: P.erase g).Perm P := (List.perm_cons_erase hgP).symm
      have : (P.erase g ++ done ++ prev :: g :: Q).Perm (g :: P.erase g ++ (done ++ prev :: Q)) := by
        simp only [List.append_assoc, List.cons_append]
        refine List.Perm.trans ?_ (List.perm_middle)
        refine List.Perm.append_left _ ?_
        refine List.Perm.trans ?_ (List.perm_middle)
        refine List.Perm.append_left _ ?_
        exact List.Perm.swap _ _ _
      refine this.trans ?_
      have := List.Perm.append_right (done ++ prev :: Q) hp
      simpa using this
  · have hgQ : g ∈ Q := by
      simp only [List.mem_append, List.mem_singleton] at hg hgd
      tauto
    have hgPd : g ∉ P ++ (done ++ [prev]) := by
      simp only [List.mem_append, List.mem_singleton]
      simp only [List.mem_append, List.mem_singleton] at hgd
      tauto
    have herase : (P ++ (done ++ [prev]) ++ Q).erase g = (P ++ done) ++ prev :: Q.erase g := by
      rw [List.erase_append_right _ hgPd]
      simp
    have hprevPd : prev ∉ P ++ done := by
      intro hm
      rcases List.mem_append.1 hm with hm | hm
      · exact hprevP hm
      · exact hprevd hm
    refine ⟨P, Q.erase g, ?_, ?_⟩
    · unfold reorderAfter
      rw [herase, if_pos (by simp), insertAfter_append prev g _ _ hprevPd]
      simp
    · unfold reorderAfter
      rw [herase, if_pos (by simp), insertAfter_append prev g _ _ hprevPd]
      have hp : (g :: Q.erase g).Perm Q := (List.perm_cons_erase hgQ).symm
      simp only [List.append_assoc]
      refine List.Perm.append_left _ ?_
      refine List.Perm.append_left _ ?_
      simp only [List.singleton_append]
      exact List.Perm.cons _ hp

theorem claimedReorders_cons (prev g : String) (rest : List String) :
    claimedReorders (prev :: g :: rest) =
      (g, { Id := some prev, IsBefore := some false }) :: claimedReorders (g :: rest) := by
  simp [claimedReorders]

theorem applyReorders_claimed_infix :
    ∀ (ids : List String) (prev : String) (done order P Q : List String),
      order.Nodup → order = P ++ (done ++ [prev]) ++ Q → ids.Nodup →
      (∀ g ∈ ids, g ∈ order) → (∀ g ∈ ids, g ∉ done ++ [prev]) →
      ∃ P2 Q2, applyReorders order (claimedReorders (prev :: ids)) =
        P2 ++ (done ++ [prev] ++ ids) ++ Q2 := by
  intro ids
  induction ids with
  | nil =>
    intro prev done order P Q _ horder _ _ _
    exact ⟨P, Q, by simp [claimedReorders, applyReorders, horder]⟩
  | cons g rest ih =>
    intro prev done order P Q hnd horder hids hsub hdis
    obtain ⟨P2, Q2, heq, hperm⟩ := reorderAfter_infix order P done Q prev g hnd horder
      (hsub g (by simp)) (hdis g (by simp))
    have hnd2 : (reorderAfter order g prev).Nodup := hperm.nodup_iff.2 hnd
    have hrest : rest.Nodup := (List.nodup_cons.1 hids).2
    have hgrest : g ∉ rest := (List.nodup_cons.1 hids).1
    obtain ⟨P3, Q3, h3⟩ := ih g (done ++ [prev]) (reorderAfter order g prev) P2 Q2 hnd2 heq hrest
      (fun x hx => hperm.mem_iff.2 (hsub x (by simp [hx])))
      (fun x hx hm => by
        rcases List.mem_append.1 hm with hm | hm
        · exact hdis x (by simp [hx]) hm
        · have : x = g := by simpa using hm
          exact hgrest (this ▸ hx))
    refine ⟨P3, Q3, ?_⟩
    rw [claimedReorders_cons]
    have hstep : applyReorders order
        ((g, { Id := some prev, IsBefore := some false }) :: claimedReorders (g :: rest)) =
        applyReorders (reorderAfter order g prev) (claimedReorders (g :: rest)) := by
      simp [applyReorders]
    rw [hstep, h3]
    simp

theorem mem_dropLast_of_mem_zip_tail :
    ∀ (l : List String) (a b : String), (a, b) ∈ List.zip l l.tail → a ∈ l.dropLast := by
  intro l
  induction l with
  | nil => intro a b hm; simp at hm
  | cons x l ih =>
    intro a b hm
    cases l with
    | nil => simp at hm
    | cons y l =>
      simp only [List.tail_cons, List.zip_cons_cons, List.mem_cons, Prod.mk.injEq] at hm
      rcases hm with ⟨rfl, _⟩ | hm
      · simp [List.dropLast]
      · have := ih a b (by simpa using hm)
        simp only [List.dropLast_cons₂, List.mem_cons]
        exact Or.inr this

theorem issuedReorders_eq_claimed (ids : List String) (hne : "" ∉ ids.dropLast) :
    issuedReorders ids = claimedReorders ids := by
  unfold issuedReorders claimedReorders
  congr 1
  rw [List.filter_eq_self]
  intro p hp
  have := mem_dropLast_of_mem_zip_tail ids p.1 p.2 hp
  have hp1 : p.1 ≠ "" := fun e => hne (e ▸ this)
  simpa using hp1

theorem applyReorders_claimed (ids order : List String) (hnd : order.Nodup) (hids : ids.Nodup)
    (hsub : ∀ g ∈ ids, g ∈ order) : ids <:+: applyReorders order (claimedReorders ids) := by
  cases ids with
  | nil => simp
  | cons g rest =>
    obtain ⟨P, Q, hPQ⟩ := List.append_of_mem (hsub g (by simp))
    obtain ⟨P2, Q2, h2⟩ := applyReorders_claimed_infix rest g [] order P Q hnd (by simp [hPQ])
      (List.nodup_cons.1 hids).2 (fun x hx => hsub x (by simp [hx]))
      (fun x hx hm => by
        have : x = g := by simpa using hm
        exact (List.nodup_cons.1 hids).1 (this ▸ hx))
    exact ⟨P2, Q2, by rw [h2]; simp⟩

/-- C2 (amended): model the remote order of a component's groups as a list of distinct
ids and `Reorder(x, after = y)` as removing `x` and re-inserting it immediately after
`y`.  For every initial remote order and every declared list of distinct ids, all
present in it and none but possibly the last being the empty string, after the
`Reorder` calls issued by a successful `updateUpgradeUnitGroups` the declared groups
appear in the remote order contiguously and in exactly the declared order. -/
theorem updateUpgradeUnitGroups_remote_order (cs : upgradeClientSet) (d : ResourceData)
    (component : Component) (h : History) (order : List String)
    (hok : (updateUpgradeUnitGroups cs d component h).out = Except.ok ())
    (hnd : order.Nodup)
    (hids : ((declaredGroups d component).map (·.id)).Nodup)
    (hsub : ∀ g ∈ (declaredGroups d component).map (·.id), g ∈ order)
    (hne : "" ∉ ((declaredGroups d component).map (·.id)).dropLast) :
    (declaredGroups d component).map (·.id) <:+:
      applyReorders order (reorderCalls (updateUpgradeUnitGroups cs d component h).calls) := by
  have hloop := updateUpgradeUnitGroups_eq_loop cs d component h hok
  have hok2 := hok
  rw [hloop] at hok2
  rw [hloop, updateUpgradeUnitGroupsLoop_reorderCalls cs component _ "" h hok2,
    sentinel_zip_eq_issuedReorders, issuedReorders_eq_claimed _ hne]
  exact applyReorders_claimed _ order hnd hids hsub

theorem updateUpgradeUnitGroups_remote_order_witness :
    applyReorders ["C", "A", "B"] (reorderCalls (updateUpgradeUnitGroups okClientSet
        (dataWithGroups [groupWithId "A", groupWithId "B", groupWithId "C"] [])
        Component.EDGE []).calls) = ["A", "B", "C"] ∧
      ["A", "B", "C"] <:+: applyReorders ["C", "A", "B"]
        (reorderCalls (updateUpgradeUnitGroups okClientSet
          (dataWithGroups [groupWithId "A", groupWithId "B", groupWithId "C"] [])
          Component.EDGE []).calls) :=
  ⟨by decide, updateUpgradeUnitGroups_remote_order okClientSet
    (dataWithGroups [groupWithId "A", groupWithId "B", groupWithId "C"] []) Component.EDGE []
    ["C", "A", "B"] rfl (by decide) (by decide) (by decide) (by decide)⟩

/-- C2 (as stated) fails: with declared edge groups `["", "B"]`, distinct and both present
in the remote order `["B", ""]`, no `Reorder` call is issued, the remote order stays
`["B", ""]`, and the declared sequence is not a contiguous part of it. -/
theorem updateUpgradeUnitGroups_remote_order_counterexample :
    (updateUpgradeUnitGroups okClientSet (dataWithGroups [groupWithId "", groupWithId "B"] [])
        Component.EDGE []).out = Except.ok () ∧
      ["B", ""].Nodup ∧ ["", "B"].Nodup ∧ (∀ g ∈ ["", "B"], g ∈ ["B", ""]) ∧
      applyReorders ["B", ""] (reorderCalls (updateUpgradeUnitGroups okClientSet
        (dataWithGroups [groupWithId "", groupWithId "B"] []) Component.EDGE []).calls) =
        ["B", ""] ∧
      ¬ (["", "B"] <:+: applyReorders ["B", ""] (reorderCalls (updateUpgradeUnitGroups okClientSet
        (dataWithGroups [groupWithId "", groupWithId "B"] []) Component.EDGE []).calls)) := by
  refine ⟨rfl, by decide, by decide, by decide, by decide, by decide⟩

/-! ## Group configurator: the groups sent to `Update` -/

theorem overwriteGroup_eq_claimed (component : Component) (group : UpgradeGroupConfig)
    (fetched : UpgradeUnitGroup) :
    overwriteGroup component group fetched = claimedUpdate component group fetched := by
  cases component <;>
    by_cases h1 : group.upgrade_mode = "" <;>
    by_cases h2 : group.maintenance_mode_config_vsan_mode = "" <;>
    simp [overwriteGroup, claimedUpdate, claimedExtendedConfiguration, h1, h2]

theorem updateUpgradeUnitGroupsLoop_sentUpdates (cs : upgradeClientSet) (component : Component) :
    ∀ (groups : List UpgradeGroupConfig) (pre : String) (h : History),
      sentUpdates (updateUpgradeUnitGroupsLoop cs component groups pre h).calls =
        List.zipWith (fun grp gg => (grp.id, claimedUpdate component grp gg)) groups
          (fetchedGroups (updateUpgradeUnitGroupsLoop cs component groups pre h).calls) := by
  intro groups
  induction groups with
  | nil => intro pre h; simp [updateUpgradeUnitGroupsLoop, M.pure, sentUpdates]
  | cons g rest ih =>
    intro pre h
    rw [updateUpgradeUnitGroupsLoop]
    simp only [M.bind_call_check]
    cases hget : cs.GroupClient.Get h g.id with
    | fail e => simp [sentUpdates, fetchedGroups]
    | ok gg =>
      simp only []
      rw [overwriteGroup_eq_claimed]
      split
      · rename_i upd hupd
        by_cases hpre : pre = ""
        · simp only [hpre, ne_eq, not_true_eq_false, if_false, M.bind_pure]
          have := ih g.id (h ++ [Event.GroupGet g.id (Reply.ok gg)] ++ [Event.GroupUpdate g.id
            (claimedUpdate component g gg) (Reply.ok upd)])
          simp [sentUpdates, fetchedGroups] at this ⊢
          exact this
        · simp only [ne_eq, hpre, not_false_eq_true, if_true, M.bind_call_checkErr]
          split
          · have := ih g.id (h ++ [Event.GroupGet g.id (Reply.ok gg)] ++ [Event.GroupUpdate g.id
              (claimedUpdate component g gg) (Reply.ok upd)] ++ [Event.GroupReorder g.id
              (getReorderAfterReq pre) none])
            simp [sentUpdates, fetchedGroups] at this ⊢
            exact this
          · simp [sentUpdates, fetchedGroups]
      · simp [sentUpdates, fetchedGroups]

theorem updateUpgradeUnitGroupsLoop_fetched_length (cs : upgradeClientSet) (component : Component) :
    ∀ (groups : List UpgradeGroupConfig) (pre : String) (h : History),
      (updateUpgradeUnitGroupsLoop cs component groups pre h).out = Except.ok () →
      (fetchedGroups (updateUpgradeUnitGroupsLoop cs component groups pre h).calls).length =
        groups.length := by
  intro groups
  induction groups with
  | nil => intro pre h _; simp [updateUpgradeUnitGroupsLoop, M.pure, fetchedGroups]
  | cons g rest ih =>
    intro pre h hok
    rw [updateUpgradeUnitGroupsLoop] at hok ⊢
    simp only [M.bind_call_check] at hok ⊢
    cases hget : cs.GroupClient.Get h g.id with
    | fail e => simp [hget] at hok
    | ok gg =>
      simp only [hget] at hok ⊢
      split at hok
      · rename_i upd hupd
        simp only [hupd]
        by_cases hpre : pre = ""
        · subst hpre
          simp only [ne_eq, not_true_eq_false, if_false, M.bind_pure] at hok ⊢
          have := ih g.id _ hok
          simp [fetchedGroups] at this ⊢
          exact this
        · simp only [ne_eq, hpre, not_false_eq_true, if_true, M.bind_call_checkErr] at hok ⊢
          split at hok
          · rename_i hre
            simp only [hre]
            have := ih g.id _ hok
            simp [fetchedGroups] at this ⊢
            exact this
          · simp at hok
      · simp at hok

theorem updateUpgradeUnitGroups_unfold (cs : upgradeClientSet) (d : ResourceData)
    (component : Component) (h : History) (hc : component ≠ Component.MP) :
    updateUpgradeUnitGroups cs d component h =
      updateUpgradeUnitGroupsLoop cs component (declaredGroups d component) "" h := by
  cases component with
  | MP => exact absurd rfl hc
  | EDGE =>
    simp [updateUpgradeUnitGroups, declaredGroups, componentToGroupKey, ResourceData.Get,
      Value.asGroupList, M.bind_pure]
  | HOST =>
    simp [updateUpgradeUnitGroups, declaredGroups, componentToGroupKey, ResourceData.Get,
      Value.asGroupList, M.bind_pure]

theorem zipWith_fst_eq_take_map {α β γ : Type} (f : α → γ) :
    ∀ (l1 : List α) (l2 : List β),
      List.zipWith (fun a _ => f a) l1 l2 = (l1.take l2.length).map f := by
  intro l1
  induction l1 with
  | nil => intro l2; simp
  | cons a l1 ih =>
    intro l2
    cases l2 with
    | nil => simp
    | cons b l2 => simp [ih l2]

theorem forall_mem_zipWith {α β γ : Type} (f : α → β → γ) (P : γ → Prop)
    (hP : ∀ a b, P (f a b)) :
    ∀ (l1 : List α) (l2 : List β), ∀ c ∈ List.zipWith f l1 l2, P c := by
  intro l1
  induction l1 with
  | nil => intro l2 c hc; simp at hc
  | cons a l1 ih =>
    intro l2 c hc
    cases l2 with
    | nil => simp at hc
    | cons b l2 =>
      simp only [List.zipWith_cons_cons, List.mem_cons] at hc
      rcases hc with rfl | hc
      · exact hP a b
      · exact ih l2 c hc

theorem claimedExtendedConfiguration_length (group : UpgradeGroupConfig) :
    2 ≤ (claimedExtendedConfiguration group).length ∧
      (claimedExtendedConfiguration group).length ≤ 4 := by
  unfold claimedExtendedConfiguration
  by_cases h1 : group.upgrade_mode = "" <;>
    by_cases h2 : group.maintenance_mode_config_vsan_mode = "" <;> simp [h1, h2]

/-- C3: for Host, the groups sent to `GroupClient.Update` are, in order, those of the
declared host groups (one per declared group up to the first failing call, all of them
when the function succeeds), and the extended configuration of each is exactly the list
`(upgrade_mode, v)` iff `v` is non-empty, `(maintenance_mode_config_vsan_mode, v)` iff `v`
is non-empty, `(maintenance_mode_config_evacuate_powered_off_vms, "true"/"false")`,
`(rebootless_upgrade, "true"/"false")` built from the declared group alone (nothing from
the fetched group), which has between 2 and 4 entries. -/
theorem updateUpgradeUnitGroups_host_extendedConfiguration (cs : upgradeClientSet)
    (d : ResourceData) (h : History) :
    (sentUpdates (updateUpgradeUnitGroups cs d Component.HOST h).calls).map
        (fun u => (u.1, u.2.ExtendedConfiguration)) =
      (d.host_group.take
          (sentUpdates (updateUpgradeUnitGroups cs d Component.HOST h).calls).length).map
        (fun group => (group.id, claimedExtendedConfiguration group)) ∧
    (∀ u ∈ sentUpdates (updateUpgradeUnitGroups cs d Component.HOST h).calls,
      2 ≤ u.2.ExtendedConfiguration.length ∧ u.2.ExtendedConfiguration.length ≤ 4) ∧
    ((updateUpgradeUnitGroups cs d Component.HOST h).out = Except.ok () →
      (sentUpdates (updateUpgradeUnitGroups cs d Component.HOST h).calls).length =
        d.host_group.length) := by
  have hd : declaredGroups d Component.HOST = d.host_group := rfl
  rw [updateUpgradeUnitGroups_unfold cs d Component.HOST h (by decide), hd]
  have hs := updateUpgradeUnitGroupsLoop_sentUpdates cs Component.HOST d.host_group "" h
  refine ⟨?_, ?_, ?_⟩
  · rw [hs]
    simp only [List.map_zipWith, List.length_zipWith]
    have : (fun (grp : UpgradeGroupConfig) (gg : UpgradeUnitGroup) =>
        (grp.id, (claimedUpdate Component.HOST grp gg).ExtendedConfiguration)) =
        (fun grp _ => (grp.id, claimedExtendedConfiguration grp)) := by
      funext grp gg
      simp [claimedUpdate]
    rw [this, zipWith_fst_eq_take_map]
    congr 1
    rw [List.take_eq_take]
    omega
  · intro u hu
    rw [hs] at hu
    refine forall_mem_zipWith _
      (fun (u : String × UpgradeUnitGroup) =>
        2 ≤ u.2.ExtendedConfiguration.length ∧ u.2.ExtendedConfiguration.length ≤ 4) ?_ _ _ u hu
    intro grp gg
    simpa [claimedUpdate] using claimedExtendedConfiguration_length grp
  · intro hok
    rw [hs, List.length_zipWith,
      updateUpgradeUnitGroupsLoop_fetched_length cs Component.HOST d.host_group "" h hok]
    simp

/-- C4: for Edge, the i-th group sent to `GroupClient.Update` is the i-th group returned
by `GroupClient.Get` with only `Enabled` and `PauseAfterEachUpgradeUnit` overwritten by
the declared values, so its `Parallel` field and its extended configuration are those of
the fetched group whatever `parallel` is declared; every declared edge group is so sent
when the function succeeds.  For Host, the `Parallel` field sent is the declared value. -/
theorem updateUpgradeUnitGroups_parallel (cs : upgradeClientSet) (d : ResourceData)
    (h : History) :
    sentUpdates (updateUpgradeUnitGroups cs d Component.EDGE h).calls =
      List.zipWith
        (fun group fetched =>
          (group.id,
            { fetched with
              Enabled := some group.enabled
              PauseAfterEachUpgradeUnit := some group.pause_after_each_upgrade_unit }))
        d.edge_group (fetchedGroups (updateUpgradeUnitGroups cs d Component.EDGE h).calls) ∧
    ((updateUpgradeUnitGroups cs d Component.EDGE h).out = Except.ok () →
      (sentUpdates (updateUpgradeUnitGroups cs d Component.EDGE h).calls).length =
        d.edge_group.length) ∧
    (sentUpdates (updateUpgradeUnitGroups cs d Component.HOST h).calls).map
        (fun u => (u.1, u.2.Parallel)) =
      (d.host_group.take
          (sentUpdates (updateUpgradeUnitGroups cs d Component.HOST h).calls).length).map
        (fun group => (group.id, some group.parallel)) := by
  have hde : declaredGroups d Component.EDGE = d.edge_group := rfl
  have hdh : declaredGroups d Component.HOST = d.host_group := rfl
  rw [updateUpgradeUnitGroups_unfold cs d Component.EDGE h (by decide), hde,
    updateUpgradeUnitGroups_unfold cs d Component.HOST h (by decide), hdh]
  have hse := updateUpgradeUnitGroupsLoop_sentUpdates cs Component.EDGE d.edge_group "" h
  have hsh := updateUpgradeUnitGroupsLoop_sentUpdates cs Component.HOST d.host_group "" h
  refine ⟨?_, ?_, ?_⟩
  · rw [hse]
    simp [claimedUpdate]
  · intro hok
    rw [hse, List.length_zipWith,
      updateUpgradeUnitGroupsLoop_fetched_length cs Component.EDGE d.edge_group "" h hok]
    simp
  · rw [hsh]
    simp only [List.map_zipWith, List.length_zipWith]
    have : (fun (grp : UpgradeGroupConfig) (gg : UpgradeUnitGroup) =>
        (grp.id, (claimedUpdate Component.HOST grp gg).Parallel)) =
        (fun grp _ => (grp.id, some grp.parallel)) := by
      funext grp gg
      simp [claimedUpdate]
    rw [this, zipWith_fst_eq_take_map]
    congr 1
    rw [List.take_eq_take]
    omega

/-! ## Settings configurator -/

theorem updateComponentUpgradePlanSetting_calls (settingClient : SettingsClient)
    (d : ResourceData) (component : Component) (h : History)
    (setting : UpgradeSettingConfig) (rest : List UpgradeSettingConfig)
    (fetched : UpgradePlanSettings)
    (hdecl : d.Get (componentToSettingKey component) = Value.settingList (setting :: rest))
    (hget : settingClient.Get h component = Reply.ok fetched) :
    sentSettings (updateComponentUpgradePlanSetting settingClient d component h).calls =
      [(component,
        { fetched with
          Parallel := some setting.parallel
          PauseOnError :=
            if component = Component.EDGE then fetched.PauseOnError
            else some setting.stop_on_error })] := by
  unfold updateComponentUpgradePlanSetting
  rw [hdecl]
  simp only [Value.asSettingList, M.bind_pure, M.bind_call_check, hget]
  by_cases hc : component = Component.EDGE
  · subst hc
    simp only [ne_eq, not_true_eq_false, if_false, if_true]
    split <;> simp_all [M.pure, sentSettings]
  · simp only [ne_eq, hc, not_false_eq_true, if_true, if_false]
    split <;> simp_all [M.pure, sentSettings]

/-- C5: when a settings block is declared for a component and `SettingClient.Get`
succeeds, `updateComponentUpgradePlanSetting` issues exactly the calls `Get(component)`
and then one `Update(component, s)`, where `s` is the fetched settings with `Parallel`
replaced by the declared `parallel` and, for a component other than Edge, `PauseOnError`
replaced by the declared `stop_on_error`; every other field is as fetched, nothing of
`post_upgrade_check` enters `s`, and the function returns what `Update` returns. -/
theorem updateComponentUpgradePlanSetting_update (settingClient : SettingsClient)
    (d : ResourceData) (component : Component) (h : History)
    (setting : UpgradeSettingConfig) (rest : List UpgradeSettingConfig)
    (fetched : UpgradePlanSettings)
    (hdecl : d.Get (componentToSettingKey component) = Value.settingList (setting :: rest))
    (hget : settingClient.Get h component = Reply.ok fetched) :
    (updateComponentUpgradePlanSetting settingClient d component h).calls =
      [Event.SettingGet component (Reply.ok fetched),
       Event.SettingUpdate component
        { fetched with
          Parallel := some setting.parallel
          PauseOnError :=
            if component = Component.EDGE then fetched.PauseOnError
            else some setting.stop_on_error }
        (settingClient.Update (h ++ [Event.SettingGet component (Reply.ok fetched)]) component
          { fetched with
            Parallel := some setting.parallel
            PauseOnError :=
              if component = Component.EDGE then fetched.PauseOnError
              else some setting.stop_on_error })] ∧
    (updateComponentUpgradePlanSetting settingClient d component h).out =
      (match settingClient.Update (h ++ [Event.SettingGet component (Reply.ok fetched)]) component
          { fetched with
            Parallel := some setting.parallel
            PauseOnError :=
              if component = Component.EDGE then fetched.PauseOnError
              else some setting.stop_on_error } with
        | Reply.ok _ => Except.ok ()
        | Reply.fail e => Except.error (Err.remote e)) := by
  unfold updateComponentUpgradePlanSetting
  rw [hdecl]
  simp only [Value.asSettingList, M.bind_pure, M.bind_call_check, hget]
  by_cases hc : component = Component.EDGE
  · subst hc
    simp only [ne_eq, not_true_eq_false, if_false, if_true]
    split <;> simp_all [M.pure]
  · simp only [ne_eq, hc, not_false_eq_true, if_true, if_false]
    split <;> simp_all [M.pure]

theorem updateComponentUpgradePlanSetting_update_witness :
    (updateComponentUpgradePlanSetting fullSettingsClient
        (dataWithSettings []
          [{ post_upgrade_check := true, parallel := true, stop_on_error := false }])
        Component.HOST []).calls =
      [Event.SettingGet Component.HOST (Reply.ok
         { Parallel := some false, PauseAfterEachGroup := some false, PauseOnError := some true }),
       Event.SettingUpdate Component.HOST
         { Parallel := some true, PauseAfterEachGroup := some false, PauseOnError := some false }
         (Reply.ok
           { Parallel := some true, PauseAfterEachGroup := some false,
             PauseOnError := some false })] :=
  (updateComponentUpgradePlanSetting_update fullSettingsClient
    (dataWithSettings [] [{ post_upgrade_check := true, parallel := true, stop_on_error := false }])
    Component.HOST []
    { post_upgrade_check := true, parallel := true, stop_on_error := false } []
    { Parallel := some false, PauseAfterEachGroup := some false, PauseOnError := some true }
    rfl rfl).1

/-- C6 (amended): the settings passed to `SettingClient.Update` for Edge carry the
pause-on-error field exactly as `SettingClient.Get` returned it for Edge (unset if and only
if the fetched settings have it unset); it is never set from the declared settings. -/
theorem updateComponentUpgradePlanSetting_edge_pauseOnError (settingClient : SettingsClient)
    (d : ResourceData) (h : History) (s : UpgradePlanSettings)
    (hs : (Component.EDGE, s) ∈
      sentSettings (updateComponentUpgradePlanSetting settingClient d Component.EDGE h).calls) :
    ∃ fetched, settingClient.Get h Component.EDGE = Reply.ok fetched ∧
      s.PauseOnError = fetched.PauseOnError ∧
      sentSettings (updateComponentUpgradePlanSetting settingClient d Component.EDGE h).calls =
        [(Component.EDGE, s)] := by
  have hkey : d.Get (componentToSettingKey Component.EDGE) =
      Value.settingList d.edge_upgrade_setting := by
    simp [componentToSettingKey, ResourceData.Get]
  cases hl : d.edge_upgrade_setting with
  | nil =>
    simp [updateComponentUpgradePlanSetting, hkey, hl, Value.asSettingList, M.bind_pure,
      M.pure, sentSettings] at hs
  | cons setting rest =>
    cases hget : settingClient.Get h Component.EDGE with
    | fail e =>
      simp [updateComponentUpgradePlanSetting, hkey, hl, Value.asSettingList, M.bind_pure,
        M.bind_call_check, hget, sentSettings] at hs
    | ok fetched =>
      have hcalls := updateComponentUpgradePlanSetting_calls settingClient d Component.EDGE h
        setting rest fetched (by rw [hkey, hl]) hget
      rw [hcalls] at hs ⊢
      simp only [List.mem_singleton, Prod.mk.injEq, true_and, if_true] at hs ⊢
      subst hs
      exact ⟨fetched, rfl, rfl, rfl⟩

theorem updateComponentUpgradePlanSetting_edge_pauseOnError_witness :
    ∃ fetched, fullSettingsClient.Get [] Component.EDGE = Reply.ok fetched ∧
      (some true : Option Bool) = fetched.PauseOnError ∧
      sentSettings (updateComponentUpgradePlanSetting fullSettingsClient
        (dataWithSettings [{ post_upgrade_check := true, parallel := true, stop_on_error := false }]
          []) Component.EDGE []).calls =
        [(Component.EDGE,
          { Parallel := some true, PauseAfterEachGroup := some false,
            PauseOnError := some true })] :=
  updateComponentUpgradePlanSetting_edge_pauseOnError fullSettingsClient
    (dataWithSettings [{ post_upgrade_check := true, parallel := true, stop_on_error := false }] [])
    [] { Parallel := some true, PauseAfterEachGroup := some false, PauseOnError := some true }
    (by decide)

/-- C6 (as stated) fails: when `SettingClient.Get` returns Edge settings whose pause-on-error
field is set, the settings passed to `SettingClient.Update` for Edge carry that field. -/
theorem updateComponentUpgradePlanSetting_edge_pauseOnError_counterexample :
    sentSettings (updateComponentUpgradePlanSetting fullSettingsClient
        (dataWithSettings [{ post_upgrade_check := true, parallel := true, stop_on_error := false }]
          []) Component.EDGE []).calls =
      [(Component.EDGE,
        { Parallel := some true, PauseAfterEachGroup := some false, PauseOnError := some true })] ∧
    ¬ (∀ p ∈ sentSettings (updateComponentUpgradePlanSetting fullSettingsClient
        (dataWithSettings [{ post_upgrade_check := true, parallel := true, stop_on_error := false }]
          []) Component.EDGE []).calls, p.2.PauseOnError = none) := by
  refine ⟨by decide, by decide⟩

/-! ## Run driver: the status sets of the wait after `Upgrade` -/

theorem getPartialUpgradeMapGroups_iff (groups : List UpgradeGroupConfig) :
    getPartialUpgradeMapGroups groups = true ↔
      ∃ g ∈ groups, g.enabled = false ∨ g.pause_after_each_upgrade_unit = true := by
  induction groups with
  | nil => simp [getPartialUpgradeMapGroups]
  | cons g rest ih =>
    unfold getPartialUpgradeMapGroups
    by_cases hg : (!g.enabled || g.pause_after_each_upgrade_unit) = true
    · simp only [hg, if_true, true_iff]
      refine ⟨g, by simp, ?_⟩
      cases he : g.enabled <;> simp_all
    · have hno : ¬ (g.enabled = false ∨ g.pause_after_each_upgrade_unit = true) := by
        cases he : g.enabled <;> simp_all
      simp only [hg, List.mem_cons, exists_eq_or_imp, hno, false_or]
      simpa using ih

theorem getPartialUpgradeMap_iff (d : ResourceData) (c : Component) :
    getPartialUpgradeMap d c = true ↔
      (c ≠ Component.MP ∧
        ∃ g ∈ declaredGroups d c, g.enabled = false ∨ g.pause_after_each_upgrade_unit = true) := by
  have he : declaredGroups d Component.EDGE = d.edge_group := rfl
  have hh : declaredGroups d Component.HOST = d.host_group := rfl
  have hke : d.Get (componentToGroupKey Component.EDGE) = Value.groupList d.edge_group := rfl
  have hkh : d.Get (componentToGroupKey Component.HOST) = Value.groupList d.host_group := rfl
  unfold getPartialUpgradeMap upgradeComponentList
  simp only [getPartialUpgradeMapLoop, hke, hkh, edgeUpgradeGroup, hostUpgradeGroup,
    mpUpgradeGroup, if_true, if_false, reduceCtorEq]
  by_cases h1 : getPartialUpgradeMapGroups d.edge_group = true <;>
    by_cases h2 : getPartialUpgradeMapGroups d.host_group = true <;>
    cases c <;>
    simp [h1, h2, he, hh, Function.update, ← getPartialUpgradeMapGroups_iff]

/-- C7: in the iteration of `runUpgrade` for a component that is launched (not the skipped
Management), the wait that follows `Upgrade(component)` is `waitUpgradeForStatus` with
the pending and target sets of `runUpgradeStatusSets`.  With the map of
`getPartialUpgradeMap`, for Edge and Host these are pending `{InProgress, Pausing}` and
target `{Success, Paused}` if and only if some declared group of the component has
`enabled = false` or `pause_after_each_upgrade_unit = true`, and pending `{InProgress}`
and target `{Success}` when every declared group has `enabled = true` and
`pause_after_each_upgrade_unit = false`; for Management they are always `{InProgress}`
and `{Success}`. -/
theorem runUpgrade_status_sets (cs : upgradeClientSet) (d : ResourceData) (c : Component)
    (rest : List Component) (partialUpgradeExist : Bool) (h : History)
    (hlaunch : ¬ (c = Component.MP ∧ partialUpgradeExist = true)) :
    runUpgradeLoop cs (getPartialUpgradeMap d) (c :: rest) partialUpgradeExist h =
      M.bind (waitUpgradeForStatus cs none inFlightComponentUpgradeStatus
        staticComponentUpgradeStatus) (fun _ =>
      M.bind (M.call (fun h => cs.PlanClient.Upgrade h c) (Event.Upgrade c)) fun _ =>
      M.bind (waitUpgradeForStatus cs (some c)
        (runUpgradeStatusSets (getPartialUpgradeMap d) c partialUpgradeExist).1
        (runUpgradeStatusSets (getPartialUpgradeMap d) c partialUpgradeExist).2.1) fun _ =>
      runUpgradeLoop cs (getPartialUpgradeMap d) rest
        (runUpgradeStatusSets (getPartialUpgradeMap d) c partialUpgradeExist).2.2) h ∧
    (((runUpgradeStatusSets (getPartialUpgradeMap d) c partialUpgradeExist).1 =
          [Status.IN_PROGRESS, Status.PAUSING] ∧
        (runUpgradeStatusSets (getPartialUpgradeMap d) c partialUpgradeExist).2.1 =
          [Status.SUCCESS, Status.PAUSED]) ↔
      (c ≠ Component.MP ∧ ∃ g ∈ declaredGroups d c,
        g.enabled = false ∨ g.pause_after_each_upgrade_unit = true)) ∧
    ((c = Component.MP ∨ ∀ g ∈ declaredGroups d c,
        g.enabled = true ∧ g.pause_after_each_upgrade_unit = false) →
      (runUpgradeStatusSets (getPartialUpgradeMap d) c partialUpgradeExist).1 =
          [Status.IN_PROGRESS] ∧
        (runUpgradeStatusSets (getPartialUpgradeMap d) c partialUpgradeExist).2.1 =
          [Status.SUCCESS]) := by
  refine ⟨?_, ?_, ?_⟩
  · rw [runUpgradeLoop]
    simp only [mpUpgradeGroup, hlaunch, if_false]
  · rw [← getPartialUpgradeMap_iff]
    unfold runUpgradeStatusSets
    by_cases hp : getPartialUpgradeMap d c = true <;> simp [hp]
  · intro hall
    have hnot : ¬ (getPartialUpgradeMap d c = true) := by
      rw [getPartialUpgradeMap_iff]
      rintro ⟨hc, g, hg, hbad⟩
      rcases hall with hmp | hall
      · exact hc hmp
      · have := hall g hg
        rcases hbad with hb | hb
        · rw [this.1] at hb; exact Bool.noConfusion hb
        · rw [this.2] at hb; exact Bool.noConfusion hb
    unfold runUpgradeStatusSets
    simp [hnot]

theorem runUpgrade_status_sets_witness :
    (runUpgradeStatusSets
        (getPartialUpgradeMap
          (dataWithGroups [groupWithId "A", { groupWithId "B" with enabled := false }] []))
        Component.EDGE false).1 = [Status.IN_PROGRESS, Status.PAUSING] ∧
      (runUpgradeStatusSets
        (getPartialUpgradeMap
          (dataWithGroups [groupWithId "A", { groupWithId "B" with enabled := false }] []))
        Component.EDGE false).2.1 = [Status.SUCCESS, Status.PAUSED] :=
  ((runUpgrade_status_sets okClientSet
    (dataWithGroups [groupWithId "A", { groupWithId "B" with enabled := false }] [])
    Component.EDGE [] false [] (by decide)).2.1).2
    ⟨by decide, { groupWithId "B" with enabled := false }, by decide, Or.inl rfl⟩

/-! ## Status poller: the calls of a wait -/

theorem M.bind_calls {α β : Type} (m : M α) (f : α → M β) (h : History) :
    (M.bind m f h).calls =
      (m h).calls ++
        (match (m h).out with
          | Except.ok a => (f a (h ++ (m h).calls)).calls
          | Except.error _ => []) := by
  unfold M.bind
  cases (m h).out <;> simp

theorem M.bind_out {α β : Type} (m : M α) (f : α → M β) (h : History) :
    (M.bind m f h).out =
      (match (m h).out with
        | Except.ok a => (f a (h ++ (m h).calls)).out
        | Except.error e => Except.error e) := by
  unfold M.bind
  cases (m h).out <;> simp

theorem getUpgradeStatus_calls (statusClient : StatusSummaryClient)
    (component : Option Component) (h : History) :
    (getUpgradeStatus statusClient component h).calls =
      [Event.StatusGet component (statusClient.Get h component)] := by
  unfold getUpgradeStatus
  rw [M.bind_call_check]
  cases hr : statusClient.Get h component with
  | fail e => simp
  | ok s =>
    cases component with
    | none => simp [M.pure]
    | some c =>
      simp only []
      cases hf : s.ComponentStatus.find? (fun componentStatus =>
        componentStatus.ComponentType = c) <;> simp [M.pure, M.fail]

theorem getUpgradeStatus_out (statusClient : StatusSummaryClient)
    (component : Option Component) (h : History) :
    (getUpgradeStatus statusClient component h).out =
      (match statusClient.Get h component with
        | Reply.fail e => Except.error (Err.remote e)
        | Reply.ok s =>
          match component with
          | none => Except.ok { Status := s.OverallUpgradeStatus, Detail := "" }
          | some c =>
            match s.ComponentStatus.find? (fun componentStatus =>
                componentStatus.ComponentType = c) with
            | some componentStatus =>
              Except.ok
                { Status := componentStatus.Status
                  Detail := match componentStatus.Details with
                    | some details => details
                    | none => "" }
            | none => Except.error (Err.statusNotFound c)) := by
  unfold getUpgradeStatus
  rw [M.bind_call_check]
  cases hr : statusClient.Get h component with
  | fail e => simp
  | ok s =>
    cases component with
    | none => simp [M.pure]
    | some c =>
      simp only []
      cases hf : s.ComponentStatus.find? (fun componentStatus =>
        componentStatus.ComponentType = c) <;> simp [M.pure, M.fail]

theorem waitUpgradeForStatusRefresh_run (cs : upgradeClientSet) (component : Option Component)
    (h : History) :
    (waitUpgradeForStatusRefresh cs component h).calls =
        [Event.StatusGet component (cs.StatusClient.Get h component)] ∧
      ∃ r, (waitUpgradeForStatusRefresh cs component h).out = Except.ok r ∧
        (r.err = none →
          refreshState component (cs.StatusClient.Get h component) = some r.state) := by
  have hc := getUpgradeStatus_calls cs.StatusClient component h
  have ho := getUpgradeStatus_out cs.StatusClient component h
  unfold waitUpgradeForStatusRefresh
  rw [M.bind_calls, M.bind_out]
  unfold M.attempt
  rw [hc, ho]
  cases hr : cs.StatusClient.Get h component with
  | fail e =>
    cases e <;> cases component with
    | none => simp [M.pure, refreshState, isServiceUnavailableError, isTimeoutError]
    | some c =>
      cases c <;> simp [M.pure, refreshState, isServiceUnavailableError, isTimeoutError]
  | ok s =>
    cases component with
    | none => simp [M.pure, refreshState, isServiceUnavailableError, isTimeoutError]
    | some c =>
      simp only [observedStatus, refreshState]
      cases hf : s.ComponentStatus.find? (fun componentStatus =>
        componentStatus.ComponentType = c) <;>
        cases c <;> simp [M.pure, isServiceUnavailableError, isTimeoutError]

theorem WaitForStateLoop_calls (cs : upgradeClientSet) (component : Option Component)
    (conf : StateChangeConf) (hconf : conf.Refresh = waitUpgradeForStatusRefresh cs component) :
    ∀ (n : Nat) (last : Option Status) (h : History),
      (∀ e ∈ (WaitForStateLoop conf n last h).calls, ∃ reply, e = Event.StatusGet component reply) ∧
      (∀ res, (WaitForStateLoop conf n last h).out = Except.ok (res, none) →
        ∃ p reply st, (WaitForStateLoop conf n last h).calls =
            p ++ [Event.StatusGet component reply] ∧
          refreshState component reply = some st ∧ st ∈ conf.Target) := by
  intro n
  induction n with
  | zero =>
    intro last h
    simp [WaitForStateLoop, M.pure]
  | succ n ih =>
    intro last h
    obtain ⟨hcalls, r, hout, hstate⟩ := waitUpgradeForStatusRefresh_run cs component h
    rw [WaitForStateLoop, M.bind_calls, M.bind_out, hconf, hcalls, hout]
    simp only []
    cases herr : r.err with
    | some err => simp [M.pure]
    | none =>
      simp only []
      have hst := hstate herr
      by_cases ht : r.state ∈ conf.Target
      · simp only [ht, if_true]
        refine ⟨by simp [M.pure], ?_⟩
        intro res _
        exact ⟨[], _, r.state, by simp [M.pure], hst, ht⟩
      · simp only [ht, if_false]
        have hrec := ih (some r.state)
          (h ++ [Event.StatusGet component (cs.StatusClient.Get h component)])
        by_cases hp : r.state ∈ conf.Pending
        · simp only [hp, if_true]
          refine ⟨?_, ?_⟩
          · intro e he
            simp only [List.singleton_append, List.mem_cons] at he
            rcases he with rfl | he
            · exact ⟨_, rfl⟩
            · exact hrec.1 e he
          · intro res hres
            obtain ⟨p, reply, st, hp1, hp2, hp3⟩ := hrec.2 res hres
            exact ⟨Event.StatusGet component (cs.StatusClient.Get h component) :: p, reply, st,
              by simp [hp1], hp2, hp3⟩
        · simp only [hp, if_false]
          by_cases hne : conf.Pending = []
          · simp only [hne, ne_eq, not_true_eq_false, if_false]
            refine ⟨?_, ?_⟩
            · intro e he
              simp only [List.singleton_append, List.mem_cons] at he
              rcases he with rfl | he
              · exact ⟨_, rfl⟩
              · exact hrec.1 e he
            · intro res hres
              obtain ⟨p, reply, st, hp1, hp2, hp3⟩ := hrec.2 res hres
              exact ⟨Event.StatusGet component (cs.StatusClient.Get h component) :: p, reply, st,
                by simp [hp1], hp2, hp3⟩
          · simp [hne, M.pure]

theorem waitUpgradeForStatus_calls (cs : upgradeClientSet) (component : Option Component)
    (pending target : List Status) (h : History) :
    (∀ e ∈ (waitUpgradeForStatus cs component pending target h).calls,
      ∃ reply, e = Event.StatusGet component reply) ∧
    ((waitUpgradeForStatus cs component pending target h).succeeded = true →
      ∃ p reply st, (waitUpgradeForStatus cs component pending target h).calls =
          p ++ [Event.StatusGet component reply] ∧
        refreshState component reply = some st ∧ st ∈ target) := by
  have hloop := WaitForStateLoop_calls cs component
    { Pending := pending, Target := target,
      Refresh := waitUpgradeForStatusRefresh cs component,
      Timeout := cs.Timeout, PollInterval := cs.Interval, Delay := cs.Delay } rfl
    (cs.Probes h) none h
  unfold waitUpgradeForStatus Run.succeeded
  simp only [M.bind_calls, M.bind_out, WaitForState]
  rcases hw : (WaitForStateLoop
    { Pending := pending, Target := target,
      Refresh := waitUpgradeForStatusRefresh cs component,
      Timeout := cs.Timeout, PollInterval := cs.Interval, Delay := cs.Delay }
    (cs.Probes h) none h).out with e | ⟨res, err⟩
  · simp only [List.append_nil]
    exact ⟨hloop.1, by simp⟩
  · cases err with
    | none =>
      simp only [M.pure, List.append_nil]
      refine ⟨hloop.1, fun _ => ?_⟩
      exact hloop.2 res hw
    | some werr =>
      refine ⟨?_, ?_⟩
      · cases res with
        | nilInterface => simpa [M.fail] using hloop.1
        | statusPtr p => cases p <;> simpa [M.fail] using hloop.1
        | str s => simpa [M.fail] using hloop.1
      · cases res with
        | nilInterface => simp [M.fail]
        | statusPtr p => cases p <;> simp [M.fail]
        | str s => simp [M.fail]

/-! ## Run driver: the shape of a run of `runUpgrade` -/

theorem Run.succeeded_false {α : Type} (r : Run α) (h : ¬ r.succeeded = true) :
    ∃ e, r.out = Except.error e := by
  unfold Run.succeeded at h
  cases ho : r.out with
  | ok a => simp [ho] at h
  | error e => exact ⟨e, rfl⟩

theorem Run.succeeded_true {α : Type} (r : Run α) (h : r.succeeded = true) :
    ∃ a, r.out = Except.ok a := by
  unfold Run.succeeded at h
  cases ho : r.out with
  | ok a => exact ⟨a, rfl⟩
  | error e => simp [ho] at h

theorem runUpgradeLoop_cons (cs : upgradeClientSet) (pm : Component → Bool) (c : Component)
    (rest : List Component) (pe : Bool) (h : History) :
    runUpgradeLoop cs pm (c :: rest) pe h =
      if (overallWait cs h).succeeded = true then
        if c = Component.MP ∧ pe = true then
          Run.after (overallWait cs h).calls
            (runUpgradeLoop cs pm rest pe (h ++ (overallWait cs h).calls))
        else if (componentWait cs pm c pe (h ++ (overallWait cs h).calls ++
            [upgradeEvent cs c (h ++ (overallWait cs h).calls)])).succeeded = true then
          Run.after ((overallWait cs h).calls ++
              upgradeEvent cs c (h ++ (overallWait cs h).calls) ::
                (componentWait cs pm c pe (h ++ (overallWait cs h).calls ++
                  [upgradeEvent cs c (h ++ (overallWait cs h).calls)])).calls)
            (runUpgradeLoop cs pm rest (runUpgradeStatusSets pm c pe).2.2
              (h ++ (overallWait cs h).calls ++
                [upgradeEvent cs c (h ++ (overallWait cs h).calls)] ++
                (componentWait cs pm c pe (h ++ (overallWait cs h).calls ++
                  [upgradeEvent cs c (h ++ (overallWait cs h).calls)])).calls))
        else
          ⟨(componentWait cs pm c pe (h ++ (overallWait cs h).calls ++
              [upgradeEvent cs c (h ++ (overallWait cs h).calls)])).out,
            (overallWait cs h).calls ++
              upgradeEvent cs c (h ++ (overallWait cs h).calls) ::
                (componentWait cs pm c pe (h ++ (overallWait cs h).calls ++
                  [upgradeEvent cs c (h ++ (overallWait cs h).calls)])).calls⟩
      else ⟨(overallWait cs h).out, (overallWait cs h).calls⟩ := by
  rw [runUpgradeLoop]
  by_cases hw : (overallWait cs h).succeeded = true
  · obtain ⟨u0, hu0⟩ := Run.succeeded_true _ hw
    have hu0b := hu0
    unfold overallWait at hu0b
    simp only [hw, if_true]
    by_cases hskip : c = Component.MP ∧ pe = true
    · simp only [hskip, mpUpgradeGroup, and_self, if_true]
      simp only [M.bind, hu0b, Run.after, overallWait]
    · simp only [hskip, mpUpgradeGroup, if_false]
      by_cases hwc : (componentWait cs pm c pe (h ++ (overallWait cs h).calls ++
          [upgradeEvent cs c (h ++ (overallWait cs h).calls)])).succeeded = true
      · obtain ⟨u1, hu1⟩ := Run.succeeded_true _ hwc
        have hu1b := hu1
        unfold componentWait upgradeEvent overallWait at hu1b
        simp only [hwc, if_true]
        simp only [List.append_assoc, List.singleton_append, List.cons_append,
          List.nil_append] at hu1b
        simp only [M.bind, M.call, hu0b, Run.after, overallWait, componentWait,
          upgradeEvent, List.append_assoc, List.singleton_append, List.cons_append,
          List.nil_append]
        simp only [hu1b]
      · obtain ⟨e1, he1⟩ := Run.succeeded_false _ hwc
        have he1b := he1
        unfold componentWait upgradeEvent overallWait at he1b
        simp only [hwc, if_false]
        simp only [List.append_assoc, List.singleton_append, List.cons_append,
          List.nil_append] at he1b
        simp only [M.bind, M.call, hu0b, overallWait, componentWait,
          upgradeEvent, List.append_assoc, List.singleton_append, List.cons_append,
          List.nil_append]
        simp only [he1b]
        simp
  · obtain ⟨e0, he0⟩ := Run.succeeded_false _ hw
    have he0b := he0
    unfold overallWait at he0b
    simp only [hw, if_false]
    simp only [M.bind, he0b, overallWait]
    simp

theorem runUpgrade_calls_eq (cs : upgradeClientSet) (pm : Component → Bool) (h : History) :
    let w0 := overallWait cs h
    let uE := upgradeEvent cs Component.EDGE (h ++ w0.calls)
    let wE := componentWait cs pm Component.EDGE false (h ++ w0.calls ++ [uE])
    let w1 := overallWait cs (h ++ w0.calls ++ [uE] ++ wE.calls)
    let uH := upgradeEvent cs Component.HOST (h ++ w0.calls ++ [uE] ++ wE.calls ++ w1.calls)
    let peH := (runUpgradeStatusSets pm Component.EDGE false).2.2
    let wH := componentWait cs pm Component.HOST peH
      (h ++ w0.calls ++ [uE] ++ wE.calls ++ w1.calls ++ [uH])
    let w2 := overallWait cs (h ++ w0.calls ++ [uE] ++ wE.calls ++ w1.calls ++ [uH] ++ wH.calls)
    let peM := (runUpgradeStatusSets pm Component.HOST peH).2.2
    let uM := upgradeEvent cs Component.MP
      (h ++ w0.calls ++ [uE] ++ wE.calls ++ w1.calls ++ [uH] ++ wH.calls ++ w2.calls)
    let wM := componentWait cs pm Component.MP peM
      (h ++ w0.calls ++ [uE] ++ wE.calls ++ w1.calls ++ [uH] ++ wH.calls ++ w2.calls ++ [uM])
    (runUpgrade cs pm h).calls =
      w0.calls ++
        (if w0.succeeded = true then
          uE :: wE.calls ++
            (if wE.succeeded = true then
              w1.calls ++
                (if w1.succeeded = true then
                  uH :: wH.calls ++
                    (if wH.succeeded = true then
                      w2.calls ++
                        (if w2.succeeded = true ∧ peM = false then uM :: wM.calls else [])
                    else [])
                else [])
            else [])
        else []) := by
  have hnil : ∀ (pe : Bool) (h2 : History),
      runUpgradeLoop cs pm [] pe h2 = ⟨Except.ok (), []⟩ := fun _ _ => rfl
  simp only [runUpgrade, upgradeComponentList, runUpgradeLoop_cons, hnil,
    Run.after, edgeUpgradeGroup, hostUpgradeGroup, mpUpgradeGroup, reduceCtorEq, false_and,
    if_false, true_and]
  split_ifs <;> simp_all

theorem upgradeCalls_append (a b : List Event) :
    upgradeCalls (a ++ b) = upgradeCalls a ++ upgradeCalls b := by
  simp [upgradeCalls, List.filterMap_append]

theorem upgradeCalls_probes (component : Option Component) (l : List Event)
    (hl : ∀ e ∈ l, ∃ reply, e = Event.StatusGet component reply) : upgradeCalls l = [] := by
  unfold upgradeCalls
  rw [List.filterMap_eq_nil_iff]
  intro e he
  obtain ⟨reply, rfl⟩ := hl e he
  rfl

theorem upgradeCalls_overallWait (cs : upgradeClientSet) (h : History) :
    upgradeCalls (overallWait cs h).calls = [] :=
  upgradeCalls_probes none _ (waitUpgradeForStatus_calls cs none _ _ h).1

theorem upgradeCalls_componentWait (cs : upgradeClientSet) (pm : Component → Bool)
    (c : Component) (pe : Bool) (h : History) :
    upgradeCalls (componentWait cs pm c pe h).calls = [] :=
  upgradeCalls_probes (some c) _ (waitUpgradeForStatus_calls cs (some c) _ _ h).1

theorem upgradeCalls_upgradeEvent (cs : upgradeClientSet) (c : Component) (h : History)
    (l : List Event) :
    upgradeCalls (upgradeEvent cs c h :: l) = c :: upgradeCalls l := by
  simp [upgradeCalls, upgradeEvent]

/-- C10: the calls of `runUpgrade` are those of the wait for a stable overall status;
then, only if that wait returned success, `Upgrade(Edge)` and the calls of the status wait
of Edge; then, only if that wait returned success, the calls of the next overall wait;
then, only if that returned success, `Upgrade(Host)` and the calls of the status wait of
Host; and in the same way the overall wait and `Upgrade(Management)` with its wait (the
last pair only when no partial upgrade was recorded).  So every `Upgrade` is issued only
after the status wait of the previously launched component and the following overall
wait have both returned success, and the `Upgrade` calls form a subsequence of
`[Upgrade(Edge), Upgrade(Host), Upgrade(Management)]`. -/
theorem runUpgrade_upgrade_order (cs : upgradeClientSet) (pm : Component → Bool) (h : History) :
    let w0 := overallWait cs h
    let uE := upgradeEvent cs Component.EDGE (h ++ w0.calls)
    let wE := componentWait cs pm Component.EDGE false (h ++ w0.calls ++ [uE])
    let w1 := overallWait cs (h ++ w0.calls ++ [uE] ++ wE.calls)
    let uH := upgradeEvent cs Component.HOST (h ++ w0.calls ++ [uE] ++ wE.calls ++ w1.calls)
    let peH := (runUpgradeStatusSets pm Component.EDGE false).2.2
    let wH := componentWait cs pm Component.HOST peH
      (h ++ w0.calls ++ [uE] ++ wE.calls ++ w1.calls ++ [uH])
    let w2 := overallWait cs (h ++ w0.calls ++ [uE] ++ wE.calls ++ w1.calls ++ [uH] ++ wH.calls)
    let peM := (runUpgradeStatusSets pm Component.HOST peH).2.2
    let uM := upgradeEvent cs Component.MP
      (h ++ w0.calls ++ [uE] ++ wE.calls ++ w1.calls ++ [uH] ++ wH.calls ++ w2.calls)
    let wM := componentWait cs pm Component.MP peM
      (h ++ w0.calls ++ [uE] ++ wE.calls ++ w1.calls ++ [uH] ++ wH.calls ++ w2.calls ++ [uM])
    List.Sublist (upgradeCalls (runUpgrade cs pm h).calls)
      [Component.EDGE, Component.HOST, Component.MP] ∧
    (runUpgrade cs pm h).calls =
      w0.calls ++
        (if w0.succeeded = true then
          uE :: wE.calls ++
            (if wE.succeeded = true then
              w1.calls ++
                (if w1.succeeded = true then
                  uH :: wH.calls ++
                    (if wH.succeeded = true then
                      w2.calls ++
                        (if w2.succeeded = true ∧ peM = false then uM :: wM.calls else [])
                    else [])
                else [])
            else [])
        else []) := by
  intro w0 uE wE w1 uH peH wH w2 peM uM wM
  have heq := runUpgrade_calls_eq cs pm h
  refine ⟨?_, heq⟩
  rw [heq]
  split_ifs <;>
    simp only [upgradeCalls_append, upgradeCalls_overallWait, upgradeCalls_componentWait,
      upgradeCalls_upgradeEvent, List.cons_append, List.nil_append, List.append_nil] <;>
    decide

/-! ## Run driver: Management is not launched after a component ended in Paused -/

theorem probesOf_append (c : Component) (a b : List Event) :
    probesOf c (a ++ b) = probesOf c a ++ probesOf c b := by
  simp [probesOf, List.filterMap_append]

theorem probesOf_other (c : Component) (component : Option Component) (l : List Event)
    (hne : component ≠ some c)
    (hl : ∀ e ∈ l, ∃ reply, e = Event.StatusGet component reply) : probesOf c l = [] := by
  unfold probesOf
  rw [List.filterMap_eq_nil_iff]
  intro e he
  obtain ⟨reply, rfl⟩ := hl e he
  cases component with
  | none => rfl
  | some c2 =>
    have : c2 ≠ c := fun e => hne (by rw [e])
    simp [this]

theorem probesOf_upgradeEvent (cs : upgradeClientSet) (c c2 : Component) (h : History)
    (l : List Event) : probesOf c (upgradeEvent cs c2 h :: l) = probesOf c l := by
  simp [probesOf, upgradeEvent]

theorem observedReply_of_refreshState (c : Component) (hc : c ≠ Component.MP)
    (reply : Reply UpgradeStatus) (st : Status)
    (hst : refreshState (some c) reply = some st) : observedReply c reply = some st := by
  cases reply with
  | ok s => simpa [refreshState, observedReply] using hst
  | fail e =>
    have : ¬ (some c = some Component.MP) := fun e => hc (Option.some.inj e)
    simp [refreshState, this] at hst

theorem componentWait_probes (cs : upgradeClientSet) (pm : Component → Bool) (c : Component)
    (hc : c ≠ Component.MP) (pe : Bool) (h : History)
    (hs : (componentWait cs pm c pe h).succeeded = true) :
    ∃ q st, probesOf c (componentWait cs pm c pe h).calls = q ++ [some st] ∧
      st ∈ (runUpgradeStatusSets pm c pe).2.1 := by
  obtain ⟨p, reply, st, hcalls, hst, hmem⟩ :=
    (waitUpgradeForStatus_calls cs (some c) _ _ h).2 hs
  refine ⟨probesOf c p, st, ?_, hmem⟩
  unfold componentWait
  rw [hcalls, probesOf_append]
  simp [probesOf, observedReply_of_refreshState c hc reply st hst]

/-- C8: in every execution of `runUpgrade`, if the last status probe of Edge or the last
status probe of Host (all of which belong to the status wait that follows the `Upgrade` of
that component) observed the component in Paused, then no `Upgrade(Management)` call is
issued in that execution. -/
theorem runUpgrade_paused_no_management (cs : upgradeClientSet) (pm : Component → Bool)
    (h : History)
    (hp : lastObserved Component.EDGE (runUpgrade cs pm h).calls = some Status.PAUSED ∨
      lastObserved Component.HOST (runUpgrade cs pm h).calls = some Status.PAUSED) :
    Component.MP ∉ upgradeCalls (runUpgrade cs pm h).calls := by
  intro hmem
  have heq := runUpgrade_calls_eq cs pm h
  extract_lets w0 uE wE w1 uH peH wH w2 peM uM wM at heq
  rw [heq] at hp hmem
  have f0 : upgradeCalls w0.calls = [] := upgradeCalls_overallWait cs _
  have f1 : upgradeCalls w1.calls = [] := upgradeCalls_overallWait cs _
  have f2 : upgradeCalls w2.calls = [] := upgradeCalls_overallWait cs _
  have fE : upgradeCalls wE.calls = [] := upgradeCalls_componentWait cs pm _ _ _
  have fH : upgradeCalls wH.calls = [] := upgradeCalls_componentWait cs pm _ _ _
  have fM : upgradeCalls wM.calls = [] := upgradeCalls_componentWait cs pm _ _ _
  have gE : ∀ l, upgradeCalls (uE :: l) = Component.EDGE :: upgradeCalls l :=
    upgradeCalls_upgradeEvent cs _ _
  have gH : ∀ l, upgradeCalls (uH :: l) = Component.HOST :: upgradeCalls l :=
    upgradeCalls_upgradeEvent cs _ _
  have gM : ∀ l, upgradeCalls (uM :: l) = Component.MP :: upgradeCalls l :=
    upgradeCalls_upgradeEvent cs _ _
  by_cases h0 : w0.succeeded = true
  swap
  · simp [h0, f0, upgradeCalls_append] at hmem
  by_cases hE : wE.succeeded = true
  swap
  · simp [h0, hE, f0, fE, gE, upgradeCalls_append] at hmem
  by_cases h1 : w1.succeeded = true
  swap
  · simp [h0, hE, h1, f0, fE, f1, gE, upgradeCalls_append] at hmem
  by_cases hH : wH.succeeded = true
  swap
  · simp [h0, hE, h1, hH, f0, fE, f1, fH, gE, gH, upgradeCalls_append] at hmem
  by_cases h2 : w2.succeeded = true ∧ peM = false
  swap
  · simp [h0, hE, h1, hH, h2, f0, fE, f1, fH, f2, gE, gH, upgradeCalls_append] at hmem
  -- all waits succeeded and no partial upgrade was recorded
  have hpmH : pm Component.HOST = false ∧ peH = false := by
    have := h2.2
    simp only [peM, runUpgradeStatusSets] at this
    by_cases hh : pm Component.HOST = true
    · simp [hh] at this
    · simpa [hh] using this
  have hpmE : pm Component.EDGE = false := by
    have := hpmH.2
    simp only [peH, runUpgradeStatusSets] at this
    by_cases he : pm Component.EDGE = true
    · simp [he] at this
    · simpa using he
  obtain ⟨qE, stE, hqE, hstE⟩ := componentWait_probes cs pm Component.EDGE (by decide) _ _ hE
  obtain ⟨qH, stH, hqH, hstH⟩ := componentWait_probes cs pm Component.HOST (by decide) _ _ hH
  have hstE2 : stE = Status.SUCCESS := by
    simpa [runUpgradeStatusSets, hpmE] using hstE
  have hstH2 : stH = Status.SUCCESS := by
    simpa [runUpgradeStatusSets, hpmH.1] using hstH
  have p0 : ∀ c, probesOf c w0.calls = [] := fun c =>
    probesOf_other c none _ (by simp) (waitUpgradeForStatus_calls cs none _ _ _).1
  have p1 : ∀ c, probesOf c w1.calls = [] := fun c =>
    probesOf_other c none _ (by simp) (waitUpgradeForStatus_calls cs none _ _ _).1
  have p2 : ∀ c, probesOf c w2.calls = [] := fun c =>
    probesOf_other c none _ (by simp) (waitUpgradeForStatus_calls cs none _ _ _).1
  have pEH : probesOf Component.HOST wE.calls = [] :=
    probesOf_other _ (some Component.EDGE) _ (by simp)
      (waitUpgradeForStatus_calls cs (some Component.EDGE) _ _ _).1
  have pHE : probesOf Component.EDGE wH.calls = [] :=
    probesOf_other _ (some Component.HOST) _ (by simp)
      (waitUpgradeForStatus_calls cs (some Component.HOST) _ _ _).1
  have pME : probesOf Component.EDGE wM.calls = [] :=
    probesOf_other _ (some Component.MP) _ (by simp)
      (waitUpgradeForStatus_calls cs (some Component.MP) _ _ _).1
  have pMH : probesOf Component.HOST wM.calls = [] :=
    probesOf_other _ (some Component.MP) _ (by simp)
      (waitUpgradeForStatus_calls cs (some Component.MP) _ _ _).1
  have uEp : ∀ c l, probesOf c (uE :: l) = probesOf c l := fun c l =>
    probesOf_upgradeEvent cs c _ _ l
  have uHp : ∀ c l, probesOf c (uH :: l) = probesOf c l := fun c l =>
    probesOf_upgradeEvent cs c _ _ l
  have uMp : ∀ c l, probesOf c (uM :: l) = probesOf c l := fun c l =>
    probesOf_upgradeEvent cs c _ _ l
  simp only [h0, hE, h1, hH, h2, and_self, if_true, lastObserved, probesOf_append, p0, p1, p2,
    pEH, pHE, pME, pMH, uEp, uHp, uMp, hqE, hqH, List.nil_append, List.append_nil,
    List.cons_append, hstE2, hstH2, List.getLast?_append, List.getLast?_singleton,
    Option.join] at hp
  simp at hp

theorem runUpgrade_paused_no_management_witness :
    lastObserved Component.EDGE
        (runUpgrade (scriptedClientSet Status.PAUSED) (fun c => decide (c = Component.EDGE))
          []).calls = some Status.PAUSED ∧
      Component.MP ∉ upgradeCalls
        (runUpgrade (scriptedClientSet Status.PAUSED) (fun c => decide (c = Component.EDGE))
          []).calls :=
  ⟨by decide, runUpgrade_paused_no_management (scriptedClientSet Status.PAUSED)
    (fun c => decide (c = Component.EDGE)) [] (Or.inl (by decide))⟩

/-! ## Create-or-update run: the order of the components -/

theorem terminalObserved_upgraded (c : Component) (calls : List Event)
    (ht : terminalObserved c calls) : c ∈ upgradeCalls calls := by
  obtain ⟨p1, r, p2, s, p3, hcalls, _⟩ := ht
  rw [hcalls]
  simp [upgradeCalls, List.filterMap_append]

/-- C9 (as stated) fails: on a remote service where every call succeeds, with changed edge
and host attributes, the create-or-update run probes the status of Host and resets Host
(calls four to six) before `Upgrade(Edge)` is issued (call eight), so before Edge was
observed in any status by the wait that follows `Upgrade(Edge)`. -/
theorem upgradeRunCreateOrUpdate_order_counterexample :
    (upgradeRunCreateOrUpdate (scriptedClientSet Status.SUCCESS) changedData "u" []).calls.take 9 =
      [Event.StatusGet (some Component.EDGE) (Reply.ok (statusAfter Status.SUCCESS [])),
       Event.StatusGet (some Component.EDGE) (Reply.ok (statusAfter Status.SUCCESS [])),
       Event.Reset Component.EDGE none,
       Event.StatusGet (some Component.HOST) (Reply.ok (statusAfter Status.SUCCESS [])),
       Event.StatusGet (some Component.HOST) (Reply.ok (statusAfter Status.SUCCESS [])),
       Event.Reset Component.HOST none,
       Event.StatusGet none (Reply.ok (statusAfter Status.SUCCESS [])),
       Event.Upgrade Component.EDGE none,
       Event.StatusGet (some Component.EDGE)
         (Reply.ok (statusAfter Status.SUCCESS [Component.EDGE]))] ∧
    Event.onComponent Component.HOST
      (Event.StatusGet (some Component.HOST) (Reply.ok (statusAfter Status.SUCCESS []))) = true ∧
    ¬ terminalObserved Component.EDGE
      [Event.StatusGet (some Component.EDGE) (Reply.ok (statusAfter Status.SUCCESS [])),
       Event.StatusGet (some Component.EDGE) (Reply.ok (statusAfter Status.SUCCESS [])),
       Event.Reset Component.EDGE none] := by
  refine ⟨by decide, by decide, ?_⟩
  intro ht
  have := terminalObserved_upgraded _ _ ht
  revert this
  decide

theorem M.bind_calls_all {α β : Type} (P : Event → Prop) (m : M α) (f : α → M β)
    (hm : ∀ h, ∀ e ∈ (m h).calls, P e) (hf : ∀ a h, ∀ e ∈ (f a h).calls, P e) :
    ∀ h, ∀ e ∈ (M.bind m f h).calls, P e := by
  intro h e he
  rw [M.bind_calls] at he
  rcases List.mem_append.1 he with he | he
  · exact hm h e he
  · cases ho : (m h).out with
    | ok a => rw [ho] at he; exact hf a _ e he
    | error err => rw [ho] at he; simp at he

theorem M.call_check_calls_all {ρ : Type} (P : Event → Prop) (remote : History → Reply ρ)
    (ev : Reply ρ → Event) (hev : ∀ r, P (ev r)) :
    ∀ h, ∀ e ∈ (M.bind (M.call remote ev) M.check h).calls, P e := by
  intro h e he
  rw [M.bind_calls] at he
  cases hr : remote h <;> simp [M.call, M.check, M.pure, M.fail, hr] at he <;>
    (rw [he]; exact hev _)

theorem M.call_checkErr_calls_all (P : Event → Prop) (remote : History → Option RemoteErr)
    (ev : Option RemoteErr → Event) (hev : ∀ r, P (ev r)) :
    ∀ h, ∀ e ∈ (M.bind (M.call remote ev) M.checkErr h).calls, P e := by
  intro h e he
  rw [M.bind_calls] at he
  cases hr : remote h <;> simp [M.call, M.checkErr, M.pure, M.fail, hr] at he <;>
    (rw [he]; exact hev _)

theorem M.handle_calls {α : Type} (m : M α) (handler : Err → Err) (h : History) :
    (M.handle m handler h).calls = (m h).calls ∧
      (M.handle m handler h).succeeded = (m h).succeeded := by
  unfold M.handle Run.succeeded
  cases ho : (m h).out with
  | ok a => simp
  | error e => cases e <;> simp

theorem updateUpgradeUnitGroupsLoop_offManagement (cs : upgradeClientSet) (component : Component) :
    ∀ (groups : List UpgradeGroupConfig) (pre : String) (h : History),
      ∀ e ∈ (updateUpgradeUnitGroupsLoop cs component groups pre h).calls, e.offManagement := by
  intro groups
  induction groups with
  | nil => intro pre h e he; simp [updateUpgradeUnitGroupsLoop, M.pure] at he
  | cons g rest ih =>
    intro pre h
    rw [updateUpgradeUnitGroupsLoop]
    refine M.bind_calls_all _ _ _
      (M.call_check_calls_all _ _ _ (fun r => ⟨rfl, rfl⟩)) (fun gg => ?_) h
    refine M.bind_calls_all _ _ _
      (M.call_check_calls_all _ _ _ (fun r => ⟨rfl, rfl⟩)) (fun _ => ?_)
    refine M.bind_calls_all _ _ _ ?_ (fun _ => ih _)
    by_cases hpre : pre = ""
    · intro h2 e he
      simp [hpre, M.pure] at he
    · simp only [ne_eq, hpre, not_false_eq_true, if_true]
      exact M.call_checkErr_calls_all _ _ _ (fun r => ⟨rfl, rfl⟩)

theorem updateUpgradeUnitGroups_offManagement (cs : upgradeClientSet) (d : ResourceData)
    (component : Component) (h : History) :
    ∀ e ∈ (updateUpgradeUnitGroups cs d component h).calls, e.offManagement := by
  unfold updateUpgradeUnitGroups
  refine M.bind_calls_all _ _ _ ?_ (fun groups => updateUpgradeUnitGroupsLoop_offManagement _ _ _ _) h
  intro h2 e he
  cases hv : d.Get (componentToGroupKey component) <;>
    simp [hv, Value.asGroupList, M.pure, M.fail] at he

theorem updateComponentUpgradePlanSetting_offManagement (settingClient : SettingsClient)
    (d : ResourceData) (component : Component) (hc : component ≠ Component.MP) (h : History) :
    ∀ e ∈ (updateComponentUpgradePlanSetting settingClient d component h).calls,
      e.offManagement := by
  have hon : ∀ c2 : Component, c2 = component → decide (c2 = Component.MP) = false := by
    intro c2 h2
    simp [h2, hc]
  unfold updateComponentUpgradePlanSetting
  refine M.bind_calls_all _ _ _ ?_ (fun settingI => ?_) h
  · intro h2 e he
    cases hv : d.Get (componentToSettingKey component) <;>
      simp [hv, Value.asSettingList, M.pure, M.fail] at he
  · cases settingI with
    | nil => intro h2 e he; simp [M.pure] at he
    | cons setting rest =>
      simp only []
      refine M.bind_calls_all _ _ _
        (M.call_check_calls_all _ _ _ (fun r => ⟨rfl, by simp [Event.onComponent, hc]⟩))
        (fun sg => ?_)
      refine M.bind_calls_all _ _ _
        (M.call_check_calls_all _ _ _ (fun r => ⟨rfl, by simp [Event.onComponent, hc]⟩))
        (fun _ => ?_)
      intro h2 e he
      simp [M.pure] at he

theorem waitUpgradeForStatus_offManagement (cs : upgradeClientSet) (component : Option Component)
    (hc : component ≠ some Component.MP) (pending target : List Status) (h : History) :
    ∀ e ∈ (waitUpgradeForStatus cs component pending target h).calls, e.offManagement := by
  intro e he
  obtain ⟨reply, rfl⟩ := (waitUpgradeForStatus_calls cs component pending target h).1 e he
  refine ⟨rfl, ?_⟩
  cases component with
  | none => rfl
  | some c =>
    have : c ≠ Component.MP := fun e => hc (by rw [e])
    simp [Event.onComponent, this]

theorem prepareUpgradeLoop_offManagement (cs : upgradeClientSet) (d : ResourceData) :
    ∀ (comps : List Component) (h : History),
      ∀ e ∈ (prepareUpgradeLoop cs d comps h).calls, e.offManagement := by
  intro comps
  induction comps with
  | nil => intro h e he; simp [prepareUpgradeLoop, M.pure] at he
  | cons c rest ih =>
    intro h
    rw [prepareUpgradeLoop]
    by_cases hmp : c = mpUpgradeGroup
    · simp only [hmp, if_true]
      exact ih h
    · simp only [hmp, if_false]
      have hc : c ≠ Component.MP := hmp
      have hsel : (some c : Option Component) ≠ some Component.MP :=
        fun e => hc (Option.some.inj e)
      split_ifs with hchg
      · exact ih h
      · refine M.bind_calls_all _ _ _ ?_ (fun status => ?_) h
        · intro h2 e he
          rw [getUpgradeStatus_calls] at he
          simp only [List.mem_singleton] at he
          rw [he]
          exact ⟨rfl, by simp [Event.onComponent, hc]⟩
        · by_cases hsucc : status.Status = Status.SUCCESS
          · simp only [hsucc, if_true]
            exact ih
          · simp only [hsucc, if_false]
            refine M.bind_calls_all _ _ _ ?_ (fun _ => ?_)
            · by_cases hprog : status.Status = Status.IN_PROGRESS
              · simp only [hprog, if_true]
                refine M.bind_calls_all _ _ _ ?_ (fun _ => ?_)
                · intro h2 e he
                  simp only [M.call, List.mem_singleton] at he
                  rw [he]
                  exact ⟨rfl, rfl⟩
                · intro h2 e he
                  simp [M.pure] at he
              · simp only [hprog, if_false]
                intro h2 e he
                simp [M.pure] at he
            · refine M.bind_calls_all _ _ _
                (waitUpgradeForStatus_offManagement cs (some c) hsel _ _) (fun _ => ?_)
              refine M.bind_calls_all _ _ _
                (M.call_checkErr_calls_all _ _ _
                  (fun r => ⟨rfl, by simp [Event.onComponent, hc]⟩)) (fun _ => ?_)
              refine M.bind_calls_all _ _ _
                (updateUpgradeUnitGroups_offManagement cs d c) (fun _ => ?_)
              refine M.bind_calls_all _ _ _
                (updateComponentUpgradePlanSetting_offManagement cs.SettingClient d c hc)
                (fun _ => ih)

theorem M.bind_unit_calls {β : Type} (m : M Unit) (f : Unit → M β) (h : History) :
    (M.bind m f h).calls =
      (m h).calls ++
        (if (m h).succeeded = true then (f () (h ++ (m h).calls)).calls else []) := by
  rw [M.bind_calls]
  unfold Run.succeeded
  cases (m h).out <;> simp

theorem M.handle_unit_bind_calls {β : Type} (m : M Unit) (handler : Err → Err)
    (f : Unit → M β) (h : History) :
    (M.bind (M.handle m handler) f h).calls =
      (m h).calls ++
        (if (m h).succeeded = true then (f () (h ++ (m h).calls)).calls else []) := by
  rw [M.bind_unit_calls, (M.handle_calls m handler h).1, (M.handle_calls m handler h).2]

theorem runPostcheckLoop_offManagement (upgradeClient : UpgradeClient) (d : ResourceData) :
    ∀ (comps : List Component) (h : History),
      ∀ e ∈ (runPostcheckLoop upgradeClient d comps h).calls, e.offManagement := by
  intro comps
  induction comps with
  | nil => intro h e he; simp [runPostcheckLoop, M.pure] at he
  | cons c rest ih =>
    intro h
    rw [runPostcheckLoop]
    by_cases hmp : c = mpUpgradeGroup
    · simp only [ne_eq, hmp, not_true_eq_false, if_false]
      exact ih h
    · simp only [ne_eq, hmp, not_false_eq_true, if_true]
      have hc : c ≠ Component.MP := hmp
      refine M.bind_calls_all _ _ _ ?_ (fun settingI => ?_) h
      · intro h2 e he
        cases hv : d.Get (componentToSettingKey c) <;>
          simp [hv, Value.asSettingList, M.pure, M.fail] at he
      · cases settingI with
        | nil => exact ih
        | cons setting tl =>
          simp only []
          by_cases hpc : setting.post_upgrade_check = true
          · simp only [hpc, if_true]
            refine M.bind_calls_all _ _ _ ?_ (fun _ => ih)
            intro h2 e he
            simp only [M.call, List.mem_singleton] at he
            rw [he]
            exact ⟨rfl, by simp [Event.onComponent, hc]⟩
          · simp only [hpc, if_false]
            exact ih

theorem setUpgradeRunOutputStates_notUpgrade (cs : upgradeClientSet) :
    ∀ (l : List ComponentUpgradeStatus) (states : List ComponentState) (h : History),
      ∀ e ∈ (setUpgradeRunOutputStates cs l states h).calls, e.isUpgrade = false := by
  intro l
  induction l with
  | nil => intro states h e he; simp [setUpgradeRunOutputStates, M.pure] at he
  | cons r rest ih =>
    intro states h
    rw [setUpgradeRunOutputStates]
    exact M.bind_calls_all (fun e => e.isUpgrade = false) _ _
      (M.call_check_calls_all (fun e => e.isUpgrade = false) _ _ (fun _ => by rfl))
      (fun _ => ih _) h

theorem resourceNsxtUpgradeRunRead_notUpgrade (cs : upgradeClientSet) (d : ResourceData)
    (h : History) :
    ∀ e ∈ (resourceNsxtUpgradeRunRead cs d h).calls, e.isUpgrade = false := by
  unfold resourceNsxtUpgradeRunRead
  rw [(M.handle_calls _ _ h).1]
  unfold setUpgradeRunOutput
  refine M.bind_calls_all (fun e => e.isUpgrade = false) _ _
    (M.call_check_calls_all (fun e => e.isUpgrade = false) _ _ (fun _ => by rfl)) (fun _ => ?_) h
  refine M.bind_calls_all (fun e => e.isUpgrade = false) _ _
    (M.call_check_calls_all (fun e => e.isUpgrade = false) _ _ (fun _ => by rfl)) (fun _ => ?_)
  refine M.bind_calls_all (fun e => e.isUpgrade = false) _ _
    (setUpgradeRunOutputStates_notUpgrade cs _ _) (fun _ => ?_)
  intro h2 e he
  simp [M.pure] at he

theorem upgradeRunCreateOrUpdate_calls (cs : upgradeClientSet) (d : ResourceData)
    (newUUID : String) (h : History) :
    ∃ tail, (upgradeRunCreateOrUpdate cs d newUUID h).calls =
        (prepareUpgrade cs d h).calls ++
          (if (prepareUpgrade cs d h).succeeded = true then
            (runUpgrade cs (getPartialUpgradeMap d) (h ++ (prepareUpgrade cs d h).calls)).calls ++
              tail
          else []) ∧
      (∀ e ∈ tail, e.isUpgrade = false) ∧
      (tail ≠ [] →
        (runUpgrade cs (getPartialUpgradeMap d)
          (h ++ (prepareUpgrade cs d h).calls)).succeeded = true) := by
  unfold upgradeRunCreateOrUpdate
  simp only [M.handle_unit_bind_calls]
  by_cases hr : (runUpgrade cs (getPartialUpgradeMap d)
      (h ++ (prepareUpgrade cs d h).calls)).succeeded = true
  · refine ⟨(M.bind (runPostcheck cs.UpgradeClient d) (fun _ =>
        resourceNsxtUpgradeRunRead cs { d with Id := if d.Id = "" then newUUID else d.Id })
        (h ++ (prepareUpgrade cs d h).calls ++
          (runUpgrade cs (getPartialUpgradeMap d) (h ++ (prepareUpgrade cs d h).calls)).calls)).calls,
      ?_, ?_, fun _ => hr⟩
    · simp only [hr, if_true]
    · refine M.bind_calls_all (fun e => e.isUpgrade = false) _ _ ?_ (fun _ => ?_) _
      · intro h2 e he
        exact (runPostcheckLoop_offManagement _ _ _ h2 e he).1
      · intro h2
        exact resourceNsxtUpgradeRunRead_notUpgrade cs _ h2
  · refine ⟨[], ?_, by simp, by simp⟩
    simp [hr]

theorem Run.succeeded_mk {α : Type} (r : Run α) (calls : List Event) :
    (Run.mk r.out calls).succeeded = r.succeeded := rfl

theorem runUpgrade_succeeded (cs : upgradeClientSet) (pm : Component → Bool) (h : History) :
    let w0 := overallWait cs h
    let uE := upgradeEvent cs Component.EDGE (h ++ w0.calls)
    let wE := componentWait cs pm Component.EDGE false (h ++ w0.calls ++ [uE])
    let w1 := overallWait cs (h ++ w0.calls ++ [uE] ++ wE.calls)
    let uH := upgradeEvent cs Component.HOST (h ++ w0.calls ++ [uE] ++ wE.calls ++ w1.calls)
    let peH := (runUpgradeStatusSets pm Component.EDGE false).2.2
    let wH := componentWait cs pm Component.HOST peH
      (h ++ w0.calls ++ [uE] ++ wE.calls ++ w1.calls ++ [uH])
    (runUpgrade cs pm h).succeeded = true →
      w0.succeeded = true ∧ wE.succeeded = true ∧ w1.succeeded = true ∧ wH.succeeded = true := by
  have hnil : ∀ (pe : Bool) (h2 : History),
      runUpgradeLoop cs pm [] pe h2 = ⟨Except.ok (), []⟩ := fun _ _ => rfl
  simp only [runUpgrade, upgradeComponentList, runUpgradeLoop_cons, hnil,
    Run.after, edgeUpgradeGroup, hostUpgradeGroup, mpUpgradeGroup, reduceCtorEq, false_and,
    if_false, true_and]
  split_ifs <;> simp_all [Run.succeeded_mk]

theorem split_after (Q : Event → Prop) (l A B pre post : List Event) (e : Event)
    (hl : l = A ++ B) (hA : ∀ x ∈ A, ¬ Q x) (hsplit : l = pre ++ e :: post) (he : Q e) :
    ∃ pre2, pre = A ++ pre2 := by
  rw [hl] at hsplit
  rcases List.append_eq_append_iff.1 hsplit with ⟨a2, hpre, _⟩ | ⟨c2, hA2, hc2⟩
  · exact ⟨a2, hpre⟩
  · cases c2 with
    | nil => exact ⟨[], by simpa using hA2.symm⟩
    | cons x c3 =>
      simp only [List.cons_append, List.cons.injEq] at hc2
      exfalso
      refine hA e ?_ he
      rw [hA2, hc2.1]
      simp

theorem terminalObserved_append (c : Component) (A B : List Event)
    (ht : terminalObserved c A) : terminalObserved c (A ++ B) := by
  obtain ⟨p1, r, p2, s, p3, hA, hs⟩ := ht
  exact ⟨p1, r, p2, s, p3 ++ B, by simp [hA], hs⟩

theorem terminalObserved_componentWait (cs : upgradeClientSet) (pm : Component → Bool)
    (c : Component) (hc : c ≠ Component.MP) (pe : Bool) (h : History) (P : List Event)
    (r : Option RemoteErr) (hs : (componentWait cs pm c pe h).succeeded = true) :
    terminalObserved c (P ++ Event.Upgrade c r :: (componentWait cs pm c pe h).calls) := by
  obtain ⟨p, reply, st, hcalls, hst, hmem⟩ :=
    (waitUpgradeForStatus_calls cs (some c) _ _ h).2 hs
  have hst2 : st = Status.SUCCESS ∨ st = Status.PAUSED := by
    unfold runUpgradeStatusSets at hmem
    by_cases hp : pm c = true <;> simp [hp] at hmem
    · exact hmem
    · exact Or.inl hmem
  cases reply with
  | fail e =>
    have : ¬ (some c = some Component.MP) := fun e => hc (Option.some.inj e)
    simp [refreshState, this] at hst
  | ok s =>
    have hobs : observedStatus c s = some st := by simpa [refreshState] using hst
    refine ⟨P, r, p, s, [], ?_, ?_⟩
    · unfold componentWait
      rw [hcalls]
    · rw [hobs]
      rcases hst2 with h1 | h1 <;> simp [h1]

/-- C9 (amended): in every execution of one create-or-update run, no `Upgrade(Host)` is
issued before Edge has been observed in Success or Paused by a status probe that follows
`Upgrade(Edge)`, and no call naming Management (status probe, `Reset`, `Upgrade`, settings
`Get`/`Update`, post-check, group status) is issued before Host has been so observed
after `Upgrade(Host)`.  The preparation calls on Host (status probe, `Reset`, group and
settings calls) are not covered: `prepareUpgrade` issues them before `Upgrade(Edge)`. -/
theorem upgradeRunCreateOrUpdate_order (cs : upgradeClientSet) (d : ResourceData)
    (newUUID : String) (h : History) (pre post : List Event) (e : Event)
    (hsplit : (upgradeRunCreateOrUpdate cs d newUUID h).calls = pre ++ e :: post) :
    ((∃ r, e = Event.Upgrade Component.HOST r) → terminalObserved Component.EDGE pre) ∧
      (e.onComponent Component.MP = true → terminalObserved Component.HOST pre) := by
  obtain ⟨tail, hcalls, htail, htailrun⟩ := upgradeRunCreateOrUpdate_calls cs d newUUID h
  have hprep : ∀ x ∈ (prepareUpgrade cs d h).calls, x.offManagement :=
    prepareUpgradeLoop_offManagement cs d _ h
  have hmem : e ∈ (upgradeRunCreateOrUpdate cs d newUUID h).calls := by
    rw [hsplit]; simp
  by_cases hps : (prepareUpgrade cs d h).succeeded = true
  swap
  · simp only [hps, if_false, List.append_nil, Bool.false_eq_true] at hcalls
    rw [hcalls] at hmem
    have hoff := hprep e hmem
    refine ⟨?_, ?_⟩
    · rintro ⟨r, rfl⟩
      exact absurd hoff.1 (by simp [Event.isUpgrade])
    · intro hmp
      rw [hoff.2] at hmp
      exact absurd hmp (by simp)
  simp only [hps, if_true] at hcalls
  have heq := runUpgrade_calls_eq cs (getPartialUpgradeMap d) (h ++ (prepareUpgrade cs d h).calls)
  have hsuc := runUpgrade_succeeded cs (getPartialUpgradeMap d)
    (h ++ (prepareUpgrade cs d h).calls)
  extract_lets w0 uE wE w1 uH peH wH w2 peM uM wM at heq
  extract_lets w0b uEb wEb w1b uHb peHb wHb at hsuc
  have o0 : ∀ x ∈ w0.calls, x.offManagement :=
    waitUpgradeForStatus_offManagement cs none (by simp) _ _ _
  have oE : ∀ x ∈ wE.calls, x.offManagement :=
    waitUpgradeForStatus_offManagement cs (some Component.EDGE) (by simp) _ _ _
  have o1 : ∀ x ∈ w1.calls, x.offManagement :=
    waitUpgradeForStatus_offManagement cs none (by simp) _ _ _
  have oH : ∀ x ∈ wH.calls, x.offManagement :=
    waitUpgradeForStatus_offManagement cs (some Component.HOST) (by simp) _ _ _
  have huE : ∃ r, uE = Event.Upgrade Component.EDGE r := ⟨_, rfl⟩
  have huH : ∃ r, uH = Event.Upgrade Component.HOST r := ⟨_, rfl⟩
  obtain ⟨rE, hrE⟩ := huE
  obtain ⟨rH, hrH⟩ := huH
  refine ⟨?_, ?_⟩
  · -- the part on `Upgrade(Host)`
    rintro ⟨r, rfl⟩
    have hq : ∀ x : Event, x.offManagement → x ≠ Event.Upgrade Component.HOST r := by
      intro x hx hxe
      rw [hxe] at hx
      exact absurd hx.1 (by simp [Event.isUpgrade])
    have hqt : ∀ x ∈ tail, x ≠ Event.Upgrade Component.HOST r := by
      intro x hx hxe
      have := htail x hx
      rw [hxe] at this
      exact absurd this (by simp [Event.isUpgrade])
    by_cases h0 : w0.succeeded = true
    swap
    · exfalso
      rw [hcalls, heq] at hmem
      simp only [h0, if_false, List.append_nil, List.mem_append, Bool.false_eq_true] at hmem
      rcases hmem with hm | hm | hm
      · exact hq _ (hprep _ hm) rfl
      · exact hq _ (o0 _ hm) rfl
      · exact hqt _ hm rfl
    by_cases hE : wE.succeeded = true
    swap
    · exfalso
      rw [hcalls, heq] at hmem
      simp only [h0, hE, if_true, if_false, List.append_nil, List.mem_append, List.mem_cons,
        List.cons_append, Bool.false_eq_true] at hmem
      rcases hmem with hm | (hm | hm | hm) | hm
      · exact hq _ (hprep _ hm) rfl
      · exact hq _ (o0 _ hm) rfl
      · rw [hrE] at hm
        exact absurd hm (by simp)
      · exact hq _ (oE _ hm) rfl
      · exact hqt _ hm rfl
    have hA : terminalObserved Component.EDGE
        (((prepareUpgrade cs d h).calls ++ w0.calls) ++ uE :: wE.calls) := by
      rw [hrE]
      exact terminalObserved_componentWait cs _ Component.EDGE (by decide) _ _ _ _ hE
    obtain ⟨pre2, hpre2⟩ := split_after (fun x => x = Event.Upgrade Component.HOST r)
      (upgradeRunCreateOrUpdate cs d newUUID h).calls
      (((prepareUpgrade cs d h).calls ++ w0.calls) ++ uE :: wE.calls)
      ((if wE.succeeded = true then
              w1.calls ++
                (if w1.succeeded = true then
                  uH :: wH.calls ++
                    (if wH.succeeded = true then
                      w2.calls ++
                        (if w2.succeeded = true ∧ peM = false then uM :: wM.calls else [])
                    else [])
                else [])
            else []) ++ tail) pre post _
      (by rw [hcalls, heq]; simp only [h0, if_true, List.append_assoc, List.cons_append])
      (by
        intro x hx
        simp only [List.mem_append, List.mem_cons] at hx
        rcases hx with (hm | hm) | hm | hm
        · exact hq _ (hprep _ hm)
        · exact hq _ (o0 _ hm)
        · rw [hm, hrE]; simp
        · exact hq _ (oE _ hm))
      hsplit rfl
    rw [hpre2]
    exact terminalObserved_append _ _ _ hA
  · -- the part on Management
    intro hmp
    have hq : ∀ x : Event, x.offManagement → x.onComponent Component.MP = true → False := by
      intro x hx hxm
      rw [hx.2] at hxm
      exact absurd hxm (by simp)
    have hquE : uE.onComponent Component.MP = false := by rw [hrE]; rfl
    have hquH : uH.onComponent Component.MP = false := by rw [hrH]; rfl
    by_cases hall : w0.succeeded = true ∧ wE.succeeded = true ∧ w1.succeeded = true ∧
        wH.succeeded = true
    · obtain ⟨h0, hE, h1, hH⟩ := hall
      have hA : terminalObserved Component.HOST
          (((prepareUpgrade cs d h).calls ++ w0.calls ++ uE :: wE.calls ++ w1.calls) ++
            uH :: wH.calls) := by
        rw [hrH]
        exact terminalObserved_componentWait cs _ Component.HOST (by decide) _ _ _ _ hH
      obtain ⟨pre2, hpre2⟩ := split_after (fun x => x.onComponent Component.MP = true)
        (upgradeRunCreateOrUpdate cs d newUUID h).calls
        (((prepareUpgrade cs d h).calls ++ w0.calls ++ uE :: wE.calls ++ w1.calls) ++
            uH :: wH.calls)
        ((w2.calls ++
            (if w2.succeeded = true ∧ peM = false then uM :: wM.calls else [])) ++ tail)
        pre post e
        (by
          rw [hcalls, heq]
          simp only [h0, hE, h1, hH, if_true, List.append_assoc, List.cons_append])
        (by
          intro x hx hxm
          simp only [List.mem_append, List.mem_cons] at hx
          rcases hx with (((hm | hm) | hm | hm) | hm) | hm | hm
          · exact hq _ (hprep _ hm) hxm
          · exact hq _ (o0 _ hm) hxm
          · rw [hm, hquE] at hxm; exact absurd hxm (by simp)
          · exact hq _ (oE _ hm) hxm
          · exact hq _ (o1 _ hm) hxm
          · rw [hm, hquH] at hxm; exact absurd hxm (by simp)
          · exact hq _ (oH _ hm) hxm)
        hsplit hmp
      rw [hpre2]
      exact terminalObserved_append _ _ _ hA
    · exfalso
      have hnr : ¬ (runUpgrade cs (getPartialUpgradeMap d)
          (h ++ (prepareUpgrade cs d h).calls)).succeeded = true := fun hr => hall (hsuc hr)
      have htl : tail = [] := by
        by_contra hne
        exact hnr (htailrun hne)
      rw [hcalls, heq, htl] at hmem
      by_cases h0 : w0.succeeded = true
      swap
      · simp only [h0, if_false, List.append_nil, List.mem_append, Bool.false_eq_true] at hmem
        rcases hmem with hm | hm
        · exact hq _ (hprep _ hm) hmp
        · exact hq _ (o0 _ hm) hmp
      by_cases hE : wE.succeeded = true
      swap
      · simp only [h0, hE, if_true, if_false, List.append_nil, List.mem_append, List.mem_cons,
          List.cons_append, Bool.false_eq_true] at hmem
        rcases hmem with hm | hm | hm | hm
        · exact hq _ (hprep _ hm) hmp
        · exact hq _ (o0 _ hm) hmp
        · rw [hm, hquE] at hmp; exact absurd hmp (by simp)
        · exact hq _ (oE _ hm) hmp
      by_cases h1 : w1.succeeded = true
      swap
      · simp only [h0, hE, h1, if_true, if_false, List.append_nil, List.mem_append,
          List.mem_cons, List.cons_append, Bool.false_eq_true] at hmem
        rcases hmem with hm | hm | hm | hm | hm
        · exact hq _ (hprep _ hm) hmp
        · exact hq _ (o0 _ hm) hmp
        · rw [hm, hquE] at hmp; exact absurd hmp (by simp)
        · exact hq _ (oE _ hm) hmp
        · exact hq _ (o1 _ hm) hmp
      have hH : ¬ wH.succeeded = true := fun hH => hall ⟨h0, hE, h1, hH⟩
      simp only [h0, hE, h1, hH, if_true, if_false, List.append_nil, List.mem_append,
        List.mem_cons, List.cons_append, Bool.false_eq_true] at hmem
      rcases hmem with hm | hm | hm | hm | hm | hm | hm
      · exact hq _ (hprep _ hm) hmp
      · exact hq _ (o0 _ hm) hmp
      · rw [hm, hquE] at hmp; exact absurd hmp (by simp)
      · exact hq _ (oE _ hm) hmp
      · exact hq _ (o1 _ hm) hmp
      · rw [hm, hquH] at hmp; exact absurd hmp (by simp)
      · exact hq _ (oH _ hm) hmp

theorem upgradeRunCreateOrUpdate_order_witness :
    terminalObserved Component.EDGE
        ((upgradeRunCreateOrUpdate (scriptedClientSet Status.SUCCESS) changedData "u"
          []).calls.take 10) ∧
      terminalObserved Component.HOST
        ((upgradeRunCreateOrUpdate (scriptedClientSet Status.SUCCESS) changedData "u"
          []).calls.take 13) :=
  ⟨(upgradeRunCreateOrUpdate_order (scriptedClientSet Status.SUCCESS) changedData "u" []
      ((upgradeRunCreateOrUpdate (scriptedClientSet Status.SUCCESS) changedData "u"
        []).calls.take 10)
      ((upgradeRunCreateOrUpdate (scriptedClientSet Status.SUCCESS) changedData "u"
        []).calls.drop 11)
      (Event.Upgrade Component.HOST none) (by decide)).1 ⟨none, rfl⟩,
   (upgradeRunCreateOrUpdate_order (scriptedClientSet Status.SUCCESS) changedData "u" []
      ((upgradeRunCreateOrUpdate (scriptedClientSet Status.SUCCESS) changedData "u"
        []).calls.take 13)
      ((upgradeRunCreateOrUpdate (scriptedClientSet Status.SUCCESS) changedData "u"
        []).calls.drop 14)
      (Event.Upgrade Component.MP none) (by decide)).2 rfl⟩

/-! ## Status poller: one probe at a time -/

theorem waitUpgradeForStatusRefresh_eq (cs : upgradeClientSet) (component : Option Component)
    (h : History) :
    waitUpgradeForStatusRefresh cs component h =
      ⟨Except.ok (probeOutput component (cs.StatusClient.Get h component)),
        [Event.StatusGet component (cs.StatusClient.Get h component)]⟩ := by
  have hc := getUpgradeStatus_calls cs.StatusClient component h
  have ho := getUpgradeStatus_out cs.StatusClient component h
  unfold waitUpgradeForStatusRefresh M.bind M.attempt
  rw [hc, ho]
  cases hr : cs.StatusClient.Get h component with
  | fail e =>
    cases e <;> cases component with
    | none => simp [M.pure, probeOutput, isServiceUnavailableError, isTimeoutError]
    | some c =>
      cases c <;> simp [M.pure, probeOutput, isServiceUnavailableError, isTimeoutError]
  | ok s =>
    cases component with
    | none =>
      simp [M.pure, probeOutput, statusAndDetailOf, isServiceUnavailableError, isTimeoutError]
    | some c =>
      simp only [probeOutput, statusAndDetailOf]
      cases hf : s.ComponentStatus.find? (fun componentStatus =>
        componentStatus.ComponentType = c) <;>
        cases c <;> simp [M.pure, isServiceUnavailableError, isTimeoutError]

theorem WaitForStateLoop_succ (cs : upgradeClientSet) (component : Option Component)
    (pending target : List Status) (n : Nat) (last : Option Status) (h : History) :
    WaitForStateLoop (stateConfOf cs component pending target) (n + 1) last h =
      (match (probeOutput component (cs.StatusClient.Get h component)).err with
        | some err =>
          ⟨Except.ok ((probeOutput component (cs.StatusClient.Get h component)).result,
              some (WaitErr.refresh err)),
            [Event.StatusGet component (cs.StatusClient.Get h component)]⟩
        | none =>
          if (probeOutput component (cs.StatusClient.Get h component)).state ∈ target then
            ⟨Except.ok ((probeOutput component (cs.StatusClient.Get h component)).result, none),
              [Event.StatusGet component (cs.StatusClient.Get h component)]⟩
          else if (probeOutput component (cs.StatusClient.Get h component)).state ∈ pending
              ∨ pending = [] then
            Run.after [Event.StatusGet component (cs.StatusClient.Get h component)]
              (WaitForStateLoop (stateConfOf cs component pending target) n
                (some (probeOutput component (cs.StatusClient.Get h component)).state)
                (h ++ [Event.StatusGet component (cs.StatusClient.Get h component)]))
          else
            ⟨Except.ok ((probeOutput component (cs.StatusClient.Get h component)).result,
                some (WaitErr.unexpectedState
                  (probeOutput component (cs.StatusClient.Get h component)).state)),
              [Event.StatusGet component (cs.StatusClient.Get h component)]⟩) := by
  rw [WaitForStateLoop]
  have hr := waitUpgradeForStatusRefresh_eq cs component h
  simp only [stateConfOf] at hr ⊢
  unfold M.bind
  rw [hr]
  simp only []
  cases herr : (probeOutput component (cs.StatusClient.Get h component)).err with
  | some err => simp [M.pure]
  | none =>
    simp only []
    by_cases ht : (probeOutput component (cs.StatusClient.Get h component)).state ∈ target
    · simp [ht, M.pure]
    · by_cases hp : (probeOutput component (cs.StatusClient.Get h component)).state ∈ pending
      · simp [ht, hp, Run.after]
      · by_cases hne : pending = []
        · simp [ht, hne, Run.after]
        · simp [ht, hp, hne, M.pure]

theorem waitUpgradeForStatus_eq (cs : upgradeClientSet) (component : Option Component)
    (pending target : List Status) (h : History) :
    waitUpgradeForStatus cs component pending target h =
      (match (WaitForStateLoop (stateConfOf cs component pending target) (cs.Probes h) none
          h).out with
        | Except.ok (_, none) =>
          ⟨Except.ok (), (WaitForStateLoop (stateConfOf cs component pending target)
            (cs.Probes h) none h).calls⟩
        | Except.ok (RefreshResult.nilInterface, some err) =>
          ⟨Except.error (Err.waitFailed target err none),
            (WaitForStateLoop (stateConfOf cs component pending target)
              (cs.Probes h) none h).calls⟩
        | Except.ok (RefreshResult.statusPtr (some status), some err) =>
          ⟨Except.error (Err.waitFailed target err (some (status.Status, status.Detail))),
            (WaitForStateLoop (stateConfOf cs component pending target)
              (cs.Probes h) none h).calls⟩
        | Except.ok (_, some _) =>
          ⟨Except.error Err.goPanic, (WaitForStateLoop (stateConfOf cs component pending target)
            (cs.Probes h) none h).calls⟩
        | Except.error e =>
          ⟨Except.error e, (WaitForStateLoop (stateConfOf cs component pending target)
            (cs.Probes h) none h).calls⟩) := by
  unfold waitUpgradeForStatus WaitForState M.bind
  simp only [stateConfOf]
  rcases hw : (WaitForStateLoop
    { Pending := pending, Target := target,
      Refresh := waitUpgradeForStatusRefresh cs component,
      Timeout := cs.Timeout, PollInterval := cs.Interval, Delay := cs.Delay }
    (cs.Probes h) none h).out with e | ⟨res, err⟩
  · simp
  · cases err with
    | none => simp [M.pure]
    | some werr =>
      cases res with
      | nilInterface => simp [M.fail]
      | statusPtr p => cases p <;> simp [M.fail]
      | str s => simp [M.fail]

/-! ## Evaluations on scripted remote services -/

/-- C15: the wait for a stable overall status succeeds when the overall status is
NotStarted, Paused or Failed, but it fails when the overall status is Success: Success is
neither in the target list `staticComponentUpgradeStatus` nor in the pending list, so the
first probe ends the wait with the unexpected-state error, and `runUpgrade` returns that
error without launching any component. -/
theorem overallWait_on_success_fails :
    (overallWait (fixedClientSet Status.NOT_STARTED Status.NOT_STARTED none 119) []).succeeded
        = true ∧
      (overallWait (fixedClientSet Status.PAUSED Status.NOT_STARTED none 119) []).succeeded
        = true ∧
      (overallWait (fixedClientSet Status.FAILED Status.NOT_STARTED none 119) []).succeeded
        = true ∧
      (overallWait (fixedClientSet Status.SUCCESS Status.SUCCESS none 119) []).out =
        Except.error (Err.waitFailed [Status.FAILED, Status.NOT_STARTED, Status.PAUSED]
          (WaitErr.unexpectedState Status.SUCCESS) (some (Status.SUCCESS, ""))) ∧
      (runUpgrade (fixedClientSet Status.SUCCESS Status.SUCCESS none 119) (fun _ => false)
          []).out =
        Except.error (Err.waitFailed [Status.FAILED, Status.NOT_STARTED, Status.PAUSED]
          (WaitErr.unexpectedState Status.SUCCESS) (some (Status.SUCCESS, ""))) ∧
      (runUpgrade (fixedClientSet Status.SUCCESS Status.SUCCESS none 119) (fun _ => false)
          []).calls =
        [Event.StatusGet none (Reply.ok (fixedStatus Status.SUCCESS Status.SUCCESS none))] := by
  refine ⟨by decide, by decide, by decide, rfl, rfl, by decide⟩

/-- C19: when the status probe at entry of Edge succeeds and the next status probe (the
first of the wait for a static status) fails, `prepareUpgrade` does not return that error:
the refresh function hands the nil `*upgradeStatusAndDetail` to `WaitForState` inside a
non-nil interface, and `waitUpgradeForStatus` dereferences it; the run ends in a Go
panic after the two probes. -/
theorem prepareUpgrade_probe_error_panics :
    (prepareUpgrade probeFailClientSet changedData []).out = Except.error Err.goPanic ∧
      (prepareUpgrade probeFailClientSet changedData []).calls =
        [Event.StatusGet (some Component.EDGE)
           (Reply.ok (fixedStatus Status.NOT_STARTED Status.NOT_STARTED none)),
         Event.StatusGet (some Component.EDGE)
           (Reply.fail (RemoteErr.other "connection reset"))] ∧
      (upgradeRunCreateOrUpdate probeFailClientSet changedData "u" []).out =
        Except.error Err.goPanic := by
  refine ⟨rfl, by decide, rfl⟩

/-- C20: the replies of `Pause` and `Upgrade` are dropped.  When `Upgrade(Edge)` is
rejected, `runUpgrade` goes on to probe the status of Edge and returns the error of that
wait, not the error of `Upgrade`; when `Pause` is rejected, `prepareUpgrade` goes on to
wait, reset and prepare Host, and returns success. -/
theorem plan_errors_are_dropped :
    (runUpgrade rejectingClientSet (fun _ => false) []).calls =
        [Event.StatusGet none
           (Reply.ok (fixedStatus Status.NOT_STARTED Status.NOT_STARTED none)),
         Event.Upgrade Component.EDGE (some (RemoteErr.other "rejected")),
         Event.StatusGet (some Component.EDGE)
           (Reply.ok (fixedStatus Status.NOT_STARTED Status.NOT_STARTED none))] ∧
      (runUpgrade rejectingClientSet (fun _ => false) []).out =
        Except.error (Err.waitFailed [Status.SUCCESS]
          (WaitErr.unexpectedState Status.NOT_STARTED) (some (Status.NOT_STARTED, ""))) ∧
      (prepareUpgrade (quiescingClientSet Status.IN_PROGRESS (some (RemoteErr.other "rejected")))
          changedData []).calls =
        [Event.StatusGet (some Component.EDGE)
           (Reply.ok (fixedStatus Status.PAUSED Status.IN_PROGRESS none)),
         Event.Pause (some (RemoteErr.other "rejected")),
         Event.StatusGet (some Component.EDGE)
           (Reply.ok (fixedStatus Status.PAUSED Status.PAUSED none)),
         Event.Reset Component.EDGE none,
         Event.StatusGet (some Component.HOST)
           (Reply.ok (fixedStatus Status.PAUSED Status.PAUSED none)),
         Event.StatusGet (some Component.HOST)
           (Reply.ok (fixedStatus Status.PAUSED Status.PAUSED none)),
         Event.Reset Component.HOST none] ∧
      (prepareUpgrade (quiescingClientSet Status.IN_PROGRESS (some (RemoteErr.other "rejected")))
          changedData []).out = Except.ok () := by
  refine ⟨by decide, rfl, by decide, rfl⟩

/-- C11 (as stated) fails: when Edge is observed in Pausing at entry to its preparation,
no `Pause` is issued at all; the coordinator waits until Edge is static and resets it. -/
theorem prepareUpgrade_quiesce_counterexample :
    (prepareUpgrade (quiescingClientSet Status.PAUSING none) changedData []).calls =
        [Event.StatusGet (some Component.EDGE)
           (Reply.ok (fixedStatus Status.PAUSED Status.PAUSING none)),
         Event.StatusGet (some Component.EDGE)
           (Reply.ok (fixedStatus Status.PAUSED Status.PAUSED none)),
         Event.Reset Component.EDGE none,
         Event.StatusGet (some Component.HOST)
           (Reply.ok (fixedStatus Status.PAUSED Status.PAUSED none)),
         Event.StatusGet (some Component.HOST)
           (Reply.ok (fixedStatus Status.PAUSED Status.PAUSED none)),
         Event.Reset Component.HOST none] ∧
      observedStatus Component.EDGE (fixedStatus Status.PAUSED Status.PAUSING none) =
        some Status.PAUSING ∧
      (∀ e ∈ (prepareUpgrade (quiescingClientSet Status.PAUSING none) changedData []).calls,
        e.isPause = false) := by
  refine ⟨by decide, by decide, by decide⟩

/-- C13 (as stated) fails: when the status of every component fetched at entry is
Success, `prepareUpgrade` issues the two status probes only, but `runUpgrade` still
issues `Upgrade` for Edge, Host and Management. -/
theorem upgradeRunCreateOrUpdate_success_counterexample :
    (prepareUpgrade (fixedClientSet Status.PAUSED Status.SUCCESS none 119) changedData []).calls =
        [Event.StatusGet (some Component.EDGE)
           (Reply.ok (fixedStatus Status.PAUSED Status.SUCCESS none)),
         Event.StatusGet (some Component.HOST)
           (Reply.ok (fixedStatus Status.PAUSED Status.SUCCESS none))] ∧
      upgradeCalls (upgradeRunCreateOrUpdate (fixedClientSet Status.PAUSED Status.SUCCESS none 119)
          changedData "u" []).calls =
        [Component.EDGE, Component.HOST, Component.MP] := by
  refine ⟨by decide, by decide⟩

/-- C17 (as stated) fails: the status wait of Edge observes InProgress with the detail
"step 3 of 9" twice and hits the timeout; the error returned carries the target set and
the last state inside the timeout error, but no status-and-detail text. -/
theorem upgradeRunCreateOrUpdate_timeout_counterexample :
    (upgradeRunCreateOrUpdate
        (fixedClientSet Status.PAUSED Status.IN_PROGRESS (some "step 3 of 9") 2)
        unchangedData "u" []).out =
      Except.error (Err.handled "NsxtUpgradeRun" "u"
        (Err.waitFailed [Status.SUCCESS] (WaitErr.timeout (some Status.IN_PROGRESS)) none)) ∧
    (upgradeRunCreateOrUpdate
        (fixedClientSet Status.PAUSED Status.IN_PROGRESS (some "step 3 of 9") 2)
        unchangedData "u" []).calls =
      [Event.StatusGet none
         (Reply.ok (fixedStatus Status.PAUSED Status.IN_PROGRESS (some "step 3 of 9"))),
       Event.Upgrade Component.EDGE none,
       Event.StatusGet (some Component.EDGE)
         (Reply.ok (fixedStatus Status.PAUSED Status.IN_PROGRESS (some "step 3 of 9"))),
       Event.StatusGet (some Component.EDGE)
         (Reply.ok (fixedStatus Status.PAUSED Status.IN_PROGRESS (some "step 3 of 9")))] ∧
    statusAndDetailOf (some Component.EDGE)
        (fixedStatus Status.PAUSED Status.IN_PROGRESS (some "step 3 of 9")) =
      some { Status := Status.IN_PROGRESS, Detail := "step 3 of 9" } := by
  refine ⟨rfl, by decide, by decide⟩

/-! ## Status poller: probe errors -/

theorem probeOutput_of_error (cs : upgradeClientSet) (component : Option Component)
    (h : History) (err : Err)
    (herr : (getUpgradeStatus cs.StatusClient component h).out = Except.error err) :
    (tolerated component err →
      probeOutput component (cs.StatusClient.Get h component) =
        { result := RefreshResult.str Status.IN_PROGRESS, state := Status.IN_PROGRESS,
          err := none }) ∧
    (¬ tolerated component err →
      probeOutput component (cs.StatusClient.Get h component) =
        { result := RefreshResult.statusPtr none, state := Status.FAILED, err := some err }) := by
  rw [getUpgradeStatus_out] at herr
  unfold tolerated
  cases hr : cs.StatusClient.Get h component with
  | fail e =>
    rw [hr] at herr
    simp only [Except.error.injEq] at herr
    subst herr
    by_cases ht : component = some Component.MP ∧
        (e = RemoteErr.serviceUnavailable ∨ e = RemoteErr.timeout)
    · simp [probeOutput, ht]
    · have ht2 : ¬ (component = some Component.MP ∧
          (Err.remote e = Err.remote RemoteErr.serviceUnavailable ∨
            Err.remote e = Err.remote RemoteErr.timeout)) := by
        simpa using ht
      simp only [probeOutput, ht, if_false]
      exact ⟨fun hyes => absurd hyes ht2, fun _ => trivial⟩
  | ok s =>
    rw [hr] at herr
    cases component with
    | none => simp at herr
    | some c =>
      simp only [] at herr
      cases hf : s.ComponentStatus.find? (fun componentStatus =>
          componentStatus.ComponentType = c) with
      | some cst => rw [hf] at herr; simp at herr
      | none =>
        rw [hf] at herr
        simp only [Except.error.injEq] at herr
        subst herr
        simp [probeOutput, statusAndDetailOf, hf]

/-- C16: when a status probe of `waitUpgradeForStatus` returns an error, the refresh
function reports the state InProgress with no error if and only if the selector is
Management and the error is the service-unavailable or the timeout error of the remote
call; in that case a wait whose pending set has InProgress (and whose target set has not)
goes on with the next probe.  In every other case (Edge, Host, the overall status, or
another error on Management) a wait that has room for a probe makes no further probe, but
it does not return a failure: the refresh function hands the nil status to `WaitForState`
inside a non-nil interface, the test `statusI != nil` passes, and the wait ends in a Go
panic at the dereference instead of returning the error it formats on the next line. -/
theorem waitUpgradeForStatus_probe_error (cs : upgradeClientSet) (component : Option Component)
    (h : History) (err : Err)
    (herr : (getUpgradeStatus cs.StatusClient component h).out = Except.error err) :
    ((waitUpgradeForStatusRefresh cs component h).out =
        Except.ok { result := RefreshResult.str Status.IN_PROGRESS, state := Status.IN_PROGRESS,
                    err := none } ↔
      tolerated component err) ∧
    (tolerated component err →
      ∀ (pending target : List Status) (n : Nat) (last : Option Status),
        Status.IN_PROGRESS ∈ pending → Status.IN_PROGRESS ∉ target →
        WaitForStateLoop (stateConfOf cs component pending target) (n + 1) last h =
          Run.after [Event.StatusGet component (cs.StatusClient.Get h component)]
            (WaitForStateLoop (stateConfOf cs component pending target) n
              (some Status.IN_PROGRESS)
              (h ++ [Event.StatusGet component (cs.StatusClient.Get h component)]))) ∧
    (¬ tolerated component err →
      ∀ (pending target : List Status), 0 < cs.Probes h →
        (waitUpgradeForStatus cs component pending target h).out = Except.error Err.goPanic ∧
        (waitUpgradeForStatus cs component pending target h).succeeded = false ∧
        (waitUpgradeForStatus cs component pending target h).calls =
          [Event.StatusGet component (cs.StatusClient.Get h component)]) := by
  have hpo := probeOutput_of_error cs component h err herr
  refine ⟨?_, ?_, ?_⟩
  · rw [waitUpgradeForStatusRefresh_eq]
    constructor
    · intro hout
      by_contra hnt
      rw [hpo.2 hnt] at hout
      simp at hout
    · intro ht
      rw [hpo.1 ht]
  · intro ht pending target n last hp hnt
    rw [WaitForStateLoop_succ, hpo.1 ht]
    simp [hp, hnt]
  · intro ht pending target hpos
    obtain ⟨n, hn⟩ : ∃ n, cs.Probes h = n + 1 := ⟨cs.Probes h - 1, by omega⟩
    have hloop : WaitForStateLoop (stateConfOf cs component pending target) (cs.Probes h) none h =
        ⟨Except.ok (RefreshResult.statusPtr none, some (WaitErr.refresh err)),
          [Event.StatusGet component (cs.StatusClient.Get h component)]⟩ := by
      rw [hn, WaitForStateLoop_succ, hpo.2 ht]
    rw [waitUpgradeForStatus_eq, hloop]
    exact ⟨rfl, rfl, rfl⟩

theorem waitUpgradeForStatus_probe_error_witness :
    (waitUpgradeForStatusRefresh (restartingClientSet 3) (some Component.MP) []).out =
        Except.ok { result := RefreshResult.str Status.IN_PROGRESS,
                    state := Status.IN_PROGRESS, err := none } ∧
      (waitUpgradeForStatus (restartingClientSet 3) (some Component.MP)
        [Status.IN_PROGRESS] [Status.SUCCESS] []).succeeded = true ∧
      (waitUpgradeForStatus (restartingClientSet 3) (some Component.MP)
        [Status.IN_PROGRESS] [Status.SUCCESS] []).calls =
        [Event.StatusGet (some Component.MP) (Reply.fail RemoteErr.serviceUnavailable),
         Event.StatusGet (some Component.MP) (Reply.fail RemoteErr.serviceUnavailable),
         Event.StatusGet (some Component.MP) (Reply.fail RemoteErr.serviceUnavailable),
         Event.StatusGet (some Component.MP)
           (Reply.ok (fixedStatus Status.PAUSED Status.SUCCESS none))] ∧
      ((waitUpgradeForStatus (restartingClientSet 3) (some Component.EDGE)
          [Status.IN_PROGRESS] [Status.SUCCESS] []).out = Except.error Err.goPanic ∧
        (waitUpgradeForStatus (restartingClientSet 3) (some Component.EDGE)
          [Status.IN_PROGRESS] [Status.SUCCESS] []).succeeded = false ∧
        (waitUpgradeForStatus (restartingClientSet 3) (some Component.EDGE)
          [Status.IN_PROGRESS] [Status.SUCCESS] []).calls =
          [Event.StatusGet (some Component.EDGE)
            (Reply.fail RemoteErr.serviceUnavailable)]) :=
  ⟨(waitUpgradeForStatus_probe_error (restartingClientSet 3) (some Component.MP) []
      (Err.remote RemoteErr.serviceUnavailable) rfl).1.2 ⟨rfl, Or.inl rfl⟩,
    by decide, by decide,
    (waitUpgradeForStatus_probe_error (restartingClientSet 3) (some Component.EDGE) []
      (Err.remote RemoteErr.serviceUnavailable) rfl).2.2 (fun ht => by cases ht.1)
      [Status.IN_PROGRESS] [Status.SUCCESS] (by decide)⟩

/-! ## A second run against a fabric at Success -/

theorem prepareUpgrade_unchanged (cs : upgradeClientSet) (d : ResourceData) (h : History)
    (hsame : ∀ key, d.HasChange key = false) :
    prepareUpgrade cs d h = ⟨Except.ok (), []⟩ := by
  unfold prepareUpgrade upgradeComponentList
  simp [prepareUpgradeLoop, hsame, M.pure]

theorem overallWait_on_success (cs : upgradeClientSet) (h : History) (s : UpgradeStatus)
    (hget : cs.StatusClient.Get h none = Reply.ok s)
    (hs : s.OverallUpgradeStatus = Status.SUCCESS) :
    (overallWait cs h).succeeded = false ∧
      (overallWait cs h).calls =
        if cs.Probes h = 0 then [] else [Event.StatusGet none (Reply.ok s)] := by
  unfold overallWait
  rw [waitUpgradeForStatus_eq]
  cases hn : cs.Probes h with
  | zero =>
    simp [WaitForStateLoop, M.pure, Run.succeeded]
  | succ n =>
    rw [WaitForStateLoop_succ, hget]
    simp [probeOutput, statusAndDetailOf, hs, staticComponentUpgradeStatus,
      inFlightComponentUpgradeStatus, Run.succeeded]

theorem M.bind_succeeded {α β : Type} (m : M α) (f : α → M β) (h : History)
    (hs : (M.bind m f h).succeeded = true) :
    ∃ a, (m h).out = Except.ok a ∧ (f a (h ++ (m h).calls)).succeeded = true := by
  unfold Run.succeeded at hs
  rw [M.bind_out] at hs
  cases ho : (m h).out with
  | ok a =>
    rw [ho] at hs
    exact ⟨a, rfl, hs⟩
  | error e =>
    rw [ho] at hs
    simp at hs

/-- C14: when no attribute changed and every status summary of the remote service shows
the overall status and the three components at Success, a create-or-update run issues no
group `Update`, no settings `Update` and no `Upgrade`: its only call is at most one read of
the overall status.  (The run does not return success: the wait for a stable overall
status rejects Success, see C15.) -/
theorem upgradeRunCreateOrUpdate_at_success (cs : upgradeClientSet) (d : ResourceData)
    (newUUID : String) (h : History)
    (hsame : ∀ key, d.HasChange key = false)
    (hfabric : ∀ h2 sel, ∃ s, cs.StatusClient.Get h2 sel = Reply.ok s ∧
      s.OverallUpgradeStatus = Status.SUCCESS ∧ ∀ c, observedStatus c s = some Status.SUCCESS) :
    sentUpdates (upgradeRunCreateOrUpdate cs d newUUID h).calls = [] ∧
      sentSettings (upgradeRunCreateOrUpdate cs d newUUID h).calls = [] ∧
      upgradeCalls (upgradeRunCreateOrUpdate cs d newUUID h).calls = [] ∧
      (∀ e ∈ (upgradeRunCreateOrUpdate cs d newUUID h).calls,
        ∃ reply, e = Event.StatusGet none reply) ∧
      (upgradeRunCreateOrUpdate cs d newUUID h).calls.length ≤ 1 ∧
      (upgradeRunCreateOrUpdate cs d newUUID h).succeeded = false := by
  obtain ⟨s, hget, hs, _⟩ := hfabric h none
  have hprep := prepareUpgrade_unchanged cs d h hsame
  have hw := overallWait_on_success cs h s hget hs
  have hrun : runUpgrade cs (getPartialUpgradeMap d) h =
      ⟨(overallWait cs h).out, (overallWait cs h).calls⟩ := by
    unfold runUpgrade upgradeComponentList
    rw [runUpgradeLoop_cons]
    simp [hw.1]
  have hnot : (runUpgrade cs (getPartialUpgradeMap d) h).succeeded = false := by
    rw [hrun]
    exact hw.1
  obtain ⟨tail, hcalls, _, htail⟩ := upgradeRunCreateOrUpdate_calls cs d newUUID h
  rw [hprep] at hcalls htail
  simp only [List.append_nil, List.nil_append] at hcalls htail
  have htl : tail = [] := by
    by_contra hne
    have := htail hne
    rw [hnot] at this
    exact absurd this (by simp)
  have hcalls2 : (upgradeRunCreateOrUpdate cs d newUUID h).calls = (overallWait cs h).calls := by
    rw [hcalls, htl, hrun]
    simp [Run.succeeded]
  have hfail : (upgradeRunCreateOrUpdate cs d newUUID h).succeeded = false := by
    by_contra hsucc
    have hsucc2 : (upgradeRunCreateOrUpdate cs d newUUID h).succeeded = true := by
      simpa using hsucc
    unfold upgradeRunCreateOrUpdate at hsucc2
    obtain ⟨_, _, hs2⟩ := M.bind_succeeded _ _ _ hsucc2
    obtain ⟨_, hs3, _⟩ := M.bind_succeeded _ _ _ hs2
    have hs4 := (M.handle_calls (runUpgrade cs (getPartialUpgradeMap d))
      (handleCreateError "NsxtUpgradeRun" (if d.Id = "" then newUUID else d.Id))
      (h ++ (M.handle (prepareUpgrade cs d)
        (handleCreateError "NsxtUpgradeRun" (if d.Id = "" then newUUID else d.Id)) h).calls)).2
    rw [(M.handle_calls _ _ h).1, hprep] at hs4
    simp only [List.append_nil] at hs4
    rw [hnot] at hs4
    rw [(M.handle_calls _ _ h).1, hprep] at hs3
    simp only [List.append_nil] at hs3
    unfold Run.succeeded at hs4
    rw [hs3] at hs4
    exact absurd hs4 (by simp)
  rw [hcalls2, hw.2]
  refine ⟨?_, ?_, ?_, ?_, ?_, hfail⟩
  · split_ifs <;> simp [sentUpdates]
  · split_ifs <;> simp [sentSettings]
  · split_ifs <;> simp [upgradeCalls]
  · intro e he
    split_ifs at he
    · simp at he
    · exact ⟨_, List.mem_singleton.1 he⟩
  · split_ifs <;> simp

theorem upgradeRunCreateOrUpdate_at_success_witness :
    upgradeCalls (upgradeRunCreateOrUpdate (fixedClientSet Status.SUCCESS Status.SUCCESS none 119)
        unchangedData "u" []).calls = [] ∧
      (upgradeRunCreateOrUpdate (fixedClientSet Status.SUCCESS Status.SUCCESS none 119)
        unchangedData "u" []).calls =
        [Event.StatusGet none (Reply.ok (fixedStatus Status.SUCCESS Status.SUCCESS none))] :=
  ⟨(upgradeRunCreateOrUpdate_at_success (fixedClientSet Status.SUCCESS Status.SUCCESS none 119)
      unchangedData "u" [] (fun _ => rfl)
      (fun _ _ => ⟨fixedStatus Status.SUCCESS Status.SUCCESS none, rfl, rfl,
        fun c => by cases c <;> rfl⟩)).2.2.1,
    by decide⟩

/-! ## A component found at Success -/

theorem getUpgradeStatus_ok (statusClient : StatusSummaryClient) (c : Component)
    (h : History) (s : UpgradeStatus) (st : Status)
    (hget : statusClient.Get h (some c) = Reply.ok s)
    (hobs : observedStatus c s = some st) :
    ∃ status, getUpgradeStatus statusClient (some c) h =
        ⟨Except.ok status, [Event.StatusGet (some c) (Reply.ok s)]⟩ ∧ status.Status = st := by
  have hc := getUpgradeStatus_calls statusClient (some c) h
  have ho := getUpgradeStatus_out statusClient (some c) h
  rw [hget] at hc ho
  unfold observedStatus at hobs
  cases hf : s.ComponentStatus.find? (fun componentStatus =>
      componentStatus.ComponentType = c) with
  | none => rw [hf] at hobs; simp at hobs
  | some cst =>
    rw [hf] at hobs
    simp only [hf] at ho
    simp only [Option.map_some', Option.some.injEq] at hobs
    refine ⟨{ Status := cst.Status
              Detail := match cst.Details with
                | some details => details
                | none => "" }, ?_, hobs⟩
    cases hrun : getUpgradeStatus statusClient (some c) h with
    | mk out calls =>
      rw [hrun] at hc ho
      simp only [] at hc ho
      rw [hc, ho]

/-- C13 (amended): if the status of a component (Edge or Host) fetched at entry to its
preparation is Success, `prepareUpgrade` skips the component: its iteration issues the
status probe and nothing else (no `Pause`, `Reset`, group `Get`/`Update`/`Reorder`,
settings `Get`/`Update`).  `runUpgrade` does not look at that status: the iteration of a
launched component issues `Upgrade(component)` as soon as the overall status is stable. -/
theorem prepareUpgradeLoop_success_skip (cs : upgradeClientSet) (d : ResourceData)
    (c : Component) (rest : List Component) (h : History) (s : UpgradeStatus)
    (hc : c ≠ Component.MP)
    (hchg : (d.HasChange (componentToGroupKey c) || d.HasChange (componentToSettingKey c)) = true)
    (hget : cs.StatusClient.Get h (some c) = Reply.ok s)
    (hobs : observedStatus c s = some Status.SUCCESS) :
    prepareUpgradeLoop cs d (c :: rest) h =
        Run.after [Event.StatusGet (some c) (Reply.ok s)]
          (prepareUpgradeLoop cs d rest (h ++ [Event.StatusGet (some c) (Reply.ok s)])) ∧
      (∀ (pm : Component → Bool) (rest2 : List Component) (pe : Bool) (h2 : History),
        ¬ (c = Component.MP ∧ pe = true) → (overallWait cs h2).succeeded = true →
        upgradeEvent cs c (h2 ++ (overallWait cs h2).calls) ∈
          (runUpgradeLoop cs pm (c :: rest2) pe h2).calls) := by
  refine ⟨?_, ?_⟩
  · obtain ⟨status, hrun, hst⟩ := getUpgradeStatus_ok cs.StatusClient c h s _ hget hobs
    have hchg2 : ¬ ((!d.HasChange (componentToGroupKey c) &&
        !d.HasChange (componentToSettingKey c)) = true) := by
      cases h1 : d.HasChange (componentToGroupKey c) <;>
        cases h2 : d.HasChange (componentToSettingKey c) <;> simp_all
    rw [prepareUpgradeLoop]
    have hmp : ¬ (c = mpUpgradeGroup) := hc
    simp only [hmp, hchg2, if_false, Bool.false_eq_true]
    simp only [M.bind, hrun]
    simp [hst, Run.after]
  · intro pm rest2 pe h2 hskip hw
    rw [runUpgradeLoop_cons]
    simp only [hw, hskip, if_true, if_false]
    split_ifs <;> simp [Run.after]

theorem prepareUpgradeLoop_success_skip_witness :
    prepareUpgradeLoop (fixedClientSet Status.PAUSED Status.SUCCESS none 119) changedData
        [Component.EDGE] [] =
      ⟨Except.ok (),
        [Event.StatusGet (some Component.EDGE)
          (Reply.ok (fixedStatus Status.PAUSED Status.SUCCESS none))]⟩ :=
  (prepareUpgradeLoop_success_skip (fixedClientSet Status.PAUSED Status.SUCCESS none 119)
    changedData Component.EDGE [] [] (fixedStatus Status.PAUSED Status.SUCCESS none)
    (by decide) rfl rfl rfl).1

/-! ## Preparation of a component: the shape of one iteration -/

theorem prepareUpgradeLoop_entry (cs : upgradeClientSet) (d : ResourceData)
    (c : Component) (rest : List Component) (h : History) (s : UpgradeStatus) (st : Status)
    (hc : c ≠ Component.MP)
    (hchg : (d.HasChange (componentToGroupKey c) || d.HasChange (componentToSettingKey c)) = true)
    (hget : cs.StatusClient.Get h (some c) = Reply.ok s)
    (hobs : observedStatus c s = some st) (hns : st ≠ Status.SUCCESS) :
    prepareUpgradeLoop cs d (c :: rest) h =
      Run.after [Event.StatusGet (some c) (Reply.ok s)]
        (M.bind
          (if st = Status.IN_PROGRESS then
            M.bind (M.call (fun h => cs.PlanClient.Pause h) Event.Pause) fun _ => M.pure ()
          else M.pure ()) (fun _ =>
          M.bind (waitUpgradeForStatus cs (some c) inFlightComponentUpgradeStatus
            staticComponentUpgradeStatus) fun _ =>
          M.bind (M.bind (M.call (fun h => cs.PlanClient.Reset h c) (Event.Reset c))
            M.checkErr) fun _ =>
          M.bind (updateUpgradeUnitGroups cs d c) fun _ =>
          M.bind (updateComponentUpgradePlanSetting cs.SettingClient d c) fun _ =>
          prepareUpgradeLoop cs d rest)
          (h ++ [Event.StatusGet (some c) (Reply.ok s)])) := by
  obtain ⟨status, hrun, hst⟩ := getUpgradeStatus_ok cs.StatusClient c h s _ hget hobs
  have hchg2 : ¬ ((!d.HasChange (componentToGroupKey c) &&
      !d.HasChange (componentToSettingKey c)) = true) := by
    cases h1 : d.HasChange (componentToGroupKey c) <;>
      cases h2 : d.HasChange (componentToSettingKey c) <;> simp_all
  have hmp : ¬ (c = mpUpgradeGroup) := hc
  have hns2 : ¬ (status.Status = Status.SUCCESS) := by rw [hst]; exact hns
  rw [prepareUpgradeLoop]
  simp only [hmp, hchg2, if_false, Bool.false_eq_true]
  conv_lhs => rw [M.bind]
  simp only [hrun, hst, if_neg hns, Run.after, List.singleton_append]

/-- C11 (amended): for a component (Edge or Host) whose preparation is entered and whose
status is observed in InProgress or Pausing at entry, the calls of its iteration are: the
status probe; then `Pause` on the plan if the status was InProgress, and no `Pause` if it
was Pausing; then the probes of the wait for a static status; then, only if that wait
returned success (its last probe observed the component in Failed, NotStarted or Paused),
`Reset(component)` followed by the remaining calls.  No group `Update` or `Reorder` is
among the calls before `Reset`. -/
theorem prepareUpgradeLoop_quiesce (cs : upgradeClientSet) (d : ResourceData)
    (c : Component) (rest : List Component) (h : History) (s : UpgradeStatus) (st : Status)
    (hc : c ≠ Component.MP)
    (hchg : (d.HasChange (componentToGroupKey c) || d.HasChange (componentToSettingKey c)) = true)
    (hget : cs.StatusClient.Get h (some c) = Reply.ok s)
    (hobs : observedStatus c s = some st)
    (hin : st = Status.IN_PROGRESS ∨ st = Status.PAUSING) :
    let probe := Event.StatusGet (some c) (Reply.ok s)
    let pause :=
      if st = Status.IN_PROGRESS then [Event.Pause (cs.PlanClient.Pause (h ++ [probe]))] else []
    let w := waitUpgradeForStatus cs (some c) inFlightComponentUpgradeStatus
      staticComponentUpgradeStatus (h ++ [probe] ++ pause)
    let reset := Event.Reset c (cs.PlanClient.Reset (h ++ [probe] ++ pause ++ w.calls) c)
    (∃ tail, (prepareUpgradeLoop cs d (c :: rest) h).calls =
      probe :: (pause ++ w.calls ++ (if w.succeeded = true then reset :: tail else []))) ∧
    (w.succeeded = true →
      ∃ st2, lastObserved c w.calls = some st2 ∧ st2 ∈ staticComponentUpgradeStatus) ∧
    sentUpdates (probe :: (pause ++ w.calls)) = [] ∧
    reorderCalls (probe :: (pause ++ w.calls)) = [] := by
  intro probe pause w reset
  have hns : st ≠ Status.SUCCESS := by
    rcases hin with h1 | h1 <;> rw [h1] <;> decide
  have hprobes := waitUpgradeForStatus_calls cs (some c) inFlightComponentUpgradeStatus
    staticComponentUpgradeStatus (h ++ [probe] ++ pause)
  refine ⟨?_, ?_, ?_, ?_⟩
  · rw [prepareUpgradeLoop_entry cs d c rest h s st hc hchg hget hobs hns]
    have hpause : (if st = Status.IN_PROGRESS then
          M.bind (M.call (fun h => cs.PlanClient.Pause h) Event.Pause) fun _ => M.pure ()
        else M.pure ()) (h ++ [probe]) = ⟨Except.ok (), pause⟩ := by
      by_cases hip : st = Status.IN_PROGRESS
      · simp [hip, pause, M.bind, M.call, M.pure]
      · simp [hip, pause, M.pure]
    have hps : (Run.mk (Except.ok ()) pause : Run Unit).succeeded = true := rfl
    simp only [Run.after]
    rw [M.bind_unit_calls, hpause]
    simp only [hps, if_true]
    rw [M.bind_unit_calls]
    change ∃ tail, probe :: (pause ++ (w.calls ++ if w.succeeded = true then _ else [])) = _
    by_cases hw : w.succeeded = true
    · simp only [hw, if_true]
      rw [M.bind_call_checkErr]
      cases hr : cs.PlanClient.Reset (h ++ [probe] ++ pause ++ w.calls) c with
      | none =>
        refine ⟨(M.bind (updateUpgradeUnitGroups cs d c) (fun _ =>
          M.bind (updateComponentUpgradePlanSetting cs.SettingClient d c) fun _ =>
          prepareUpgradeLoop cs d rest)
          (h ++ [probe] ++ pause ++ w.calls ++ [reset])).calls, ?_⟩
        simp only [reset, hr]
        simp only [probe, w, List.append_assoc]
      | some e =>
        refine ⟨[], ?_⟩
        simp only [reset, hr]
        simp only [List.append_assoc]
    · refine ⟨[], ?_⟩
      simp [hw]
  · intro hw
    obtain ⟨p, reply, st2, hcalls, hst2, hmem⟩ := hprobes.2 hw
    refine ⟨st2, ?_, hmem⟩
    show lastObserved c (waitUpgradeForStatus cs (some c) inFlightComponentUpgradeStatus
      staticComponentUpgradeStatus (h ++ [probe] ++ pause)).calls = some st2
    rw [hcalls]
    simp [lastObserved, probesOf_append, probesOf,
      observedReply_of_refreshState c hc reply st2 hst2]
  · have hw0 : sentUpdates w.calls = [] := by
      unfold sentUpdates
      rw [List.filterMap_eq_nil_iff]
      intro e he
      obtain ⟨reply, rfl⟩ := hprobes.1 e he
      rfl
    have hp0 : sentUpdates pause = [] := by
      simp only [pause]
      split_ifs <;> rfl
    have : sentUpdates (probe :: (pause ++ w.calls)) =
        sentUpdates pause ++ sentUpdates w.calls := by
      simp [sentUpdates, probe, List.filterMap_append]
    rw [this, hw0, hp0]
    rfl
  · have hw0 : reorderCalls w.calls = [] := by
      unfold reorderCalls
      rw [List.filterMap_eq_nil_iff]
      intro e he
      obtain ⟨reply, rfl⟩ := hprobes.1 e he
      rfl
    have hp0 : reorderCalls pause = [] := by
      simp only [pause]
      split_ifs <;> rfl
    have : reorderCalls (probe :: (pause ++ w.calls)) =
        reorderCalls pause ++ reorderCalls w.calls := by
      simp [reorderCalls, probe, List.filterMap_append]
    rw [this, hw0, hp0]
    rfl

theorem prepareUpgradeLoop_quiesce_witness :
    (∃ tail, (prepareUpgradeLoop (quiescingClientSet Status.IN_PROGRESS none) changedData
        [Component.EDGE] []).calls =
      Event.StatusGet (some Component.EDGE)
          (Reply.ok (fixedStatus Status.PAUSED Status.IN_PROGRESS none)) ::
        ([Event.Pause none] ++
          [Event.StatusGet (some Component.EDGE)
            (Reply.ok (fixedStatus Status.PAUSED Status.PAUSED none))] ++
          Event.Reset Component.EDGE none :: tail)) ∧
      lastObserved Component.EDGE
        [Event.StatusGet (some Component.EDGE)
          (Reply.ok (fixedStatus Status.PAUSED Status.PAUSED none))] = some Status.PAUSED :=
  ⟨(prepareUpgradeLoop_quiesce (quiescingClientSet Status.IN_PROGRESS none) changedData
      Component.EDGE [] [] (fixedStatus Status.PAUSED Status.IN_PROGRESS none)
      Status.IN_PROGRESS (by decide) rfl rfl rfl (Or.inl rfl)).1, by decide⟩

/-! ## Preparation: mutating calls are issued on a quiesced component -/

theorem componentProbes_append (a b : List Event) :
    componentProbes (a ++ b) = componentProbes a ++ componentProbes b := by
  simp [componentProbes, List.filterMap_append]

theorem componentProbes_quiet (c : Component) (l : List Event)
    (hl : ∀ e ∈ l, e.quietFor c) : componentProbes l = [] := by
  unfold componentProbes
  rw [List.filterMap_eq_nil_iff]
  intro e he
  have h1 := (hl e he).1
  cases e with
  | StatusGet component r =>
    cases component with
    | none => rfl
    | some c2 => simp [Event.isComponentProbe] at h1
  | _ => rfl

theorem lastProbe_append_quiet (c : Component) (a l : List Event)
    (hl : ∀ e ∈ l, e.quietFor c) : lastProbe (a ++ l) = lastProbe a := by
  unfold lastProbe
  rw [componentProbes_append, componentProbes_quiet c l hl, List.append_nil]

theorem lastProbe_lastObserved (c : Component) (x : Option Status) (l : List Event)
    (hl : lastProbe l = some (c, x)) : lastObserved c l = x := by
  induction l using List.reverseRecOn with
  | nil => simp [lastProbe, componentProbes] at hl
  | append_singleton l e ih =>
    unfold lastProbe at hl ih
    unfold lastObserved at ih ⊢
    rw [componentProbes_append] at hl
    rw [probesOf_append]
    cases e with
    | StatusGet component r =>
      cases component with
      | none =>
        simp only [componentProbes, probesOf, List.filterMap_cons, List.filterMap_nil,
          List.append_nil] at hl ⊢
        exact ih hl
      | some c2 =>
        have hl2 : (c2, observedReply c2 r) = (c, x) := by
          simpa [componentProbes] using hl
        obtain ⟨rfl, rfl⟩ := Prod.mk.inj hl2
        simp [probesOf]
    | _ =>
      simp only [componentProbes, probesOf, List.filterMap_cons, List.filterMap_nil,
        List.append_nil] at hl ⊢
      exact ih hl

theorem Quiesced_nil (b : List Event) : Quiesced b [] := by
  intro pre e post hsplit
  simp at hsplit

theorem Quiesced_append {b l1 l2 : List Event} (h1 : Quiesced b l1)
    (h2 : Quiesced (b ++ l1) l2) : Quiesced b (l1 ++ l2) := by
  intro pre e post hsplit hmut
  rcases List.append_eq_append_iff.1 hsplit with ⟨a, hpre, hl2⟩ | ⟨a, hl1, hrest⟩
  · obtain ⟨c, st, hlast, hst, hname⟩ := h2 a e post hl2 hmut
    refine ⟨c, st, ?_, hst, hname⟩
    rw [hpre, ← List.append_assoc]
    exact hlast
  · cases a with
    | nil =>
      simp only [List.nil_append] at hrest
      simp only [List.append_nil] at hl1
      obtain ⟨c, st, hlast, hst, hname⟩ := h2 [] e post hrest.symm hmut
      refine ⟨c, st, ?_, hst, hname⟩
      rw [List.append_nil, hl1] at hlast
      exact hlast
    | cons x a =>
      simp only [List.cons_append, List.cons.injEq] at hrest
      obtain ⟨rfl, -⟩ := hrest
      exact h1 pre e a hl1 hmut

theorem Quiesced_of_no_mutation {b l : List Event} (hl : ∀ e ∈ l, e.isMutation = false) :
    Quiesced b l := by
  intro pre e post hsplit hmut
  have he : e ∈ l := by rw [hsplit]; simp
  rw [hl e he] at hmut
  cases hmut

theorem Quiesced_of_quiet {b l : List Event} {c : Component} {st : Status}
    (hb : lastProbe b = some (c, some st)) (hst : st ∈ staticComponentUpgradeStatus)
    (hl : ∀ e ∈ l, e.quietFor c) : Quiesced b l := by
  intro pre e post hsplit hmut
  have hpre : ∀ e2 ∈ pre, e2.quietFor c := by
    intro e2 he2
    exact hl e2 (by rw [hsplit]; simp [he2])
  have he : e ∈ l := by rw [hsplit]; simp
  exact ⟨c, st, by rw [lastProbe_append_quiet c b pre hpre, hb], hst, (hl e he).2⟩

theorem Quiesced_bind {α β : Type} (b : List Event) (m : M α) (f : α → M β) (h : History)
    (hm : Quiesced b (m h).calls)
    (hf : ∀ a, (m h).out = Except.ok a →
      Quiesced (b ++ (m h).calls) (f a (h ++ (m h).calls)).calls) :
    Quiesced b (M.bind m f h).calls := by
  rw [M.bind_calls]
  cases ho : (m h).out with
  | ok a => exact Quiesced_append hm (hf a ho)
  | error e => simpa using hm

theorem Quiesced_bind_quiet {α β : Type} (b : List Event) (m : M α) (f : α → M β)
    (h : History) (c : Component) (st : Status)
    (hb : lastProbe b = some (c, some st)) (hst : st ∈ staticComponentUpgradeStatus)
    (hm : ∀ e ∈ (m h).calls, e.quietFor c)
    (hf : ∀ a, lastProbe (b ++ (m h).calls) = some (c, some st) →
      Quiesced (b ++ (m h).calls) (f a (h ++ (m h).calls)).calls) :
    Quiesced b (M.bind m f h).calls := by
  refine Quiesced_bind b m f h (Quiesced_of_quiet hb hst hm) (fun a _ => hf a ?_)
  rw [lastProbe_append_quiet c b _ hm, hb]

theorem updateUpgradeUnitGroupsLoop_quietFor (cs : upgradeClientSet) (component c : Component) :
    ∀ (groups : List UpgradeGroupConfig) (pre : String) (h : History),
      ∀ e ∈ (updateUpgradeUnitGroupsLoop cs component groups pre h).calls, e.quietFor c := by
  intro groups
  induction groups with
  | nil => intro pre h e he; simp [updateUpgradeUnitGroupsLoop, M.pure] at he
  | cons g rest ih =>
    intro pre h
    rw [updateUpgradeUnitGroupsLoop]
    refine M.bind_calls_all _ _ _
      (M.call_check_calls_all _ _ _ (fun r => ⟨rfl, fun c2 hc2 => by cases hc2⟩))
      (fun gg => ?_) h
    refine M.bind_calls_all _ _ _
      (M.call_check_calls_all _ _ _ (fun r => ⟨rfl, fun c2 hc2 => by cases hc2⟩))
      (fun _ => ?_)
    refine M.bind_calls_all _ _ _ ?_ (fun _ => ih _)
    by_cases hpre : pre = ""
    · intro h2 e he
      simp [hpre, M.pure] at he
    · simp only [ne_eq, hpre, not_false_eq_true, if_true]
      exact M.call_checkErr_calls_all _ _ _ (fun r => ⟨rfl, fun c2 hc2 => by cases hc2⟩)

theorem updateUpgradeUnitGroups_quietFor (cs : upgradeClientSet) (d : ResourceData)
    (component c : Component) (h : History) :
    ∀ e ∈ (updateUpgradeUnitGroups cs d component h).calls, e.quietFor c := by
  unfold updateUpgradeUnitGroups
  refine M.bind_calls_all _ _ _ ?_
    (fun groups => updateUpgradeUnitGroupsLoop_quietFor _ _ _ _ _) h
  intro h2 e he
  cases hv : d.Get (componentToGroupKey component) <;>
    simp [hv, Value.asGroupList, M.pure, M.fail] at he

theorem updateComponentUpgradePlanSetting_quietFor (settingClient : SettingsClient)
    (d : ResourceData) (component : Component) (h : History) :
    ∀ e ∈ (updateComponentUpgradePlanSetting settingClient d component h).calls,
      e.quietFor component := by
  unfold updateComponentUpgradePlanSetting
  refine M.bind_calls_all _ _ _ ?_ (fun settingI => ?_) h
  · intro h2 e he
    cases hv : d.Get (componentToSettingKey component) <;>
      simp [hv, Value.asSettingList, M.pure, M.fail] at he
  · cases settingI with
    | nil => intro h2 e he; simp [M.pure] at he
    | cons setting rest =>
      simp only []
      refine M.bind_calls_all _ _ _
        (M.call_check_calls_all _ _ _ (fun r => ⟨rfl, fun c2 hc2 => by cases hc2⟩))
        (fun sg => ?_)
      refine M.bind_calls_all _ _ _
        (M.call_check_calls_all _ _ _
          (fun r => ⟨rfl, fun c2 hc2 => (Option.some.inj hc2).symm⟩))
        (fun _ => ?_)
      intro h2 e he
      simp [M.pure] at he

theorem lastProbe_wait_success (cs : upgradeClientSet) (c : Component) (hc : c ≠ Component.MP)
    (pending target : List Status) (h : History) (b : List Event)
    (hs : (waitUpgradeForStatus cs (some c) pending target h).succeeded = true) :
    ∃ st, lastProbe (b ++ (waitUpgradeForStatus cs (some c) pending target h).calls) =
        some (c, some st) ∧ st ∈ target := by
  obtain ⟨p, reply, st, hcalls, hst, hmem⟩ :=
    (waitUpgradeForStatus_calls cs (some c) pending target h).2 hs
  refine ⟨st, ?_, hmem⟩
  rw [hcalls, ← List.append_assoc]
  unfold lastProbe
  rw [componentProbes_append]
  simp [componentProbes, observedReply_of_refreshState c hc reply st hst]

theorem prepareUpgradeLoop_quiesced (cs : upgradeClientSet) (d : ResourceData) :
    ∀ (comps : List Component) (h : History) (b : List Event),
      Quiesced b (prepareUpgradeLoop cs d comps h).calls := by
  intro comps
  induction comps with
  | nil =>
    intro h b
    have : (prepareUpgradeLoop cs d [] h).calls = [] := by simp [prepareUpgradeLoop, M.pure]
    rw [this]
    exact Quiesced_nil b
  | cons c rest ih =>
    intro h b
    rw [prepareUpgradeLoop]
    by_cases hmp : c = mpUpgradeGroup
    · simp only [hmp, if_true]
      exact ih h b
    · simp only [hmp, if_false]
      have hc : c ≠ Component.MP := hmp
      split_ifs with hchg
      · exact ih h b
      · refine Quiesced_bind b _ _ h (Quiesced_of_no_mutation ?_) (fun status _ => ?_)
        · intro e he
          rw [getUpgradeStatus_calls] at he
          simp only [List.mem_singleton] at he
          rw [he]
          rfl
        · by_cases hsucc : status.Status = Status.SUCCESS
          · simp only [hsucc, if_true]
            exact ih _ _
          · simp only [hsucc, if_false]
            refine Quiesced_bind _ _ _ _ (Quiesced_of_no_mutation ?_) (fun _ _ => ?_)
            · by_cases hprog : status.Status = Status.IN_PROGRESS
              · simp only [hprog, if_true]
                intro e he
                simp only [M.bind, M.call, M.pure, List.append_nil,
                  List.mem_singleton] at he
                rw [he]
                rfl
              · simp only [hprog, if_false]
                intro e he
                simp [M.pure] at he
            · refine Quiesced_bind _ _ _ _ (Quiesced_of_no_mutation ?_) (fun u hu => ?_)
              · intro e he
                obtain ⟨reply, rfl⟩ := (waitUpgradeForStatus_calls cs (some c) _ _ _).1 e he
                rfl
              · have hs : (waitUpgradeForStatus cs (some c) inFlightComponentUpgradeStatus
                    staticComponentUpgradeStatus
                    (h ++ (getUpgradeStatus cs.StatusClient (some c) h).calls ++
                      ((if status.Status = Status.IN_PROGRESS then
                        M.bind (M.call (fun h => cs.PlanClient.Pause h) Event.Pause)
                          fun _ => M.pure ()
                        else M.pure ())
                        (h ++ (getUpgradeStatus cs.StatusClient (some c) h).calls)).calls)).succeeded
                    = true := by
                  unfold Run.succeeded
                  rw [hu]
                obtain ⟨st, hlast, hst⟩ := lastProbe_wait_success cs c hc _ _ _
                  (b ++ (getUpgradeStatus cs.StatusClient (some c) h).calls ++
                    ((if status.Status = Status.IN_PROGRESS then
                      M.bind (M.call (fun h => cs.PlanClient.Pause h) Event.Pause)
                        fun _ => M.pure ()
                      else M.pure ())
                      (h ++ (getUpgradeStatus cs.StatusClient (some c) h).calls)).calls) hs
                refine Quiesced_bind_quiet _ _ _ _ c st hlast hst
                  (M.call_checkErr_calls_all _ _ _
                    (fun r => ⟨rfl, fun c2 hc2 => (Option.some.inj hc2).symm⟩) _)
                  (fun _ hlast2 => ?_)
                refine Quiesced_bind_quiet _ _ _ _ c st hlast2 hst
                  (updateUpgradeUnitGroups_quietFor cs d c c _) (fun _ hlast3 => ?_)
                refine Quiesced_bind_quiet _ _ _ _ c st hlast3 hst
                  (updateComponentUpgradePlanSetting_quietFor cs.SettingClient d c _)
                  (fun _ _ => ih _ _)

/-- C12: in every execution of `prepareUpgrade`, whenever a `Reset(component)`, a group
`Update`, a group `Reorder` or a settings `Update` is issued, the most recent status probe
of a component issued before it in that execution was a probe of the component being
prepared (the one the call names, for `Reset` and settings `Update`), it succeeded, and it
observed that component in Failed, NotStarted or Paused; in particular the last observed
status of that component is neither InProgress nor Pausing. -/
theorem prepareUpgrade_mutations_quiesced (cs : upgradeClientSet) (d : ResourceData)
    (h : History) (pre : List Event) (e : Event) (post : List Event)
    (hsplit : (prepareUpgrade cs d h).calls = pre ++ e :: post)
    (hmut : e.isMutation = true) :
    ∃ c st, lastProbe pre = some (c, some st) ∧
      lastObserved c pre = some st ∧
      (st = Status.FAILED ∨ st = Status.NOT_STARTED ∨ st = Status.PAUSED) ∧
      st ≠ Status.IN_PROGRESS ∧ st ≠ Status.PAUSING ∧
      (∀ c2, e.mutatedComponent = some c2 → c2 = c) := by
  obtain ⟨c, st, hlast, hst, hname⟩ :=
    prepareUpgradeLoop_quiesced cs d upgradeComponentList h [] pre e post hsplit hmut
  rw [List.nil_append] at hlast
  have hcases : st = Status.FAILED ∨ st = Status.NOT_STARTED ∨ st = Status.PAUSED := by
    simpa [staticComponentUpgradeStatus] using hst
  refine ⟨c, st, hlast, lastProbe_lastObserved c (some st) pre hlast, hcases, ?_, ?_, hname⟩
  · rcases hcases with h1 | h1 | h1 <;> rw [h1] <;> decide
  · rcases hcases with h1 | h1 | h1 <;> rw [h1] <;> decide

theorem prepareUpgrade_mutations_quiesced_witness :
    ∃ c st,
      lastProbe
          [Event.StatusGet (some Component.EDGE)
            (Reply.ok (fixedStatus Status.PAUSED Status.IN_PROGRESS none)),
           Event.Pause none,
           Event.StatusGet (some Component.EDGE)
            (Reply.ok (fixedStatus Status.PAUSED Status.PAUSED none))] = some (c, some st) ∧
      lastObserved c
          [Event.StatusGet (some Component.EDGE)
            (Reply.ok (fixedStatus Status.PAUSED Status.IN_PROGRESS none)),
           Event.Pause none,
           Event.StatusGet (some Component.EDGE)
            (Reply.ok (fixedStatus Status.PAUSED Status.PAUSED none))] = some st ∧
      (st = Status.FAILED ∨ st = Status.NOT_STARTED ∨ st = Status.PAUSED) ∧
      st ≠ Status.IN_PROGRESS ∧ st ≠ Status.PAUSING ∧
      (∀ c2, (Event.Reset Component.EDGE none).mutatedComponent = some c2 → c2 = c) :=
  prepareUpgrade_mutations_quiesced (quiescingClientSet Status.IN_PROGRESS none) changedData []
    [Event.StatusGet (some Component.EDGE)
      (Reply.ok (fixedStatus Status.PAUSED Status.IN_PROGRESS none)),
     Event.Pause none,
     Event.StatusGet (some Component.EDGE)
      (Reply.ok (fixedStatus Status.PAUSED Status.PAUSED none))]
    (Event.Reset Component.EDGE none)
    [Event.StatusGet (some Component.HOST)
       (Reply.ok (fixedStatus Status.PAUSED Status.PAUSED none)),
     Event.StatusGet (some Component.HOST)
       (Reply.ok (fixedStatus Status.PAUSED Status.PAUSED none)),
     Event.Reset Component.HOST none]
    (by decide) rfl

/-! ## Errors of a run: where a wait error comes from -/

theorem PlainErrs_bind {α β : Type} {m : M α} {f : α → M β} (hm : PlainErrs m)
    (hf : ∀ a, PlainErrs (f a)) : PlainErrs (M.bind m f) := by
  intro h e he
  rw [M.bind_out] at he
  cases ho : (m h).out with
  | ok a => rw [ho] at he; exact hf a _ e he
  | error e2 =>
    rw [ho] at he
    simp only [Except.error.injEq] at he
    rw [← he]
    exact hm h e2 ho

theorem PlainErrs_pure {α : Type} (a : α) : PlainErrs (M.pure a) := by
  intro h e he
  simp [M.pure] at he

theorem PlainErrs_fail {α : Type} (e : Err) (he : e.isPlain = true) :
    PlainErrs (M.fail e : M α) := by
  intro h e2 he2
  simp only [M.fail, Except.error.injEq] at he2
  rw [← he2]
  exact he

theorem PlainErrs_call {ρ : Type} (remote : History → ρ) (ev : ρ → Event) :
    PlainErrs (M.call remote ev) := by
  intro h e he
  simp [M.call] at he

theorem PlainErrs_call_check {ρ : Type} (remote : History → Reply ρ) (ev : Reply ρ → Event) :
    PlainErrs (M.bind (M.call remote ev) M.check) := by
  refine PlainErrs_bind (PlainErrs_call _ _) (fun r => ?_)
  cases r with
  | ok a => exact PlainErrs_pure a
  | fail e => exact PlainErrs_fail _ rfl

theorem PlainErrs_call_checkErr (remote : History → Option RemoteErr)
    (ev : Option RemoteErr → Event) :
    PlainErrs (M.bind (M.call remote ev) M.checkErr) := by
  refine PlainErrs_bind (PlainErrs_call _ _) (fun r => ?_)
  cases r with
  | none => exact PlainErrs_pure ()
  | some e => exact PlainErrs_fail _ rfl

theorem WaitErrs_of_plain {cs : upgradeClientSet} {α : Type} {m : M α} (hm : PlainErrs m) :
    WaitErrs cs m :=
  fun h e he => Or.inl (hm h e he)

theorem WaitErrs_wait (cs : upgradeClientSet) (sel : Option Component)
    (pending target : List Status) : WaitErrs cs (waitUpgradeForStatus cs sel pending target) := by
  intro h e he
  exact Or.inr ⟨[], sel, pending, target, by simp, by simpa using he⟩

theorem WaitErrs_bind {cs : upgradeClientSet} {α β : Type} {m : M α} {f : α → M β}
    (hm : WaitErrs cs m) (hf : ∀ a, WaitErrs cs (f a)) : WaitErrs cs (M.bind m f) := by
  intro h e he
  rw [M.bind_out] at he
  rw [M.bind_calls]
  cases ho : (m h).out with
  | ok a =>
    rw [ho] at he
    simp only []
    rcases hf a _ e he with hp | ⟨pre, sel, pending, target, hc, hw⟩
    · exact Or.inl hp
    · refine Or.inr ⟨(m h).calls ++ pre, sel, pending, target, ?_, ?_⟩
      · rw [hc, List.append_assoc, List.append_assoc]
      · rw [← List.append_assoc]
        exact hw
  | error e2 =>
    rw [ho] at he
    simp only [Except.error.injEq] at he
    rw [← he]
    simp only [List.append_nil]
    exact hm h e2 ho

theorem getUpgradeStatus_plainErrs (statusClient : StatusSummaryClient)
    (component : Option Component) : PlainErrs (getUpgradeStatus statusClient component) := by
  unfold getUpgradeStatus
  refine PlainErrs_bind (PlainErrs_call_check _ _) (fun status => ?_)
  cases component with
  | none => exact PlainErrs_pure _
  | some c =>
    simp only []
    cases hf : status.ComponentStatus.find? (fun componentStatus =>
      componentStatus.ComponentType = c) with
    | none => exact PlainErrs_fail _ rfl
    | some cst => exact PlainErrs_pure _

theorem updateUpgradeUnitGroups_plainErrs (cs : upgradeClientSet) (d : ResourceData)
    (component : Component) : PlainErrs (updateUpgradeUnitGroups cs d component) := by
  have hloop : ∀ (groups : List UpgradeGroupConfig) (pre : String),
      PlainErrs (updateUpgradeUnitGroupsLoop cs component groups pre) := by
    intro groups
    induction groups with
    | nil => intro pre; rw [updateUpgradeUnitGroupsLoop]; exact PlainErrs_pure ()
    | cons g rest ih =>
      intro pre
      rw [updateUpgradeUnitGroupsLoop]
      refine PlainErrs_bind (PlainErrs_call_check _ _) (fun gg => ?_)
      refine PlainErrs_bind (PlainErrs_call_check _ _) (fun _ => ?_)
      refine PlainErrs_bind ?_ (fun _ => ih _)
      by_cases hpre : pre = ""
      · simp only [hpre, ne_eq, not_true_eq_false, if_false]
        exact PlainErrs_pure ()
      · simp only [ne_eq, hpre, not_false_eq_true, if_true]
        exact PlainErrs_call_checkErr _ _
  unfold updateUpgradeUnitGroups
  refine PlainErrs_bind ?_ (fun groups => hloop groups "")
  cases hv : d.Get (componentToGroupKey component) <;>
    simp only [Value.asGroupList] <;>
    first | exact PlainErrs_pure _ | exact PlainErrs_fail _ rfl

theorem updateComponentUpgradePlanSetting_plainErrs (settingClient : SettingsClient)
    (d : ResourceData) (component : Component) :
    PlainErrs (updateComponentUpgradePlanSetting settingClient d component) := by
  unfold updateComponentUpgradePlanSetting
  refine PlainErrs_bind ?_ (fun settingI => ?_)
  · cases hv : d.Get (componentToSettingKey component) <;>
      simp only [Value.asSettingList] <;>
      first | exact PlainErrs_pure _ | exact PlainErrs_fail _ rfl
  · cases settingI with
    | nil => exact PlainErrs_pure ()
    | cons setting rest =>
      simp only []
      refine PlainErrs_bind (PlainErrs_call_check _ _) (fun sg => ?_)
      refine PlainErrs_bind (PlainErrs_call_check _ _) (fun _ => ?_)
      exact PlainErrs_pure ()

theorem prepareUpgradeLoop_waitErrs (cs : upgradeClientSet) (d : ResourceData) :
    ∀ comps : List Component, WaitErrs cs (prepareUpgradeLoop cs d comps) := by
  intro comps
  induction comps with
  | nil => rw [prepareUpgradeLoop]; exact WaitErrs_of_plain (PlainErrs_pure ())
  | cons c rest ih =>
    rw [prepareUpgradeLoop]
    split_ifs with hmp hchg
    · exact ih
    · exact ih
    · refine WaitErrs_bind (WaitErrs_of_plain (getUpgradeStatus_plainErrs _ _)) (fun status => ?_)
      split_ifs with hsucc hprog
      · exact ih
      · refine WaitErrs_bind (WaitErrs_of_plain
          (PlainErrs_bind (PlainErrs_call _ _) (fun _ => PlainErrs_pure ()))) (fun _ => ?_)
        refine WaitErrs_bind (WaitErrs_wait cs _ _ _) (fun _ => ?_)
        refine WaitErrs_bind (WaitErrs_of_plain (PlainErrs_call_checkErr _ _)) (fun _ => ?_)
        refine WaitErrs_bind (WaitErrs_of_plain (updateUpgradeUnitGroups_plainErrs cs d c))
          (fun _ => ?_)
        exact WaitErrs_bind
          (WaitErrs_of_plain (updateComponentUpgradePlanSetting_plainErrs cs.SettingClient d c))
          (fun _ => ih)
      · refine WaitErrs_bind (WaitErrs_of_plain (PlainErrs_pure ())) (fun _ => ?_)
        refine WaitErrs_bind (WaitErrs_wait cs _ _ _) (fun _ => ?_)
        refine WaitErrs_bind (WaitErrs_of_plain (PlainErrs_call_checkErr _ _)) (fun _ => ?_)
        refine WaitErrs_bind (WaitErrs_of_plain (updateUpgradeUnitGroups_plainErrs cs d c))
          (fun _ => ?_)
        exact WaitErrs_bind
          (WaitErrs_of_plain (updateComponentUpgradePlanSetting_plainErrs cs.SettingClient d c))
          (fun _ => ih)

theorem runUpgradeLoop_waitErrs (cs : upgradeClientSet) (pm : Component → Bool) :
    ∀ (comps : List Component) (pe : Bool), WaitErrs cs (runUpgradeLoop cs pm comps pe) := by
  intro comps
  induction comps with
  | nil => intro pe; rw [runUpgradeLoop]; exact WaitErrs_of_plain (PlainErrs_pure ())
  | cons c rest ih =>
    intro pe
    rw [runUpgradeLoop]
    refine WaitErrs_bind (WaitErrs_wait cs _ _ _) (fun _ => ?_)
    split_ifs with hskip
    · exact ih pe
    · simp only []
      refine WaitErrs_bind (WaitErrs_of_plain (PlainErrs_call _ _)) (fun _ => ?_)
      exact WaitErrs_bind (WaitErrs_wait cs _ _ _) (fun _ => ih _)

theorem runPostcheckLoop_plainErrs (upgradeClient : UpgradeClient) (d : ResourceData) :
    ∀ comps : List Component, PlainErrs (runPostcheckLoop upgradeClient d comps) := by
  intro comps
  induction comps with
  | nil => rw [runPostcheckLoop]; exact PlainErrs_pure ()
  | cons c rest ih =>
    rw [runPostcheckLoop]
    split_ifs with hmp
    · refine PlainErrs_bind ?_ (fun settingI => ?_)
      · cases hv : d.Get (componentToSettingKey c) <;>
          simp only [Value.asSettingList] <;>
          first | exact PlainErrs_pure _ | exact PlainErrs_fail _ rfl
      · cases settingI with
        | nil => exact ih
        | cons setting more =>
          simp only []
          split_ifs with hpc
          · exact PlainErrs_bind (PlainErrs_call _ _) (fun _ => ih)
          · exact ih
    · exact ih

theorem setUpgradeRunOutput_plainErrs (cs : upgradeClientSet) (d : ResourceData) :
    PlainErrs (setUpgradeRunOutput cs d) := by
  have hstates : ∀ (results : List ComponentUpgradeStatus) (states : List ComponentState),
      PlainErrs (setUpgradeRunOutputStates cs results states) := by
    intro results
    induction results with
    | nil => intro states; rw [setUpgradeRunOutputStates]; exact PlainErrs_pure _
    | cons r rest ih =>
      intro states
      rw [setUpgradeRunOutputStates]
      exact PlainErrs_bind (PlainErrs_call_check _ _) (fun _ => ih _)
  unfold setUpgradeRunOutput
  refine PlainErrs_bind (PlainErrs_call_check _ _) (fun results => ?_)
  simp only []
  refine PlainErrs_bind (PlainErrs_call_check _ _) (fun status => ?_)
  exact PlainErrs_bind (hstates _ _) (fun _ => PlainErrs_pure _)

theorem M.handle_out_handled {α : Type} (m : M α) (handler : Err → Err)
    (hh : ∀ e, ∃ rt id, handler e = Err.handled rt id e) (h : History)
    (rt2 id2 : String) (e0 : Err)
    (ho : (M.handle m handler h).out = Except.error (Err.handled rt2 id2 e0)) :
    (m h).out = Except.error e0 := by
  unfold M.handle at ho
  cases hm : (m h).out with
  | ok a => rw [hm] at ho; simp at ho
  | error e =>
    rw [hm] at ho
    obtain ⟨rt, id, hhe⟩ := hh e
    cases e <;> simp [hhe] at ho <;> simp [ho]

/-! ## Status poller: the timeout -/

theorem probeOutput_refreshState (cs : upgradeClientSet) (component : Option Component)
    (h : History)
    (herr : (probeOutput component (cs.StatusClient.Get h component)).err = none) :
    refreshState component (cs.StatusClient.Get h component) =
      some (probeOutput component (cs.StatusClient.Get h component)).state := by
  obtain ⟨-, r, hout, hstate⟩ := waitUpgradeForStatusRefresh_run cs component h
  rw [waitUpgradeForStatusRefresh_eq] at hout
  simp only [Except.ok.injEq] at hout
  rw [← hout] at hstate
  exact hstate herr

theorem WaitForStateLoop_timeout (cs : upgradeClientSet) (component : Option Component)
    (pending target : List Status) :
    ∀ (n : Nat) (last : Option Status) (h : History),
      ∃ res werr,
        (WaitForStateLoop (stateConfOf cs component pending target) n last h).out =
          Except.ok (res, werr) ∧
        ∀ lastT, werr = some (WaitErr.timeout lastT) →
          res = RefreshResult.nilInterface ∧
          (((WaitForStateLoop (stateConfOf cs component pending target) n last h).calls = [] ∧
              lastT = last) ∨
            ∃ p reply st,
              (WaitForStateLoop (stateConfOf cs component pending target) n last h).calls =
                p ++ [Event.StatusGet component reply] ∧
              refreshState component reply = some st ∧ lastT = some st) := by
  intro n
  induction n with
  | zero =>
    intro last h
    refine ⟨RefreshResult.nilInterface, some (WaitErr.timeout last), by simp [WaitForStateLoop, M.pure], ?_⟩
    intro lastT hl
    simp only [Option.some.injEq, WaitErr.timeout.injEq] at hl
    exact ⟨rfl, Or.inl ⟨by simp [WaitForStateLoop, M.pure], hl.symm⟩⟩
  | succ n ih =>
    intro last h
    rw [WaitForStateLoop_succ]
    cases herr : (probeOutput component (cs.StatusClient.Get h component)).err with
    | some err =>
      refine ⟨_, _, rfl, ?_⟩
      intro lastT hl
      simp at hl
    | none =>
      simp only []
      have hst := probeOutput_refreshState cs component h herr
      split_ifs with ht hp
      · refine ⟨_, _, rfl, ?_⟩
        intro lastT hl
        simp at hl
      · obtain ⟨res, werr, hout, hrest⟩ := ih
          (some (probeOutput component (cs.StatusClient.Get h component)).state)
          (h ++ [Event.StatusGet component (cs.StatusClient.Get h component)])
        refine ⟨res, werr, by simp only [Run.after]; exact hout, ?_⟩
        intro lastT hl
        obtain ⟨hres, hcalls⟩ := hrest lastT hl
        refine ⟨hres, Or.inr ?_⟩
        rcases hcalls with ⟨hnil, hlast⟩ | ⟨p, reply, st, hp1, hp2, hp3⟩
        · exact ⟨[], _, _, by simp [Run.after, hnil], hst, hlast⟩
        · exact ⟨Event.StatusGet component (cs.StatusClient.Get h component) :: p, reply, st,
            by simp [Run.after, hp1], hp2, hp3⟩
      · refine ⟨_, _, rfl, ?_⟩
        intro lastT hl
        simp at hl

theorem waitUpgradeForStatus_timeout (cs : upgradeClientSet) (component : Option Component)
    (pending target : List Status) (h : History) (target2 : List Status)
    (lastT : Option Status) (sd : Option (Status × String))
    (ho : (waitUpgradeForStatus cs component pending target h).out =
      Except.error (Err.waitFailed target2 (WaitErr.timeout lastT) sd)) :
    target2 = target ∧ sd = none ∧
      (((waitUpgradeForStatus cs component pending target h).calls = [] ∧ lastT = none) ∨
        ∃ p reply st,
          (waitUpgradeForStatus cs component pending target h).calls =
            p ++ [Event.StatusGet component reply] ∧
          refreshState component reply = some st ∧ lastT = some st) := by
  obtain ⟨res, werr, hout, hrest⟩ :=
    WaitForStateLoop_timeout cs component pending target (cs.Probes h) none h
  rw [waitUpgradeForStatus_eq] at ho ⊢
  rw [hout] at ho ⊢
  cases werr with
  | none => simp at ho
  | some w =>
    cases res with
    | nilInterface =>
      simp only [Except.error.injEq, Err.waitFailed.injEq] at ho
      obtain ⟨h1, h2, h3⟩ := ho
      obtain ⟨-, hcalls⟩ := hrest lastT (by rw [h2])
      exact ⟨h1.symm, h3.symm, hcalls⟩
    | statusPtr p =>
      cases p with
      | none => simp at ho
      | some status =>
        simp only [Except.error.injEq, Err.waitFailed.injEq] at ho
        obtain ⟨h1, h2, h3⟩ := ho
        obtain ⟨hres, -⟩ := hrest lastT (by rw [h2])
        cases hres
    | str s => simp at ho

/-! ## Create-or-update run: a wait that timed out -/

theorem HandledWaitErrs_of_plain {cs : upgradeClientSet} {α : Type} {m : M α}
    (hm : PlainErrs m) : HandledWaitErrs cs m := by
  intro h rt id e0 _ hout
  have := hm h _ hout
  cases this

theorem HandledWaitErrs_handle_plain {cs : upgradeClientSet} {α : Type} {m : M α}
    (handler : Err → Err) (hh : ∀ e, ∃ rt id, handler e = Err.handled rt id e)
    (hm : PlainErrs m) : HandledWaitErrs cs (M.handle m handler) := by
  intro h rt id e0 hplain hout
  have := hm h e0 (M.handle_out_handled m handler hh h rt id e0 hout)
  rw [hplain] at this
  cases this

theorem HandledWaitErrs_handle {cs : upgradeClientSet} {α : Type} {m : M α}
    (handler : Err → Err) (hh : ∀ e, ∃ rt id, handler e = Err.handled rt id e)
    (hm : WaitErrs cs m) : HandledWaitErrs cs (M.handle m handler) := by
  intro h rt id e0 hplain hout
  rcases hm h e0 (M.handle_out_handled m handler hh h rt id e0 hout) with hp | hw
  · rw [hplain] at hp
    cases hp
  · rw [(M.handle_calls m handler h).1]
    exact hw

theorem HandledWaitErrs_bind {cs : upgradeClientSet} {α β : Type} {m : M α} {f : α → M β}
    (hm : HandledWaitErrs cs m) (hf : ∀ a, HandledWaitErrs cs (f a)) :
    HandledWaitErrs cs (M.bind m f) := by
  intro h rt id e0 hplain he
  rw [M.bind_out] at he
  rw [M.bind_calls]
  cases ho : (m h).out with
  | ok a =>
    rw [ho] at he
    simp only []
    obtain ⟨pre, sel, pending, target, hc, hw⟩ := hf a _ rt id e0 hplain he
    refine ⟨(m h).calls ++ pre, sel, pending, target, ?_, ?_⟩
    · rw [hc, List.append_assoc, List.append_assoc]
    · rw [← List.append_assoc]
      exact hw
  | error e2 =>
    rw [ho] at he
    simp only [Except.error.injEq] at he
    rw [he] at ho
    simp only [List.append_nil]
    exact hm h rt id e0 hplain ho

theorem upgradeRunCreateOrUpdate_handledWaitErrs (cs : upgradeClientSet) (d : ResourceData)
    (newUUID : String) : HandledWaitErrs cs (upgradeRunCreateOrUpdate cs d newUUID) := by
  unfold upgradeRunCreateOrUpdate
  simp only []
  refine HandledWaitErrs_bind
    (HandledWaitErrs_handle _ (fun e => ⟨_, _, rfl⟩)
      (prepareUpgradeLoop_waitErrs cs d upgradeComponentList)) (fun _ => ?_)
  refine HandledWaitErrs_bind
    (HandledWaitErrs_handle _ (fun e => ⟨_, _, rfl⟩)
      (runUpgradeLoop_waitErrs cs _ upgradeComponentList false)) (fun _ => ?_)
  refine HandledWaitErrs_bind
    (HandledWaitErrs_of_plain (runPostcheckLoop_plainErrs cs.UpgradeClient d
      upgradeComponentList)) (fun _ => ?_)
  exact HandledWaitErrs_handle_plain _ (fun e => ⟨_, _, rfl⟩) (setUpgradeRunOutput_plainErrs cs _)

/-- C17 (amended): when a create-or-update run returns the error of a status wait that hit
the timeout, that error carries the target set of the wait and the last status the wait
observed (inside the timeout error), but no status-and-detail text; and the calls of the
run end with the status probes of that wait: no `Upgrade` of a later component, no
post-check and no other remote operation is issued after the timeout. -/
theorem upgradeRunCreateOrUpdate_timeout (cs : upgradeClientSet) (d : ResourceData)
    (newUUID : String) (h : History) (rt id : String) (target : List Status)
    (lastT : Option Status) (sd : Option (Status × String))
    (hout : (upgradeRunCreateOrUpdate cs d newUUID h).out =
      Except.error (Err.handled rt id (Err.waitFailed target (WaitErr.timeout lastT) sd))) :
    sd = none ∧
    ∃ pre sel pending,
      (upgradeRunCreateOrUpdate cs d newUUID h).calls =
        pre ++ (waitUpgradeForStatus cs sel pending target (h ++ pre)).calls ∧
      (waitUpgradeForStatus cs sel pending target (h ++ pre)).out =
        Except.error (Err.waitFailed target (WaitErr.timeout lastT) none) ∧
      (∀ e ∈ (waitUpgradeForStatus cs sel pending target (h ++ pre)).calls,
        ∃ reply, e = Event.StatusGet sel reply) ∧
      (((waitUpgradeForStatus cs sel pending target (h ++ pre)).calls = [] ∧ lastT = none) ∨
        ∃ p reply st,
          (waitUpgradeForStatus cs sel pending target (h ++ pre)).calls =
            p ++ [Event.StatusGet sel reply] ∧
          refreshState sel reply = some st ∧ lastT = some st) := by
  obtain ⟨pre, sel, pending, target2, hc, hw⟩ :=
    upgradeRunCreateOrUpdate_handledWaitErrs cs d newUUID h rt id
      (Err.waitFailed target (WaitErr.timeout lastT) sd) rfl hout
  obtain ⟨ht, hsd, hlast⟩ := waitUpgradeForStatus_timeout cs sel pending target2 (h ++ pre)
    target lastT sd hw
  subst ht
  subst hsd
  exact ⟨rfl, pre, sel, pending, hc, hw,
    (waitUpgradeForStatus_calls cs sel pending target (h ++ pre)).1, hlast⟩

theorem upgradeRunCreateOrUpdate_timeout_witness :
    (none : Option (Status × String)) = none ∧
    ∃ pre sel pending,
      (upgradeRunCreateOrUpdate
          (fixedClientSet Status.PAUSED Status.IN_PROGRESS (some "step 3 of 9") 2)
          unchangedData "u" []).calls =
        pre ++ (waitUpgradeForStatus
          (fixedClientSet Status.PAUSED Status.IN_PROGRESS (some "step 3 of 9") 2)
          sel pending [Status.SUCCESS] ([] ++ pre)).calls ∧
      (waitUpgradeForStatus
          (fixedClientSet Status.PAUSED Status.IN_PROGRESS (some "step 3 of 9") 2)
          sel pending [Status.SUCCESS] ([] ++ pre)).out =
        Except.error (Err.waitFailed [Status.SUCCESS]
          (WaitErr.timeout (some Status.IN_PROGRESS)) none) ∧
      (∀ e ∈ (waitUpgradeForStatus
          (fixedClientSet Status.PAUSED Status.IN_PROGRESS (some "step 3 of 9") 2)
          sel pending [Status.SUCCESS] ([] ++ pre)).calls,
        ∃ reply, e = Event.StatusGet sel reply) ∧
      (((waitUpgradeForStatus
          (fixedClientSet Status.PAUSED Status.IN_PROGRESS (some "step 3 of 9") 2)
          sel pending [Status.SUCCESS] ([] ++ pre)).calls = [] ∧
          some Status.IN_PROGRESS = none) ∨
        ∃ p reply st,
          (waitUpgradeForStatus
            (fixedClientSet Status.PAUSED Status.IN_PROGRESS (some "step 3 of 9") 2)
            sel pending [Status.SUCCESS] ([] ++ pre)).calls =
            p ++ [Event.StatusGet sel reply] ∧
          refreshState sel reply = some st ∧ some Status.IN_PROGRESS = some st) :=
  upgradeRunCreateOrUpdate_timeout
    (fixedClientSet Status.PAUSED Status.IN_PROGRESS (some "step 3 of 9") 2)
    unchangedData "u" [] "NsxtUpgradeRun" "u" [Status.SUCCESS] (some Status.IN_PROGRESS) none rfl

/-! ## Run driver: a status outside the pending and the target set -/

theorem runUpgradeStatusSets_pending (pm : Component → Bool) (c : Component) (pe : Bool) :
    (runUpgradeStatusSets pm c pe).1 = pendingOf pm c := by
  unfold pendingOf runUpgradeStatusSets
  by_cases hp : pm c = true <;> simp [hp]

theorem runUpgradeStatusSets_target (pm : Component → Bool) (c : Component) (pe : Bool) :
    (runUpgradeStatusSets pm c pe).2.1 = targetOf pm c := by
  unfold targetOf runUpgradeStatusSets
  by_cases hp : pm c = true <;> simp [hp]

theorem pendingOf_ne_nil (pm : Component → Bool) (c : Component) : pendingOf pm c ≠ [] := by
  unfold pendingOf runUpgradeStatusSets
  by_cases hp : pm c = true <;> simp [hp]

theorem targetOf_cases (pm : Component → Bool) (c : Component) (st : Status)
    (h : st ∈ targetOf pm c) : st = Status.SUCCESS ∨ st = Status.PAUSED := by
  unfold targetOf runUpgradeStatusSets at h
  by_cases hp : pm c = true <;> simp [hp] at h
  · exact h
  · exact Or.inl h

theorem probeOutput_ok (c : Component) (s : UpgradeStatus) (sd : upgradeStatusAndDetail)
    (hsd : statusAndDetailOf (some c) s = some sd) :
    probeOutput (some c) (Reply.ok s) =
      { result := RefreshResult.statusPtr (some sd), state := sd.Status, err := none } := by
  simp [probeOutput, hsd]

theorem WaitForStateLoop_unexpected (cs : upgradeClientSet) (c : Component)
    (pending target : List Status) (hp : pending ≠ []) :
    ∀ (n : Nat) (last : Option Status) (h : History) (pre : List Event) (s : UpgradeStatus)
      (post : List Event) (sd : upgradeStatusAndDetail),
      (WaitForStateLoop (stateConfOf cs (some c) pending target) n last h).calls =
        pre ++ Event.StatusGet (some c) (Reply.ok s) :: post →
      statusAndDetailOf (some c) s = some sd →
      sd.Status ∉ pending → sd.Status ∉ target →
      (WaitForStateLoop (stateConfOf cs (some c) pending target) n last h).out =
          Except.ok (RefreshResult.statusPtr (some sd),
            some (WaitErr.unexpectedState sd.Status)) ∧ post = [] := by
  intro n
  induction n with
  | zero =>
    intro last h pre s post sd hcalls
    simp [WaitForStateLoop, M.pure] at hcalls
  | succ n ih =>
    intro last h pre s post sd hcalls hsd hnp hnt
    rw [WaitForStateLoop_succ] at hcalls ⊢
    have hone : ∀ (reply : Reply UpgradeStatus),
        [Event.StatusGet (some c) reply] = pre ++ Event.StatusGet (some c) (Reply.ok s) :: post →
        reply = Reply.ok s ∧ post = [] := by
      intro reply heq
      cases pre with
      | nil =>
        simp only [List.nil_append, List.cons.injEq, Event.StatusGet.injEq, true_and] at heq
        exact ⟨heq.1, heq.2.symm⟩
      | cons x pre2 =>
        simp only [List.cons_append, List.cons.injEq] at heq
        have := heq.2
        simp at this
    cases herr : (probeOutput (some c) (cs.StatusClient.Get h (some c))).err with
    | some err =>
      rw [herr] at hcalls
      simp only [] at hcalls
      obtain ⟨hreply, -⟩ := hone _ hcalls
      rw [hreply, probeOutput_ok c s sd hsd] at herr
      simp at herr
    | none =>
      rw [herr] at hcalls
      simp only [] at hcalls ⊢
      split_ifs at hcalls ⊢ with ht hpend
      · obtain ⟨hreply, -⟩ := hone _ hcalls
        rw [hreply, probeOutput_ok c s sd hsd] at ht
        exact absurd ht hnt
      · cases pre with
        | nil =>
          simp only [Run.after, List.singleton_append, List.nil_append, List.cons.injEq,
            Event.StatusGet.injEq, true_and] at hcalls
          rw [hcalls.1, probeOutput_ok c s sd hsd] at hpend
          rcases hpend with hpend | hpend
          · exact absurd hpend hnp
          · exact absurd hpend hp
        | cons x pre2 =>
          simp only [Run.after, List.singleton_append, List.cons_append,
            List.cons.injEq] at hcalls
          exact ih _ _ pre2 s post sd hcalls.2 hsd hnp hnt
      · obtain ⟨hreply, hpost⟩ := hone _ hcalls
        rw [hreply, probeOutput_ok c s sd hsd]
        exact ⟨rfl, hpost⟩

theorem waitUpgradeForStatus_unexpected (cs : upgradeClientSet) (c : Component)
    (pending target : List Status) (hp : pending ≠ []) (h : History)
    (pre : List Event) (s : UpgradeStatus) (post : List Event) (sd : upgradeStatusAndDetail)
    (hcalls : (waitUpgradeForStatus cs (some c) pending target h).calls =
      pre ++ Event.StatusGet (some c) (Reply.ok s) :: post)
    (hsd : statusAndDetailOf (some c) s = some sd)
    (hnp : sd.Status ∉ pending) (hnt : sd.Status ∉ target) :
    (waitUpgradeForStatus cs (some c) pending target h).out =
      Except.error (Err.waitFailed target (WaitErr.unexpectedState sd.Status)
        (some (sd.Status, sd.Detail))) ∧ post = [] := by
  have hloopcalls : (WaitForStateLoop (stateConfOf cs (some c) pending target)
      (cs.Probes h) none h).calls = pre ++ Event.StatusGet (some c) (Reply.ok s) :: post := by
    rw [waitUpgradeForStatus_eq] at hcalls
    rw [← hcalls]
    split <;> rfl
  obtain ⟨hout, hpost⟩ := WaitForStateLoop_unexpected cs c pending target hp (cs.Probes h)
    none h pre s post sd hloopcalls hsd hnp hnt
  rw [waitUpgradeForStatus_eq, hout]
  exact ⟨rfl, hpost⟩

theorem UnexpectedEnds_of_no_probe {pm : Component → Bool} {α : Type} {r : Run α}
    (hr : ∀ e ∈ r.calls, e.isComponentProbe = false) : UnexpectedEnds pm r := by
  intro pre c s post sd hcalls
  have := hr (Event.StatusGet (some c) (Reply.ok s)) (by rw [hcalls]; simp)
  simp [Event.isComponentProbe] at this

theorem UnexpectedEnds_bind {pm : Component → Bool} {α β : Type} (m : M α) (f : α → M β)
    (h : History) (hm : UnexpectedEnds pm (m h))
    (hf : ∀ a, (m h).out = Except.ok a → UnexpectedEnds pm (f a (h ++ (m h).calls))) :
    UnexpectedEnds pm (M.bind m f h) := by
  intro pre c s post sd hcalls hsd hnp hnt
  rw [M.bind_calls] at hcalls
  rw [M.bind_out]
  cases ho : (m h).out with
  | ok a =>
    rw [ho] at hcalls
    simp only [] at hcalls ⊢
    rcases List.append_eq_append_iff.1 hcalls with ⟨a2, hpre, hc2⟩ | ⟨c2, hc1, hrest⟩
    · exact hf a ho a2 c s post sd hc2 hsd hnp hnt
    · cases c2 with
      | nil =>
        simp only [List.nil_append] at hrest
        exact hf a ho [] c s post sd (by simpa using hrest.symm) hsd hnp hnt
      | cons x c3 =>
        simp only [List.cons_append, List.cons.injEq] at hrest
        rw [← hrest.1] at hc1
        have := (hm pre c s c3 sd hc1 hsd hnp hnt).1
        rw [ho] at this
        cases this
  | error e =>
    rw [ho] at hcalls
    simp only [List.append_nil] at hcalls
    have := hm pre c s post sd hcalls hsd hnp hnt
    rw [ho] at this
    simpa using this

theorem runUpgradeLoop_unexpectedEnds (cs : upgradeClientSet) (pm : Component → Bool) :
    ∀ (comps : List Component) (pe : Bool) (h : History),
      UnexpectedEnds pm (runUpgradeLoop cs pm comps pe h) := by
  intro comps
  induction comps with
  | nil =>
    intro pe h
    refine UnexpectedEnds_of_no_probe ?_
    intro e he
    simp [runUpgradeLoop, M.pure] at he
  | cons c rest ih =>
    intro pe h
    rw [runUpgradeLoop]
    refine UnexpectedEnds_bind _ _ h (UnexpectedEnds_of_no_probe ?_) (fun _ _ => ?_)
    · intro e he
      obtain ⟨reply, rfl⟩ := (waitUpgradeForStatus_calls cs none _ _ h).1 e he
      rfl
    · split_ifs with hskip
      · exact ih _ _
      · simp only []
        refine UnexpectedEnds_bind _ _ _ (UnexpectedEnds_of_no_probe ?_) (fun _ _ => ?_)
        · intro e he
          simp only [M.call, List.mem_singleton] at he
          rw [he]
          rfl
        · refine UnexpectedEnds_bind _ _ _ ?_ (fun _ _ => ih _ _)
          intro pre c2 s post sd hcalls hsd hnp hnt
          have hc2 : c2 = c := by
            obtain ⟨reply, hreply⟩ := (waitUpgradeForStatus_calls cs (some c) _ _ _).1
              (Event.StatusGet (some c2) (Reply.ok s)) (by rw [hcalls]; simp)
            simp only [Event.StatusGet.injEq, Option.some.injEq] at hreply
            exact hreply.1
          subst hc2
          rw [runUpgradeStatusSets_pending, runUpgradeStatusSets_target] at hcalls ⊢
          exact waitUpgradeForStatus_unexpected cs c2 _ _ (pendingOf_ne_nil pm c2) _ pre s
            post sd hcalls hsd hnp hnt

/-! ## Run driver: success means every launched component reached its target set -/

theorem lastObserved_append_right (c : Component) (a b : List Event)
    (hb : probesOf c b ≠ []) : lastObserved c (a ++ b) = lastObserved c b := by
  unfold lastObserved
  rw [probesOf_append, List.getLast?_append_of_ne_nil _ hb]

theorem lastObserved_append_left (c : Component) (a b : List Event)
    (hb : probesOf c b = []) : lastObserved c (a ++ b) = lastObserved c a := by
  unfold lastObserved
  rw [probesOf_append, hb, List.append_nil]

theorem observedReply_of_refreshState_target (c : Component) (reply : Reply UpgradeStatus)
    (st : Status) (hst : refreshState (some c) reply = some st)
    (hne : st ≠ Status.IN_PROGRESS) : observedReply c reply = some st := by
  cases reply with
  | ok s => simpa [refreshState, observedReply] using hst
  | fail e =>
    simp only [refreshState] at hst
    split_ifs at hst
    simp only [Option.some.injEq] at hst
    exact absurd hst.symm hne

theorem TargetsReached_wait (cs : upgradeClientSet) (pm : Component → Bool)
    (sel : Option Component) (pending target : List Status) (h : History)
    (hT : ∀ c, sel = some c → target = targetOf pm c) :
    TargetsReached pm (waitUpgradeForStatus cs sel pending target h) := by
  intro hs
  have hcalls := waitUpgradeForStatus_calls cs sel pending target h
  refine ⟨?_, ?_⟩
  · intro c hne
    have hsel : sel = some c := by
      by_contra hn
      exact hne (probesOf_other c sel _ hn hcalls.1)
    subst hsel
    obtain ⟨p, reply, st, hc, hst, hmem⟩ := hcalls.2 hs
    rw [hT c rfl] at hmem
    have hne2 : st ≠ Status.IN_PROGRESS := by
      rcases targetOf_cases pm c st hmem with h1 | h1 <;> rw [h1] <;> decide
    refine ⟨st, ?_, hmem⟩
    rw [hc]
    simp [lastObserved, probesOf_append, probesOf,
      observedReply_of_refreshState_target c reply st hst hne2]
  · intro c hc
    rw [upgradeCalls_probes sel _ hcalls.1] at hc
    cases hc

theorem TargetsReached_bind {pm : Component → Bool} {α β : Type} (m : M α) (f : α → M β)
    (h : History) (hm : TargetsReached pm (m h))
    (hf : ∀ a, (m h).out = Except.ok a → TargetsReached pm (f a (h ++ (m h).calls))) :
    TargetsReached pm (M.bind m f h) := by
  intro hs
  obtain ⟨a, ho, hfs⟩ := M.bind_succeeded m f h hs
  have hms : (m h).succeeded = true := by
    unfold Run.succeeded
    rw [ho]
  obtain ⟨hm1, hm2⟩ := hm hms
  obtain ⟨hf1, hf2⟩ := hf a ho hfs
  have hcalls : (M.bind m f h).calls = (m h).calls ++ (f a (h ++ (m h).calls)).calls := by
    rw [M.bind_calls, ho]
  rw [hcalls]
  refine ⟨?_, ?_⟩
  · intro c hne
    by_cases hb : probesOf c (f a (h ++ (m h).calls)).calls = []
    · rw [lastObserved_append_left c _ _ hb]
      rw [probesOf_append, hb, List.append_nil] at hne
      exact hm1 c hne
    · rw [lastObserved_append_right c _ _ hb]
      exact hf1 c hb
  · intro c hc
    rw [upgradeCalls_append] at hc
    rw [probesOf_append]
    rcases List.mem_append.1 hc with hc | hc
    · have := hm2 c hc
      simp [this]
    · have := hf2 c hc
      simp [this]

theorem TargetsReached_upgrade_then {pm : Component → Bool} {β : Type} (cs : upgradeClientSet)
    (c : Component) (f : Option RemoteErr → M β) (h : History)
    (hf : ∀ r, TargetsReached pm (f r (h ++ [Event.Upgrade c r])))
    (hp : ∀ r, (f r (h ++ [Event.Upgrade c r])).succeeded = true →
      probesOf c (f r (h ++ [Event.Upgrade c r])).calls ≠ []) :
    TargetsReached pm
      (M.bind (M.call (fun h => cs.PlanClient.Upgrade h c) (Event.Upgrade c)) f h) := by
  have heq : M.bind (M.call (fun h => cs.PlanClient.Upgrade h c) (Event.Upgrade c)) f h =
      Run.after [Event.Upgrade c (cs.PlanClient.Upgrade h c)]
        (f (cs.PlanClient.Upgrade h c) (h ++ [Event.Upgrade c (cs.PlanClient.Upgrade h c)])) := by
    simp [M.bind, M.call, Run.after]
  rw [heq]
  intro hs
  have hs2 : (f (cs.PlanClient.Upgrade h c)
      (h ++ [Event.Upgrade c (cs.PlanClient.Upgrade h c)])).succeeded = true := hs
  obtain ⟨hf1, hf2⟩ := hf _ hs2
  have hpr : ∀ c2 (l : List Event),
      probesOf c2 ([Event.Upgrade c (cs.PlanClient.Upgrade h c)] ++ l) = probesOf c2 l := by
    intro c2 l
    simp [probesOf]
  have hlo : ∀ c2 (l : List Event),
      lastObserved c2 ([Event.Upgrade c (cs.PlanClient.Upgrade h c)] ++ l) =
        lastObserved c2 l := by
    intro c2 l
    unfold lastObserved
    rw [hpr]
  simp only [Run.after]
  refine ⟨?_, ?_⟩
  · intro c2 hne
    rw [hpr] at hne
    rw [hlo]
    exact hf1 c2 hne
  · intro c2 hc2
    rw [hpr]
    have : c2 = c ∨ c2 ∈ upgradeCalls (f (cs.PlanClient.Upgrade h c)
        (h ++ [Event.Upgrade c (cs.PlanClient.Upgrade h c)])).calls := by
      simpa [upgradeCalls] using hc2
    rcases this with rfl | hc3
    · exact hp _ hs2
    · exact hf2 c2 hc3

theorem runUpgradeLoop_targetsReached (cs : upgradeClientSet) (pm : Component → Bool) :
    ∀ (comps : List Component) (pe : Bool) (h : History),
      TargetsReached pm (runUpgradeLoop cs pm comps pe h) := by
  intro comps
  induction comps with
  | nil =>
    intro pe h _
    have hnil : (runUpgradeLoop cs pm [] pe h).calls = [] := rfl
    rw [hnil]
    exact ⟨fun c hne => absurd rfl hne, fun c hc => by cases hc⟩
  | cons c rest ih =>
    intro pe h
    rw [runUpgradeLoop]
    refine TargetsReached_bind _ _ h
      (TargetsReached_wait cs pm none _ _ h (fun c2 hc2 => by cases hc2)) (fun _ _ => ?_)
    split_ifs with hskip
    · exact ih _ _
    · simp only []
      refine TargetsReached_upgrade_then cs c _ _ (fun r => ?_) (fun r hs => ?_)
      · refine TargetsReached_bind _ _ _
          (TargetsReached_wait cs pm (some c) _ _ _ (fun c2 hc2 => ?_)) (fun _ _ => ih _ _)
        cases hc2
        exact runUpgradeStatusSets_target pm c pe
      · obtain ⟨a, ho, -⟩ := M.bind_succeeded _ _ _ hs
        rw [M.bind_calls, probesOf_append]
        have hws : (waitUpgradeForStatus cs (some c) (runUpgradeStatusSets pm c pe).1
            (runUpgradeStatusSets pm c pe).2.1
            (h ++ (waitUpgradeForStatus cs none inFlightComponentUpgradeStatus
              staticComponentUpgradeStatus h).calls ++ [Event.Upgrade c r])).succeeded = true := by
          unfold Run.succeeded
          rw [ho]
        obtain ⟨p, reply, st, hc, -, -⟩ := (waitUpgradeForStatus_calls cs (some c) _ _ _).2 hws
        rw [hc, probesOf_append]
        simp [probesOf]

/-- C18: in every execution of `runUpgrade`, if a status probe of a component (all of which
belong to the wait that follows `Upgrade(component)`) observes a status that is neither in
the pending set nor in the target set of that component, then `runUpgrade` returns the
error of that wait, which carries that status and its detail string, and the probe is the
last call of the execution, so no `Upgrade` of a later component is issued; if `runUpgrade`
returns success, every launched component was last observed in its target set; and the
statuses outside both sets are Failed and NotStarted always, and Paused and Pausing exactly
when the component is not partial. -/
theorem runUpgrade_unexpected_status (cs : upgradeClientSet) (pm : Component → Bool)
    (h : History) :
    (∀ pre c s post sd,
      (runUpgrade cs pm h).calls = pre ++ Event.StatusGet (some c) (Reply.ok s) :: post →
      statusAndDetailOf (some c) s = some sd →
      sd.Status ∉ pendingOf pm c → sd.Status ∉ targetOf pm c →
      (runUpgrade cs pm h).out =
          Except.error (Err.waitFailed (targetOf pm c)
            (WaitErr.unexpectedState sd.Status) (some (sd.Status, sd.Detail))) ∧
        post = [] ∧
        upgradeCalls (runUpgrade cs pm h).calls = upgradeCalls pre) ∧
    ((runUpgrade cs pm h).succeeded = true →
      ∀ c ∈ upgradeCalls (runUpgrade cs pm h).calls,
        ∃ st, lastObserved c (runUpgrade cs pm h).calls = some st ∧ st ∈ targetOf pm c) ∧
    (∀ c st, (st ∉ pendingOf pm c ∧ st ∉ targetOf pm c) ↔
      (st = Status.FAILED ∨ st = Status.NOT_STARTED ∨
        (pm c = false ∧ (st = Status.PAUSED ∨ st = Status.PAUSING)))) := by
  refine ⟨?_, ?_, ?_⟩
  · intro pre c s post sd hcalls hsd hnp hnt
    obtain ⟨hout, hpost⟩ := runUpgradeLoop_unexpectedEnds cs pm upgradeComponentList false h
      pre c s post sd hcalls hsd hnp hnt
    refine ⟨hout, hpost, ?_⟩
    rw [hcalls, hpost, upgradeCalls_append]
    simp [upgradeCalls]
  · intro hs c hc
    obtain ⟨h1, h2⟩ := runUpgradeLoop_targetsReached cs pm upgradeComponentList false h hs
    exact h1 c (h2 c hc)
  · intro c st
    unfold pendingOf targetOf runUpgradeStatusSets
    by_cases hp : pm c = true <;> cases st <;> simp [hp]

theorem runUpgrade_unexpected_status_witness :
    (runUpgrade rejectingClientSet (fun _ => false) []).out =
        Except.error (Err.waitFailed [Status.SUCCESS]
          (WaitErr.unexpectedState Status.NOT_STARTED) (some (Status.NOT_STARTED, ""))) ∧
      ([] : List Event) = [] ∧
      upgradeCalls (runUpgrade rejectingClientSet (fun _ => false) []).calls =
        upgradeCalls
          [Event.StatusGet none
            (Reply.ok (fixedStatus Status.NOT_STARTED Status.NOT_STARTED none)),
           Event.Upgrade Component.EDGE (some (RemoteErr.other "rejected"))] :=
  (runUpgrade_unexpected_status rejectingClientSet (fun _ => false) []).1
    [Event.StatusGet none (Reply.ok (fixedStatus Status.NOT_STARTED Status.NOT_STARTED none)),
     Event.Upgrade Component.EDGE (some (RemoteErr.other "rejected"))]
    Component.EDGE (fixedStatus Status.NOT_STARTED Status.NOT_STARTED none) []
    { Status := Status.NOT_STARTED, Detail := "" } (by decide) rfl (by decide) (by decide)

/-! ## Post-check dispatch -/

theorem runPostcheckLoop_cons (upgradeClient : UpgradeClient) (d : ResourceData)
    (c : Component) (rest : List Component) (h : History) (hc : c ≠ Component.MP) :
    runPostcheckLoop upgradeClient d (c :: rest) h =
      if postcheckDeclared d c = true then
        Run.after [Event.Executepostupgradechecks c (upgradeClient.Executepostupgradechecks h c)]
          (runPostcheckLoop upgradeClient d rest
            (h ++ [Event.Executepostupgradechecks c
              (upgradeClient.Executepostupgradechecks h c)]))
      else runPostcheckLoop upgradeClient d rest h := by
  have hget : ∃ l, d.Get (componentToSettingKey c) = Value.settingList l := by
    cases c with
    | EDGE => exact ⟨d.edge_upgrade_setting, by simp [componentToSettingKey, ResourceData.Get]⟩
    | HOST => exact ⟨d.host_upgrade_setting, by simp [componentToSettingKey, ResourceData.Get]⟩
    | MP => exact absurd rfl hc
  obtain ⟨l, hl⟩ := hget
  have hmp : c ≠ mpUpgradeGroup := hc
  rw [runPostcheckLoop]
  simp only [ne_eq, hmp, not_false_eq_true, if_true, hl, Value.asSettingList, M.bind_pure,
    postcheckDeclared, declaredSetting]
  cases l with
  | nil => simp
  | cons setting more =>
    cases hp : setting.post_upgrade_check <;> simp [hp, M.bind, M.call, Run.after]

/-- C21: in every execution, the post-check calls of `runPostcheck` are exactly one call
for each component among Edge, Host (in that order) whose declared settings block is
present and has `post_upgrade_check = true`; no other call is issued, so none for
Management; and `runPostcheck` returns normally whatever the executor replies. -/
theorem runPostcheck_dispatch (upgradeClient : UpgradeClient) (d : ResourceData) (h : History) :
    postcheckCalls (runPostcheck upgradeClient d h).calls =
        [Component.EDGE, Component.HOST].filter (postcheckDeclared d) ∧
      (∀ e ∈ (runPostcheck upgradeClient d h).calls, e.isPostcheck = true) ∧
      Component.MP ∉ postcheckCalls (runPostcheck upgradeClient d h).calls ∧
      (runPostcheck upgradeClient d h).out = Except.ok () := by
  have hmp : ∀ h2, runPostcheckLoop upgradeClient d [Component.MP] h2 = ⟨Except.ok (), []⟩ := by
    intro h2
    simp [runPostcheckLoop, M.pure]
  unfold runPostcheck upgradeComponentList
  rw [runPostcheckLoop_cons upgradeClient d Component.EDGE _ h (by decide)]
  cases hE : postcheckDeclared d Component.EDGE <;>
    simp only [Bool.false_eq_true, if_false, if_true] <;>
    rw [runPostcheckLoop_cons upgradeClient d Component.HOST _ _ (by decide)] <;>
    cases hH : postcheckDeclared d Component.HOST <;>
    simp [hmp, Run.after, postcheckCalls, List.filter, hE, hH, Event.isPostcheck]

/-! ## Settings configurator: nothing declared, or a failing `Get` -/

/-- C22: if the declared settings list of the component is empty,
`updateComponentUpgradePlanSetting` issues no remote call and returns success; if a
settings block is declared and `SettingClient.Get` fails, the only call is that `Get` and
its error is returned: `Update` is not called. -/
theorem updateComponentUpgradePlanSetting_frame (settingClient : SettingsClient)
    (d : ResourceData) (component : Component) (h : History) :
    (d.Get (componentToSettingKey component) = Value.settingList [] →
      updateComponentUpgradePlanSetting settingClient d component h = ⟨Except.ok (), []⟩) ∧
    (∀ setting rest e,
      d.Get (componentToSettingKey component) = Value.settingList (setting :: rest) →
      settingClient.Get h component = Reply.fail e →
      updateComponentUpgradePlanSetting settingClient d component h =
        ⟨Except.error (Err.remote e), [Event.SettingGet component (Reply.fail e)]⟩) := by
  refine ⟨?_, ?_⟩
  · intro hdecl
    unfold updateComponentUpgradePlanSetting
    rw [hdecl]
    simp [Value.asSettingList, M.bind_pure, M.pure]
  · intro setting rest e hdecl hget
    unfold updateComponentUpgradePlanSetting
    rw [hdecl]
    simp only [Value.asSettingList, M.bind_pure, M.bind_call_check, hget]

/-! ## Status poller: what one probe returns -/

theorem find?_first {α : Type} (p : α → Bool) (pre : List α) (x : α) (post : List α)
    (hpre : ∀ y ∈ pre, p y = false) (hx : p x = true) :
    (pre ++ x :: post).find? p = some x := by
  induction pre with
  | nil => simp [List.find?, hx]
  | cons y pre ih =>
    have hy : p y = false := hpre y (by simp)
    simp only [List.cons_append, List.find?, hy]
    exact ih (fun z hz => hpre z (by simp [hz]))

/-- C24: with a component selector, `getUpgradeStatus` returns the status and the detail
(the empty string when the remote detail is absent) of the first entry of the status
summary whose component type is the selector; it returns the error "couldn't find upgrade
status of <component> component" exactly when the remote `Get` succeeded and the summary
has no entry of that component; with the nil selector it returns the overall status with
the empty detail; an error of the remote `Get` is returned as it is; in each case the one
remote call is that `Get`. -/
theorem getUpgradeStatus_result (statusClient : StatusSummaryClient) (h : History) :
    (∀ c s pre cst post, statusClient.Get h (some c) = Reply.ok s →
      s.ComponentStatus = pre ++ cst :: post →
      (∀ x ∈ pre, x.ComponentType ≠ c) → cst.ComponentType = c →
      (getUpgradeStatus statusClient (some c) h).out =
        Except.ok { Status := cst.Status, Detail := cst.Details.getD "" }) ∧
    (∀ c, (getUpgradeStatus statusClient (some c) h).out = Except.error (Err.statusNotFound c) ↔
      ∃ s, statusClient.Get h (some c) = Reply.ok s ∧
        ∀ x ∈ s.ComponentStatus, x.ComponentType ≠ c) ∧
    (∀ s, statusClient.Get h none = Reply.ok s →
      (getUpgradeStatus statusClient none h).out =
        Except.ok { Status := s.OverallUpgradeStatus, Detail := "" }) ∧
    (∀ sel e, statusClient.Get h sel = Reply.fail e →
      (getUpgradeStatus statusClient sel h).out = Except.error (Err.remote e)) ∧
    (∀ sel, (getUpgradeStatus statusClient sel h).calls =
      [Event.StatusGet sel (statusClient.Get h sel)]) := by
  refine ⟨?_, ?_, ?_, ?_, ?_⟩
  · intro c s pre cst post hget hsplit hpre hcst
    have hfind : s.ComponentStatus.find? (fun componentStatus =>
        decide (componentStatus.ComponentType = c)) = some cst := by
      rw [hsplit]
      exact find?_first _ pre cst post (fun y hy => by simp [hpre y hy]) (by simp [hcst])
    rw [getUpgradeStatus_out, hget]
    simp only [hfind]
    cases cst.Details <;> rfl
  · intro c
    rw [getUpgradeStatus_out]
    cases hget : statusClient.Get h (some c) with
    | fail e => simp
    | ok s =>
      simp only []
      cases hfind : s.ComponentStatus.find? (fun componentStatus =>
          decide (componentStatus.ComponentType = c)) with
      | none =>
        simp only [true_iff]
        refine ⟨s, rfl, ?_⟩
        intro x hx
        have := List.find?_eq_none.1 hfind x hx
        simpa using this
      | some cst =>
        simp only [reduceCtorEq, false_iff]
        rintro ⟨s2, hs2, hall⟩
        simp only [Reply.ok.injEq] at hs2
        subst hs2
        have hmem := List.mem_of_find?_eq_some hfind
        have hp := List.find?_some hfind
        exact hall cst hmem (by simpa using hp)
  · intro s hget
    rw [getUpgradeStatus_out, hget]
  · intro sel e hget
    rw [getUpgradeStatus_out, hget]
  · intro sel
    exact getUpgradeStatus_calls statusClient sel h

/-! ## Preparation: nothing is issued for Management -/

theorem updateUpgradeUnitGroups_preparesComponent (cs : upgradeClientSet) (d : ResourceData)
    (component c : Component) (h : History) :
    ∀ e ∈ (updateUpgradeUnitGroups cs d component h).calls, e.preparesComponent c = true := by
  have hloop : ∀ (groups : List UpgradeGroupConfig) (pre : String) (h2 : History),
      ∀ e ∈ (updateUpgradeUnitGroupsLoop cs component groups pre h2).calls,
        e.preparesComponent c = true := by
    intro groups
    induction groups with
    | nil => intro pre h2 e he; simp [updateUpgradeUnitGroupsLoop, M.pure] at he
    | cons g rest ih =>
      intro pre h2
      rw [updateUpgradeUnitGroupsLoop]
      refine M.bind_calls_all (fun e => e.preparesComponent c = true) _ _
        (M.call_check_calls_all (fun e => e.preparesComponent c = true) _ _ (fun _ => by rfl))
        (fun gg => ?_) h2
      refine M.bind_calls_all (fun e => e.preparesComponent c = true) _ _
        (M.call_check_calls_all (fun e => e.preparesComponent c = true) _ _ (fun _ => by rfl))
        (fun _ => ?_)
      refine M.bind_calls_all (fun e => e.preparesComponent c = true) _ _ ?_ (fun _ => ih _)
      by_cases hpre : pre = ""
      · intro h3 e he
        simp [hpre, M.pure] at he
      · simp only [ne_eq, hpre, not_false_eq_true, if_true]
        exact M.call_checkErr_calls_all (fun e => e.preparesComponent c = true) _ _
          (fun _ => by rfl)
  unfold updateUpgradeUnitGroups
  refine M.bind_calls_all _ _ _ ?_ (fun groups => hloop groups "") h
  intro h2 e he
  cases hv : d.Get (componentToGroupKey component) <;>
    simp [hv, Value.asGroupList, M.pure, M.fail] at he

theorem updateComponentUpgradePlanSetting_preparesComponent (settingClient : SettingsClient)
    (d : ResourceData) (component : Component) (h : History) :
    ∀ e ∈ (updateComponentUpgradePlanSetting settingClient d component h).calls,
      e.preparesComponent component = true := by
  unfold updateComponentUpgradePlanSetting
  refine M.bind_calls_all _ _ _ ?_ (fun settingI => ?_) h
  · intro h2 e he
    cases hv : d.Get (componentToSettingKey component) <;>
      simp [hv, Value.asSettingList, M.pure, M.fail] at he
  · cases settingI with
    | nil => intro h2 e he; simp [M.pure] at he
    | cons setting rest =>
      simp only []
      refine M.bind_calls_all _ _ _
        (M.call_check_calls_all _ _ _ (fun r => by simp [Event.preparesComponent]))
        (fun sg => ?_)
      refine M.bind_calls_all _ _ _
        (M.call_check_calls_all _ _ _ (fun r => by simp [Event.preparesComponent]))
        (fun _ => ?_)
      intro h2 e he
      simp [M.pure] at he

theorem prepareUpgradeLoop_preparesComponent (cs : upgradeClientSet) (d : ResourceData) :
    ∀ (comps : List Component) (h : History),
      ∀ e ∈ (prepareUpgradeLoop cs d comps h).calls,
        ∃ c ∈ comps, c ≠ Component.MP ∧ changedFor d c = true ∧ e.preparesComponent c = true := by
  intro comps
  induction comps with
  | nil => intro h e he; simp [prepareUpgradeLoop, M.pure] at he
  | cons c rest ih =>
    have ih2 : ∀ (h : History), ∀ e ∈ (prepareUpgradeLoop cs d rest h).calls,
        ∃ c2 ∈ c :: rest, c2 ≠ Component.MP ∧ changedFor d c2 = true ∧
          e.preparesComponent c2 = true := by
      intro h e he
      obtain ⟨c2, hc2, hne, hch, hp⟩ := ih h e he
      exact ⟨c2, List.mem_cons_of_mem _ hc2, hne, hch, hp⟩
    intro h
    rw [prepareUpgradeLoop]
    split_ifs with hmp hchg
    · exact ih2 h
    · exact ih2 h
    · have hc : c ≠ Component.MP := hmp
      have hch : changedFor d c = true := by
        unfold changedFor
        cases h1 : d.HasChange (componentToGroupKey c) <;>
          cases h2 : d.HasChange (componentToSettingKey c) <;> simp_all
      have here : ∀ e : Event, e.preparesComponent c = true →
          ∃ c2 ∈ c :: rest, c2 ≠ Component.MP ∧ changedFor d c2 = true ∧
          e.preparesComponent c2 = true :=
        fun e he => ⟨c, List.mem_cons_self _ _, hc, hch, he⟩
      refine M.bind_calls_all _ _ _ ?_ (fun status => ?_) h
      · intro h2 e he
        rw [getUpgradeStatus_calls] at he
        simp only [List.mem_singleton] at he
        rw [he]
        exact here _ (by simp [Event.preparesComponent])
      · have hrest : ∀ h2, ∀ e ∈ (M.bind (waitUpgradeForStatus cs (some c)
            inFlightComponentUpgradeStatus staticComponentUpgradeStatus) (fun _ =>
            M.bind (M.bind (M.call (fun h => cs.PlanClient.Reset h c) (Event.Reset c))
              M.checkErr) fun _ =>
            M.bind (updateUpgradeUnitGroups cs d c) fun _ =>
            M.bind (updateComponentUpgradePlanSetting cs.SettingClient d c) fun _ =>
            prepareUpgradeLoop cs d rest) h2).calls,
            ∃ c2 ∈ c :: rest, c2 ≠ Component.MP ∧ changedFor d c2 = true ∧
          e.preparesComponent c2 = true := by
          refine M.bind_calls_all _ _ _ ?_ (fun _ => ?_)
          · intro h3 e he
            obtain ⟨reply, rfl⟩ := (waitUpgradeForStatus_calls cs (some c) _ _ h3).1 e he
            exact here _ (by simp [Event.preparesComponent])
          · refine M.bind_calls_all _ _ _
              (M.call_checkErr_calls_all _ _ _
                (fun r => here _ (by simp [Event.preparesComponent]))) (fun _ => ?_)
            refine M.bind_calls_all _ _ _
              (fun h3 e he => here e (updateUpgradeUnitGroups_preparesComponent cs d c c h3 e he))
              (fun _ => ?_)
            exact M.bind_calls_all _ _ _
              (fun h3 e he => here e
                (updateComponentUpgradePlanSetting_preparesComponent cs.SettingClient d c h3 e he))
              (fun _ => ih2)
        split_ifs with hsucc hprog
        · exact ih2
        · refine M.bind_calls_all _ _ _ ?_ (fun _ => hrest)
          intro h3 e he
          simp only [M.bind, M.call, M.pure, List.append_nil, List.mem_singleton] at he
          rw [he]
          exact here _ rfl
        · refine M.bind_calls_all _ _ _ ?_ (fun _ => hrest)
          intro h3 e he
          simp [M.pure] at he

/-- C25: in every execution, the iteration of `prepareUpgrade` for Management issues no
call (the calls are those of the iterations of Edge and Host), and every call of
`prepareUpgrade` belongs to the preparation of Edge or of Host: it is a status probe,
`Reset`, settings `Get` or settings `Update` of that component, a `Pause`, or a group
`Get`, `Update` or `Reorder` (which name a group id); no call names Management. -/
theorem prepareUpgrade_no_management (cs : upgradeClientSet) (d : ResourceData) (h : History) :
    prepareUpgrade cs d h = prepareUpgradeLoop cs d [Component.EDGE, Component.HOST] h ∧
    (∀ rest h2, prepareUpgradeLoop cs d (Component.MP :: rest) h2 =
      prepareUpgradeLoop cs d rest h2) ∧
    (∀ e ∈ (prepareUpgrade cs d h).calls,
      (e.preparesComponent Component.EDGE = true ∨ e.preparesComponent Component.HOST = true) ∧
      e.onComponent Component.MP = false) := by
  have hmp : ∀ rest h2, prepareUpgradeLoop cs d (Component.MP :: rest) h2 =
      prepareUpgradeLoop cs d rest h2 := by
    intro rest h2
    rw [prepareUpgradeLoop]
    simp
  have hfun : prepareUpgradeLoop cs d [Component.MP] = prepareUpgradeLoop cs d [] :=
    funext (hmp [])
  refine ⟨?_, hmp, ?_⟩
  · unfold prepareUpgrade upgradeComponentList
    rw [prepareUpgradeLoop]
    conv_rhs => rw [prepareUpgradeLoop]
    rw [prepareUpgradeLoop]
    conv_rhs => rw [prepareUpgradeLoop]
    simp only [hfun]
  · intro e he
    obtain ⟨c, hc, hne, -, hp⟩ :=
      prepareUpgradeLoop_preparesComponent cs d upgradeComponentList h e he
    refine ⟨?_, (prepareUpgradeLoop_offManagement cs d upgradeComponentList h e he).2⟩
    cases c with
    | EDGE => exact Or.inl hp
    | HOST => exact Or.inr hp
    | MP => exact absurd rfl hne

/-! ## Create-or-update run: the calls outside the preparation -/

theorem runUpgradeLoop_calls_all (P : Event → Prop) (cs : upgradeClientSet)
    (pm : Component → Bool) (hs : ∀ sel reply, P (Event.StatusGet sel reply))
    (hu : ∀ c r, P (Event.Upgrade c r)) :
    ∀ (comps : List Component) (pe : Bool) (h : History),
      ∀ e ∈ (runUpgradeLoop cs pm comps pe h).calls, P e := by
  intro comps
  induction comps with
  | nil => intro pe h e he; simp [runUpgradeLoop, M.pure] at he
  | cons c rest ih =>
    intro pe h
    rw [runUpgradeLoop]
    refine M.bind_calls_all P _ _ ?_ (fun _ => ?_) h
    · intro h2 e he
      obtain ⟨reply, rfl⟩ := (waitUpgradeForStatus_calls cs none _ _ h2).1 e he
      exact hs _ _
    · split_ifs with hskip
      · exact ih _
      · simp only []
        refine M.bind_calls_all P _ _ ?_ (fun _ => ?_)
        · intro h2 e he
          simp only [M.call, List.mem_singleton] at he
          rw [he]
          exact hu _ _
        · refine M.bind_calls_all P _ _ ?_ (fun _ => ih _)
          intro h2 e he
          obtain ⟨reply, rfl⟩ := (waitUpgradeForStatus_calls cs (some c) _ _ h2).1 e he
          exact hs _ _

theorem runPostcheckLoop_calls_all (P : Event → Prop) (upgradeClient : UpgradeClient)
    (d : ResourceData) (hp : ∀ c r, P (Event.Executepostupgradechecks c r)) :
    ∀ (comps : List Component) (h : History),
      ∀ e ∈ (runPostcheckLoop upgradeClient d comps h).calls, P e := by
  intro comps
  induction comps with
  | nil => intro h e he; simp [runPostcheckLoop, M.pure] at he
  | cons c rest ih =>
    intro h
    rw [runPostcheckLoop]
    split_ifs with hmp
    · refine M.bind_calls_all P _ _ ?_ (fun settingI => ?_) h
      · intro h2 e he
        cases hv : d.Get (componentToSettingKey c) <;>
          simp [hv, Value.asSettingList, M.pure, M.fail] at he
      · cases settingI with
        | nil => exact ih
        | cons setting tl =>
          simp only []
          split_ifs with hpc
          · refine M.bind_calls_all P _ _ ?_ (fun _ => ih)
            intro h2 e he
            simp only [M.call, List.mem_singleton] at he
            rw [he]
            exact hp _ _
          · exact ih
    · exact ih h

theorem resourceNsxtUpgradeRunRead_calls_all (P : Event → Prop) (cs : upgradeClientSet)
    (d : ResourceData) (hl : ∀ r, P (Event.GroupList r))
    (hs : ∀ sel r, P (Event.StatusGet sel r)) (hg : ∀ c r, P (Event.GroupStatusGetall c r))
    (h : History) :
    ∀ e ∈ (resourceNsxtUpgradeRunRead cs d h).calls, P e := by
  have hstates : ∀ (l : List ComponentUpgradeStatus) (states : List ComponentState)
      (h2 : History), ∀ e ∈ (setUpgradeRunOutputStates cs l states h2).calls, P e := by
    intro l
    induction l with
    | nil => intro states h2 e he; simp [setUpgradeRunOutputStates, M.pure] at he
    | cons r rest ih =>
      intro states h2
      rw [setUpgradeRunOutputStates]
      exact M.bind_calls_all P _ _
        (M.call_check_calls_all P _ _ (fun _ => hg _ _)) (fun _ => ih _) h2
  unfold resourceNsxtUpgradeRunRead
  rw [(M.handle_calls _ _ h).1]
  unfold setUpgradeRunOutput
  refine M.bind_calls_all P _ _ (M.call_check_calls_all P _ _ (fun _ => hl _)) (fun _ => ?_) h
  refine M.bind_calls_all P _ _ (M.call_check_calls_all P _ _ (fun _ => hs _ _)) (fun _ => ?_)
  refine M.bind_calls_all P _ _ (hstates _ _) (fun _ => ?_)
  intro h2 e he
  simp [M.pure] at he

theorem upgradeRunCreateOrUpdate_after_prepare (cs : upgradeClientSet) (d : ResourceData)
    (newUUID : String) (h : History) :
    ∃ later, (upgradeRunCreateOrUpdate cs d newUUID h).calls =
        (prepareUpgrade cs d h).calls ++ later ∧
      (∀ e ∈ later, e.isMutation = false ∧ e.isPause = false) ∧
      (later ≠ [] → (prepareUpgrade cs d h).succeeded = true) := by
  have hrun : ∀ h2, ∀ e ∈ (runUpgrade cs (getPartialUpgradeMap d) h2).calls,
      e.isMutation = false ∧ e.isPause = false :=
    fun h2 => runUpgradeLoop_calls_all _ cs _ (fun _ _ => ⟨rfl, rfl⟩) (fun _ _ => ⟨rfl, rfl⟩)
      _ _ h2
  have hlater : ∀ d2 h2, ∀ e ∈ (M.bind (runPostcheck cs.UpgradeClient d) (fun _ =>
      resourceNsxtUpgradeRunRead cs d2) h2).calls, e.isMutation = false ∧ e.isPause = false := by
    intro d2
    refine M.bind_calls_all _ _ _ ?_ (fun _ => ?_)
    · exact fun h3 => runPostcheckLoop_calls_all _ _ _ (fun _ _ => ⟨rfl, rfl⟩) _ h3
    · exact fun h3 => resourceNsxtUpgradeRunRead_calls_all _ cs _ (fun _ => ⟨rfl, rfl⟩)
        (fun _ _ => ⟨rfl, rfl⟩) (fun _ _ => ⟨rfl, rfl⟩) h3
  unfold upgradeRunCreateOrUpdate
  simp only [M.handle_unit_bind_calls]
  refine ⟨_, rfl, ?_, ?_⟩
  · intro e he
    by_cases hp : (prepareUpgrade cs d h).succeeded = true
    · simp only [hp, if_true] at he
      rcases List.mem_append.1 he with he | he
      · exact hrun _ e he
      · by_cases hr : (runUpgrade cs (getPartialUpgradeMap d)
            (h ++ (prepareUpgrade cs d h).calls)).succeeded = true
        · simp only [hr, if_true] at he
          exact hlater _ _ e he
        · simp only [hr, if_false] at he
          cases he
    · simp only [hp, if_false] at he
      cases he
  · intro hne
    by_contra hp
    simp [hp] at hne

/-! ## Preparation: `Reset` and the change flags -/

theorem M.bind_succeeded_calls {α β : Type} (m : M α) (f : α → M β) (h : History)
    (hs : (M.bind m f h).succeeded = true) :
    ∃ a, (m h).out = Except.ok a ∧
      (M.bind m f h).calls = (m h).calls ++ (f a (h ++ (m h).calls)).calls ∧
      (f a (h ++ (m h).calls)).succeeded = true := by
  obtain ⟨a, ho, hfs⟩ := M.bind_succeeded m f h hs
  exact ⟨a, ho, by rw [M.bind_calls, ho], hfs⟩

theorem getUpgradeStatus_observed (statusClient : StatusSummaryClient) (c : Component)
    (h : History) (status : upgradeStatusAndDetail)
    (ho : (getUpgradeStatus statusClient (some c) h).out = Except.ok status) :
    observedReply c (statusClient.Get h (some c)) = some status.Status := by
  rw [getUpgradeStatus_out] at ho
  cases hget : statusClient.Get h (some c) with
  | fail e => rw [hget] at ho; simp at ho
  | ok s =>
    rw [hget] at ho
    simp only [] at ho
    cases hf : s.ComponentStatus.find? (fun componentStatus =>
        decide (componentStatus.ComponentType = c)) with
    | none => rw [hf] at ho; simp at ho
    | some cst =>
      rw [hf] at ho
      simp only [Except.ok.injEq] at ho
      simp [observedReply, observedStatus, hf, ← ho]

theorem probesOf_of_prepares (c c0 : Component) (hne : c ≠ c0) (l : List Event)
    (hl : ∀ e ∈ l, e.preparesComponent c0 = true) : probesOf c l = [] := by
  unfold probesOf
  rw [List.filterMap_eq_nil_iff]
  intro e he
  have hp := hl e he
  cases e with
  | StatusGet sel r =>
    cases sel with
    | none => rfl
    | some c2 =>
      have hc2 : c2 = c0 := by simpa [Event.preparesComponent] using hp
      have : ¬ (c2 = c) := fun h2 => hne (h2.symm.trans hc2)
      simp [this]
  | _ => rfl

theorem prepareUpgradeLoop_reset_or_success (cs : upgradeClientSet) (d : ResourceData)
    (c : Component) (hc : c ≠ Component.MP) (hchg : changedFor d c = true) :
    ∀ (comps : List Component) (h : History), c ∈ comps →
      (prepareUpgradeLoop cs d comps h).succeeded = true →
      (∃ r, Event.Reset c r ∈ (prepareUpgradeLoop cs d comps h).calls) ∨
        (probesOf c (prepareUpgradeLoop cs d comps h).calls).head? =
          some (some Status.SUCCESS) := by
  intro comps
  induction comps with
  | nil => intro h hmem; cases hmem
  | cons c0 rest ih =>
    intro h hmem hs
    have hskip : c0 = Component.MP ∨ changedFor d c0 = false → c ∈ rest := by
      intro hor
      rcases List.mem_cons.1 hmem with heq | hin
      · subst heq
        rcases hor with h1 | h1
        · exact absurd h1 hc
        · rw [hchg] at h1; cases h1
      · exact hin
    rw [prepareUpgradeLoop] at hs ⊢
    by_cases hmp : c0 = mpUpgradeGroup
    · simp only [hmp, if_true] at hs ⊢
      exact ih h (hskip (Or.inl hmp)) hs
    · simp only [hmp, if_false] at hs ⊢
      by_cases hsame : (!d.HasChange (componentToGroupKey c0) &&
          !d.HasChange (componentToSettingKey c0)) = true
      · simp only [hsame, if_true] at hs ⊢
        refine ih h (hskip (Or.inr ?_)) hs
        unfold changedFor
        cases h1 : d.HasChange (componentToGroupKey c0) <;>
          cases h2 : d.HasChange (componentToSettingKey c0) <;> simp_all
      · simp only [hsame, if_false, Bool.false_eq_true] at hs ⊢
        obtain ⟨status, ho, hcalls, hs1⟩ := M.bind_succeeded_calls _ _ _ hs
        have hobs := getUpgradeStatus_observed cs.StatusClient c0 h status ho
        rw [hcalls, getUpgradeStatus_calls]
        rw [getUpgradeStatus_calls] at hs1
        by_cases hsucc : status.Status = Status.SUCCESS
        · simp only [hsucc, if_true] at hs1 ⊢
          by_cases heq : c = c0
          · subst heq
            right
            simp [probesOf, hobs, hsucc]
          · have hin : c ∈ rest := by
              rcases List.mem_cons.1 hmem with h1 | h1
              · exact absurd h1 heq
              · exact h1
            rcases ih _ hin hs1 with ⟨r, hr⟩ | hh
            · exact Or.inl ⟨r, by simp [hr]⟩
            · right
              rw [probesOf_append, probesOf_of_prepares c c0 heq _
                (by intro e he; simp only [List.mem_singleton] at he; rw [he];
                    simp [Event.preparesComponent]), List.nil_append]
              exact hh
        · simp only [hsucc, if_false] at hs1 ⊢
          obtain ⟨u1, ho1, hc1, hs2⟩ := M.bind_succeeded_calls _ _ _ hs1
          obtain ⟨u2, ho2, hc2, hs3⟩ := M.bind_succeeded_calls _ _ _ hs2
          obtain ⟨u3, ho3, hc3, hs4⟩ := M.bind_succeeded_calls _ _ _ hs3
          obtain ⟨u4, ho4, hc4, hs5⟩ := M.bind_succeeded_calls _ _ _ hs4
          obtain ⟨u5, ho5, hc5, hs6⟩ := M.bind_succeeded_calls _ _ _ hs5
          rw [hc1, hc2, hc3, hc4, hc5]
          by_cases heq : c = c0
          · subst heq
            left
            have hreset : ∀ h2, ∃ r, Event.Reset c r ∈
                (M.bind (M.call (fun h => cs.PlanClient.Reset h c) (Event.Reset c))
                  M.checkErr h2).calls := by
              intro h2
              refine ⟨cs.PlanClient.Reset h2 c, ?_⟩
              rw [M.bind_calls]
              simp [M.call]
            obtain ⟨r, hr⟩ := hreset _
            refine ⟨r, ?_⟩
            simp only [List.mem_append]
            right; right; right; left
            exact hr
          · have hin : c ∈ rest := by
              rcases List.mem_cons.1 hmem with h1 | h1
              · exact absurd h1 heq
              · exact h1
            rcases ih _ hin hs6 with ⟨r, hr⟩ | hh
            · refine Or.inl ⟨r, ?_⟩
              simp only [List.mem_append]
              right; right; right; right; right; right
              exact hr
            · right
              have hp0 : ∀ e ∈ [Event.StatusGet (some c0) (cs.StatusClient.Get h (some c0))],
                  e.preparesComponent c0 = true := by
                intro e he
                simp only [List.mem_singleton] at he
                rw [he]
                simp [Event.preparesComponent]
              have hp1 : ∀ h2, ∀ e ∈ ((if status.Status = Status.IN_PROGRESS then
                    M.bind (M.call (fun h => cs.PlanClient.Pause h) Event.Pause)
                      fun _ => M.pure ()
                    else M.pure ()) h2).calls, e.preparesComponent c0 = true := by
                intro h2 e he
                split_ifs at he
                · simp only [M.bind, M.call, M.pure, List.append_nil,
                    List.mem_singleton] at he
                  rw [he]; rfl
                · simp [M.pure] at he
              have hp2 : ∀ h2, ∀ e ∈ (waitUpgradeForStatus cs (some c0)
                  inFlightComponentUpgradeStatus staticComponentUpgradeStatus h2).calls,
                  e.preparesComponent c0 = true := by
                intro h2 e he
                obtain ⟨reply, rfl⟩ := (waitUpgradeForStatus_calls cs (some c0) _ _ h2).1 e he
                simp [Event.preparesComponent]
              have hp3 : ∀ h2, ∀ e ∈ (M.bind (M.call (fun h => cs.PlanClient.Reset h c0)
                  (Event.Reset c0)) M.checkErr h2).calls, e.preparesComponent c0 = true :=
                M.call_checkErr_calls_all (fun e => e.preparesComponent c0 = true) _ _
                  (fun _ => by simp [Event.preparesComponent])
              simp only [probesOf_append]
              rw [probesOf_of_prepares c c0 heq _ hp0,
                probesOf_of_prepares c c0 heq _ (hp1 _),
                probesOf_of_prepares c c0 heq _ (hp2 _),
                probesOf_of_prepares c c0 heq _ (hp3 _),
                probesOf_of_prepares c c0 heq _
                  (updateUpgradeUnitGroups_preparesComponent cs d c0 c0 _),
                probesOf_of_prepares c c0 heq _
                  (updateComponentUpgradePlanSetting_preparesComponent cs.SettingClient d c0 _)]
              simpa using hh

/-- C23 (as stated) fails: with no change of the declared groups and settings, Edge and Host
are not prepared at all; a run against a fabric on which nothing has started (so no status
at entry is Success) issues `Upgrade(Edge)` and `Upgrade(Host)` and no `Reset`. -/
theorem upgradeRunCreateOrUpdate_reset_counterexample :
    upgradeCalls (upgradeRunCreateOrUpdate (scriptedClientSet Status.SUCCESS) unchangedData
        "u" []).calls = [Component.EDGE, Component.HOST, Component.MP] ∧
      (∀ e ∈ (upgradeRunCreateOrUpdate (scriptedClientSet Status.SUCCESS) unchangedData
          "u" []).calls,
        e.isReset Component.EDGE = false ∧ e.isReset Component.HOST = false) ∧
      observedStatus Component.EDGE (statusAfter Status.SUCCESS []) = some Status.NOT_STARTED ∧
      observedStatus Component.HOST (statusAfter Status.SUCCESS []) = some Status.NOT_STARTED := by
  refine ⟨by decide, by decide, by decide, by decide⟩

/-- C23 (amended): for Edge and for Host, in every create-or-update run: if the declared
group list or the declared settings of the component changed, then before each
`Upgrade(component)` either `Reset(component)` was issued or the first status probe of the
component (the probe at entry to its preparation) observed Success; if neither changed,
no `Reset(component)` is issued in the run. -/
theorem upgradeRunCreateOrUpdate_reset_before_upgrade (cs : upgradeClientSet)
    (d : ResourceData) (newUUID : String) (h : History) (c : Component)
    (hc : c = Component.EDGE ∨ c = Component.HOST) :
    (changedFor d c = true → ∀ pre r post,
      (upgradeRunCreateOrUpdate cs d newUUID h).calls = pre ++ Event.Upgrade c r :: post →
      (∃ r2, Event.Reset c r2 ∈ pre) ∨
        (probesOf c pre).head? = some (some Status.SUCCESS)) ∧
    (changedFor d c = false →
      ∀ e ∈ (upgradeRunCreateOrUpdate cs d newUUID h).calls, e.isReset c = false) := by
  obtain ⟨later, hcalls, hlater, hne⟩ := upgradeRunCreateOrUpdate_after_prepare cs d newUUID h
  have hcmp : c ≠ Component.MP := by
    rcases hc with h1 | h1 <;> rw [h1] <;> decide
  have hin : c ∈ upgradeComponentList := by
    rcases hc with h1 | h1 <;> rw [h1] <;> decide
  refine ⟨?_, ?_⟩
  · intro hchg pre r post hsplit
    obtain ⟨pre2, hpre⟩ := split_after (fun e => e.isUpgrade = true) _ _ _ pre post
      (Event.Upgrade c r) hcalls
      (fun x hx => by
        show ¬ (x.isUpgrade = true)
        rw [(prepareUpgradeLoop_offManagement cs d _ h x hx).1]
        decide) hsplit rfl
    have hl : later = pre2 ++ Event.Upgrade c r :: post := by
      rw [hcalls, hpre, List.append_assoc] at hsplit
      exact List.append_cancel_left hsplit
    have hps : (prepareUpgrade cs d h).succeeded = true :=
      hne (by rw [hl]; simp)
    rcases prepareUpgradeLoop_reset_or_success cs d c hcmp hchg upgradeComponentList h hin hps
      with ⟨r2, hr2⟩ | hh
    · exact Or.inl ⟨r2, by rw [hpre]; exact List.mem_append_left _ hr2⟩
    · right
      rw [hpre, probesOf_append]
      unfold prepareUpgrade
      cases hpp : probesOf c (prepareUpgradeLoop cs d upgradeComponentList h).calls with
      | nil => rw [hpp] at hh; simp at hh
      | cons x xs =>
        rw [hpp] at hh
        simpa using hh
  · intro hchg e he
    rw [hcalls] at he
    rcases List.mem_append.1 he with he | he
    · obtain ⟨c2, -, -, hch2, hp⟩ :=
        prepareUpgradeLoop_preparesComponent cs d upgradeComponentList h e he
      cases e with
      | Reset c3 r =>
        by_cases h3 : c3 = c
        · have : c3 = c2 := by simpa [Event.preparesComponent] using hp
          rw [← this, h3, hchg] at hch2
          cases hch2
        · simp [Event.isReset, h3]
      | _ => rfl
    · have := (hlater e he).1
      cases e with
      | Reset c3 r => simp [Event.isMutation] at this
      | _ => rfl

theorem upgradeRunCreateOrUpdate_reset_before_upgrade_witness :
    (∃ r2, Event.Reset Component.EDGE r2 ∈
        (upgradeRunCreateOrUpdate (scriptedClientSet Status.SUCCESS) changedData
          "u" []).calls.take 7) ∨
      (probesOf Component.EDGE
        ((upgradeRunCreateOrUpdate (scriptedClientSet Status.SUCCESS) changedData
          "u" []).calls.take 7)).head? = some (some Status.SUCCESS) :=
  (upgradeRunCreateOrUpdate_reset_before_upgrade (scriptedClientSet Status.SUCCESS) changedData
    "u" [] Component.EDGE (Or.inl rfl)).1 rfl
    ((upgradeRunCreateOrUpdate (scriptedClientSet Status.SUCCESS) changedData
      "u" []).calls.take 7) none
    ((upgradeRunCreateOrUpdate (scriptedClientSet Status.SUCCESS) changedData
      "u" []).calls.drop 8) (by decide)

/-! ## Run driver: when Management is skipped -/

theorem runUpgrade_succeeded_iff (cs : upgradeClientSet) (pm : Component → Bool) (h : History) :
    let w0 := overallWait cs h
    let uE := upgradeEvent cs Component.EDGE (h ++ w0.calls)
    let wE := componentWait cs pm Component.EDGE false (h ++ w0.calls ++ [uE])
    let w1 := overallWait cs (h ++ w0.calls ++ [uE] ++ wE.calls)
    let uH := upgradeEvent cs Component.HOST (h ++ w0.calls ++ [uE] ++ wE.calls ++ w1.calls)
    let peH := (runUpgradeStatusSets pm Component.EDGE false).2.2
    let wH := componentWait cs pm Component.HOST peH
      (h ++ w0.calls ++ [uE] ++ wE.calls ++ w1.calls ++ [uH])
    let w2 := overallWait cs (h ++ w0.calls ++ [uE] ++ wE.calls ++ w1.calls ++ [uH] ++ wH.calls)
    let peM := (runUpgradeStatusSets pm Component.HOST peH).2.2
    let uM := upgradeEvent cs Component.MP
      (h ++ w0.calls ++ [uE] ++ wE.calls ++ w1.calls ++ [uH] ++ wH.calls ++ w2.calls)
    let wM := componentWait cs pm Component.MP peM
      (h ++ w0.calls ++ [uE] ++ wE.calls ++ w1.calls ++ [uH] ++ wH.calls ++ w2.calls ++ [uM])
    ((runUpgrade cs pm h).succeeded = true ↔
      w0.succeeded = true ∧ wE.succeeded = true ∧ w1.succeeded = true ∧
        wH.succeeded = true ∧ w2.succeeded = true ∧ (peM = true ∨ wM.succeeded = true)) := by
  have hnil : ∀ (pe : Bool) (h2 : History),
      runUpgradeLoop cs pm [] pe h2 = ⟨Except.ok (), []⟩ := fun _ _ => rfl
  simp only [runUpgrade, upgradeComponentList, runUpgradeLoop_cons, hnil,
    Run.after, edgeUpgradeGroup, hostUpgradeGroup, mpUpgradeGroup, reduceCtorEq, false_and,
    if_false, true_and]
  split_ifs <;> simp_all [Run.succeeded_mk, Run.succeeded]

theorem runUpgradeStatusSets_partialExist (pm : Component → Bool) :
    ((runUpgradeStatusSets pm Component.HOST
        (runUpgradeStatusSets pm Component.EDGE false).2.2).2.2 = true ↔
      pm Component.EDGE = true ∨ pm Component.HOST = true) := by
  unfold runUpgradeStatusSets
  cases hE : pm Component.EDGE <;> cases hH : pm Component.HOST <;> simp

theorem partialDeclared_iff (d : ResourceData) :
    partialDeclared d ↔
      getPartialUpgradeMap d Component.EDGE = true ∨
        getPartialUpgradeMap d Component.HOST = true := by
  unfold partialDeclared
  rw [getPartialUpgradeMap_iff, getPartialUpgradeMap_iff]
  constructor
  · rintro ⟨c, hc | hc, hg⟩
    · subst hc; exact Or.inl ⟨by decide, hg⟩
    · subst hc; exact Or.inr ⟨by decide, hg⟩
  · rintro (⟨-, hg⟩ | ⟨-, hg⟩)
    · exact ⟨Component.EDGE, Or.inl rfl, hg⟩
    · exact ⟨Component.HOST, Or.inr rfl, hg⟩

/-- C27: `runUpgrade` skips Management, that is, it returns success without having issued
`Upgrade(Management)` or a status probe of Management, if and only if the declared group
list of Edge or of Host has a group with `enabled = false` or
`pause_after_each_upgrade_unit = true` and the five waits before the Management iteration
(overall, Edge, overall, Host, overall) returned success.  The condition on the components
is on the declared groups only: which target status (Success or Paused) ended the waits of
Edge and Host does not enter it. -/
theorem runUpgrade_skips_management (cs : upgradeClientSet) (d : ResourceData) (h : History) :
    let pm := getPartialUpgradeMap d
    let w0 := overallWait cs h
    let uE := upgradeEvent cs Component.EDGE (h ++ w0.calls)
    let wE := componentWait cs pm Component.EDGE false (h ++ w0.calls ++ [uE])
    let w1 := overallWait cs (h ++ w0.calls ++ [uE] ++ wE.calls)
    let uH := upgradeEvent cs Component.HOST (h ++ w0.calls ++ [uE] ++ wE.calls ++ w1.calls)
    let peH := (runUpgradeStatusSets pm Component.EDGE false).2.2
    let wH := componentWait cs pm Component.HOST peH
      (h ++ w0.calls ++ [uE] ++ wE.calls ++ w1.calls ++ [uH])
    let w2 := overallWait cs (h ++ w0.calls ++ [uE] ++ wE.calls ++ w1.calls ++ [uH] ++ wH.calls)
    (((runUpgrade cs pm h).succeeded = true ∧
        Component.MP ∉ upgradeCalls (runUpgrade cs pm h).calls ∧
        probesOf Component.MP (runUpgrade cs pm h).calls = []) ↔
      (partialDeclared d ∧ w0.succeeded = true ∧ wE.succeeded = true ∧
        w1.succeeded = true ∧ wH.succeeded = true ∧ w2.succeeded = true)) := by
  intro pm w0 uE wE w1 uH peH wH w2
  have hs := runUpgrade_succeeded_iff cs pm h
  have heq := runUpgrade_calls_eq cs pm h
  extract_lets a0 aE bE a1 aH qH bH a2 qM aM bM at hs
  extract_lets c0 cE dE c1 cH rH dH c2 rM cM dM at heq
  have hpe : qM = true ↔ partialDeclared d := by
    rw [partialDeclared_iff]
    exact runUpgradeStatusSets_partialExist pm
  have f0 : upgradeCalls c0.calls = [] := upgradeCalls_overallWait cs _
  have f1 : upgradeCalls c1.calls = [] := upgradeCalls_overallWait cs _
  have f2 : upgradeCalls c2.calls = [] := upgradeCalls_overallWait cs _
  have fE : upgradeCalls dE.calls = [] := upgradeCalls_componentWait cs pm _ _ _
  have fH : upgradeCalls dH.calls = [] := upgradeCalls_componentWait cs pm _ _ _
  have fM : upgradeCalls dM.calls = [] := upgradeCalls_componentWait cs pm _ _ _
  have g0 : probesOf Component.MP c0.calls = [] :=
    probesOf_other _ none _ (by simp) (waitUpgradeForStatus_calls cs none _ _ _).1
  have g1 : probesOf Component.MP c1.calls = [] :=
    probesOf_other _ none _ (by simp) (waitUpgradeForStatus_calls cs none _ _ _).1
  have g2 : probesOf Component.MP c2.calls = [] :=
    probesOf_other _ none _ (by simp) (waitUpgradeForStatus_calls cs none _ _ _).1
  have gE : probesOf Component.MP dE.calls = [] :=
    probesOf_other _ (some Component.EDGE) _ (by simp)
      (waitUpgradeForStatus_calls cs (some Component.EDGE) _ _ _).1
  have gH : probesOf Component.MP dH.calls = [] :=
    probesOf_other _ (some Component.HOST) _ (by simp)
      (waitUpgradeForStatus_calls cs (some Component.HOST) _ _ _).1
  have uEq : ∀ l, upgradeCalls (cE :: l) = Component.EDGE :: upgradeCalls l :=
    fun l => upgradeCalls_upgradeEvent cs _ _ l
  have uHq : ∀ l, upgradeCalls (cH :: l) = Component.HOST :: upgradeCalls l :=
    fun l => upgradeCalls_upgradeEvent cs _ _ l
  have uMq : ∀ l, upgradeCalls (cM :: l) = Component.MP :: upgradeCalls l :=
    fun l => upgradeCalls_upgradeEvent cs _ _ l
  have pEq : ∀ l, probesOf Component.MP (cE :: l) = probesOf Component.MP l :=
    fun l => probesOf_upgradeEvent cs _ _ _ l
  have pHq : ∀ l, probesOf Component.MP (cH :: l) = probesOf Component.MP l :=
    fun l => probesOf_upgradeEvent cs _ _ _ l
  constructor
  · rintro ⟨hsucc, hnoup, -⟩
    obtain ⟨h0, hE, h1, hH, h2, -⟩ := hs.1 hsucc
    have k0 : c0.succeeded = true := h0
    have kE : dE.succeeded = true := hE
    have k1 : c1.succeeded = true := h1
    have kH : dH.succeeded = true := hH
    have k2 : c2.succeeded = true := h2
    refine ⟨?_, h0, hE, h1, hH, h2⟩
    rw [← hpe]
    by_contra hne
    have hf : rM = false := by
      cases hq : rM
      · rfl
      · exact absurd hq hne
    apply hnoup
    rw [heq]
    simp only [k0, kE, k1, kH, k2, hf, if_true, and_self, upgradeCalls_append, f0, f1, f2, fE,
      fH, fM, uEq, uHq, uMq, List.cons_append, List.nil_append, List.append_nil]
    decide
  · rintro ⟨hpd, h0, hE, h1, hH, h2⟩
    have hq : qM = true := hpe.2 hpd
    have hr : rM = true := hq
    have k0 : c0.succeeded = true := h0
    have kE : dE.succeeded = true := hE
    have k1 : c1.succeeded = true := h1
    have kH : dH.succeeded = true := hH
    have k2 : c2.succeeded = true := h2
    refine ⟨hs.2 ⟨h0, hE, h1, hH, h2, Or.inl hq⟩, ?_, ?_⟩
    · rw [heq]
      simp only [k0, kE, k1, kH, k2, hr, if_true, Bool.true_eq_false, and_false, if_false,
        upgradeCalls_append, f0, f1, f2, fE, fH, uEq, uHq, List.cons_append, List.nil_append,
        List.append_nil]
      decide
    · rw [heq]
      simp only [k0, kE, k1, kH, k2, hr, if_true, Bool.true_eq_false, and_false, if_false,
        probesOf_append, g0, g1, g2, gE, gH, pEq, pHq, List.cons_append, List.nil_append,
        List.append_nil]

/-! ## Output collector: the attribute `upgrade_group_plan` -/

theorem lastValueOf_cons (c : KeyValuePair) (rest : List KeyValuePair) (key : String) :
    lastValueOf (c :: rest) key =
      match lastValueOf rest key with
      | some v => some v
      | none => if c.Key = key then some c.Value else none := by
  unfold lastValueOf
  rw [List.reverse_cons, List.find?_append]
  cases hf : rest.reverse.find? (fun c => decide (c.Key = key)) with
  | some x => simp
  | none =>
    by_cases hk : c.Key = key <;> simp [List.find?, hk]

theorem setUpgradeRunOutputExtConfig_eq (config : List KeyValuePair) :
    ∀ (extConfig : String → Option String) (key : String),
      setUpgradeRunOutputExtConfig config extConfig key =
        match lastValueOf config key with
        | some v => some v
        | none => extConfig key := by
  induction config with
  | nil => intro extConfig key; simp [setUpgradeRunOutputExtConfig, lastValueOf]
  | cons c rest ih =>
    intro extConfig key
    rw [setUpgradeRunOutputExtConfig, ih, lastValueOf_cons]
    cases hl : lastValueOf rest key with
    | some v => rfl
    | none =>
      by_cases hk : c.Key = key
      · simp [hk, Function.update]
      · have hk2 : ¬ (key = c.Key) := fun h => hk h.symm
        simp [hk, hk2, Function.update]

theorem setUpgradeRunOutputPlans_eq (results : List UpgradeUnitGroup) :
    ∀ plans : List UpgradeGroupPlan,
      setUpgradeRunOutputPlans results plans = plans ++ results.map claimedPlan := by
  induction results with
  | nil => intro plans; simp [setUpgradeRunOutputPlans]
  | cons r rest ih =>
    intro plans
    rw [setUpgradeRunOutputPlans, ih]
    have hext : setUpgradeRunOutputExtConfig r.ExtendedConfiguration (fun _ => none) =
        lastValueOf r.ExtendedConfiguration := by
      funext key
      rw [setUpgradeRunOutputExtConfig_eq]
      cases lastValueOf r.ExtendedConfiguration key <;> rfl
    simp [claimedPlan, hext]

theorem setUpgradeRunOutputStates_ok (cs : upgradeClientSet)
    (hgetall : ∀ h2 c, ∃ l, cs.GroupStatusClient.Getall h2 c = Reply.ok l) :
    ∀ (results : List ComponentUpgradeStatus) (states : List ComponentState) (h : History),
      ∃ st, (setUpgradeRunOutputStates cs results states h).out = Except.ok st := by
  intro results
  induction results with
  | nil => intro states h; exact ⟨states, by simp [setUpgradeRunOutputStates, M.pure]⟩
  | cons r rest ih =>
    intro states h
    rw [setUpgradeRunOutputStates, M.bind_call_check]
    obtain ⟨l, hl⟩ := hgetall h r.ComponentType
    rw [hl]
    exact ih _ _

/-- C26: when the remote `List` call, the status call and the group-status calls succeed,
`setUpgradeRunOutput` returns success and sets `upgrade_group_plan` to the list with one
entry per remote group, in the order of the `List` reply, whose entry for a group carries
the id, type, parallel, enabled and pause-after-each-unit of the group and an
`extended_config` map that sends each key to the value of its last occurrence in the
extended configuration of the group, and every other key to nothing. -/
theorem setUpgradeRunOutput_plans (cs : upgradeClientSet) (d : ResourceData) (h : History)
    (results : List UpgradeUnitGroup)
    (hlist : cs.GroupClient.List h = Reply.ok results)
    (hstatus : ∀ h2, ∃ s, cs.StatusClient.Get h2 none = Reply.ok s)
    (hgetall : ∀ h2 c, ∃ l, cs.GroupStatusClient.Getall h2 c = Reply.ok l) :
    ∃ d2, (setUpgradeRunOutput cs d h).out = Except.ok d2 ∧
      d2.upgrade_group_plan = results.map claimedPlan ∧
      (∀ r ∈ results, ∀ key,
        ((claimedPlan r).extended_config key = none ↔
          ∀ c ∈ r.ExtendedConfiguration, c.Key ≠ key) ∧
        (∀ pre c post, r.ExtendedConfiguration = pre ++ c :: post → c.Key = key →
          (∀ x ∈ post, x.Key ≠ key) → (claimedPlan r).extended_config key = some c.Value)) := by
  obtain ⟨s, hs⟩ := hstatus (h ++ [Event.GroupList (Reply.ok results)])
  obtain ⟨st, hst⟩ := setUpgradeRunOutputStates_ok cs hgetall s.ComponentStatus []
    (h ++ [Event.GroupList (Reply.ok results)] ++ [Event.StatusGet none (Reply.ok s)])
  refine ⟨{ d with upgrade_group_plan := results.map claimedPlan, state := st }, ?_, rfl, ?_⟩
  · unfold setUpgradeRunOutput
    rw [M.bind_call_check, hlist]
    simp only []
    rw [M.bind_call_check, hs]
    simp only []
    rw [M.bind_out, hst]
    simp [M.pure, setUpgradeRunOutputPlans_eq]
  · intro r _ key
    refine ⟨?_, ?_⟩
    · simp only [claimedPlan, lastValueOf, Option.map_eq_none', List.find?_eq_none,
        List.mem_reverse, decide_eq_true_eq]
    · intro pre c post hsplit hc hpost
      simp only [claimedPlan, lastValueOf, hsplit, List.reverse_append, List.reverse_cons,
        List.append_assoc, List.singleton_append]
      rw [find?_first (fun c => decide (c.Key = key)) post.reverse c pre.reverse
        (fun y hy => by simpa using hpost y (List.mem_reverse.1 hy)) (by simpa using hc)]
      rfl

theorem setUpgradeRunOutput_plans_witness :
    ∃ d2, (setUpgradeRunOutput
        (listingClientSet
          [remoteGroup "g1" [⟨"upgrade_mode", "in_place"⟩, ⟨"rebootless_upgrade", "true"⟩,
            ⟨"upgrade_mode", "maintenance_mode"⟩],
           remoteGroup "g2" []])
        unchangedData []).out = Except.ok d2 ∧
      d2.upgrade_group_plan =
        [remoteGroup "g1" [⟨"upgrade_mode", "in_place"⟩, ⟨"rebootless_upgrade", "true"⟩,
            ⟨"upgrade_mode", "maintenance_mode"⟩],
         remoteGroup "g2" []].map claimedPlan :=
  (setUpgradeRunOutput_plans
    (listingClientSet
      [remoteGroup "g1" [⟨"upgrade_mode", "in_place"⟩, ⟨"rebootless_upgrade", "true"⟩,
        ⟨"upgrade_mode", "maintenance_mode"⟩],
       remoteGroup "g2" []])
    unchangedData [] _ rfl (fun _ => ⟨_, rfl⟩) (fun _ _ => ⟨_, rfl⟩)).imp
    (fun _ hd => ⟨hd.1, hd.2.1⟩)

/-! ## Firewall section: the version test of the update -/

/-- C28: with a non-empty rule list, `resourceNsxtFirewallSectionUpdate` performs the extra
`UpdateSection` call before `UpdateSectionWithRules` exactly when the version string is
below "2.2.0" in the byte-wise order of strings (Go's `<` on strings).  That order is not
the numeric order of version numbers: for "2.10.0" and for "10.0.0" the extra call is
performed although the version is not lower than 2.2.0.  With an empty rule list the
update performs `UpdateSection`, reads the section and deletes each of its rules. -/
theorem resourceNsxtFirewallSectionUpdate_version (api : ServicesApi) (nsxVersion : String)
    (d : FirewallSectionData) (h : List FwCall) :
    (d.Id ≠ "" → d.rule ≠ [] →
      ((∃ sec tail, (resourceNsxtFirewallSectionUpdate api nsxVersion d h).calls =
          FwCall.UpdateSection d.Id sec :: tail) ↔ stringLess nsxVersion "2.2.0" = true) ∧
      (∃ sec tail, (resourceNsxtFirewallSectionUpdate api nsxVersion d h).calls =
          (if stringLess nsxVersion "2.2.0" = true then
            [FwCall.UpdateSection d.Id sec.FirewallSection] else []) ++
          FwCall.UpdateSectionWithRulesUpdateWithRules d.Id sec :: tail)) ∧
    (stringLess "2.10.0" "2.2.0" = true ∧ versionLower "2.10.0" "2.2.0" = false) ∧
    (stringLess "10.0.0" "2.2.0" = true ∧ versionLower "10.0.0" "2.2.0" = false) ∧
    (resourceNsxtFirewallSectionUpdate (okServicesApi []) "2.10.0"
        (sectionData "s1" [⟨"allow-web", "ALLOW", false⟩]) []).calls =
      [FwCall.UpdateSection "s1" ⟨1, "", "web", "LAYER3", true⟩,
       FwCall.UpdateSectionWithRulesUpdateWithRules "s1"
         ⟨⟨1, "", "web", "LAYER3", true⟩, [⟨"", "allow-web", "ALLOW", false⟩]⟩,
       FwCall.GetSectionWithRulesListWithRules "s1",
       FwCall.GetSection "s1"] ∧
    (resourceNsxtFirewallSectionUpdate (okServicesApi [⟨"r1", "a", "ALLOW", false⟩,
        ⟨"r2", "b", "DROP", false⟩]) nsxVersion (sectionData "s1" []) []).calls =
      [FwCall.UpdateSection "s1" ⟨1, "", "web", "LAYER3", true⟩,
       FwCall.GetSectionWithRulesListWithRules "s1",
       FwCall.DeleteRule "s1" "r1",
       FwCall.DeleteRule "s1" "r2",
       FwCall.GetSectionWithRulesListWithRules "s1",
       FwCall.GetSection "s1"] := by
  refine ⟨?_, ⟨by decide, by decide⟩, ⟨by decide, by decide⟩, by decide, ?_⟩
  · intro hid hrule
    have hlen : ¬ ((getRulesFromSchema d).length = 0) := by
      simp [getRulesFromSchema, hrule]
    have hpos : (getRulesFromSchema d).length > 0 := Nat.pos_of_ne_zero hlen
    unfold resourceNsxtFirewallSectionUpdate resourceNsxtFirewallSectionUpdateEmpty
    simp only [hid, if_false, hlen, false_or, hpos, if_true]
    by_cases hv : stringLess nsxVersion "2.2.0" = true
    · simp only [hv, if_true, iff_true]
      refine ⟨⟨⟨d.revision, d.description, d.display_name, d.section_type, d.stateful⟩, ?_⟩,
        ⟨⟨⟨d.revision, d.description, d.display_name, d.section_type, d.stateful⟩,
          getRulesFromSchema d⟩, ?_⟩⟩
      · split <;> (try split) <;> (try split) <;> exact ⟨_, rfl⟩
      · split <;> (try split) <;> (try split) <;> exact ⟨_, rfl⟩
    · simp only [hv, if_false, iff_false, Bool.false_eq_true]
      refine ⟨?_, ⟨⟨⟨d.revision, d.description, d.display_name, d.section_type, d.stateful⟩,
          getRulesFromSchema d⟩, ?_⟩⟩
      · rintro ⟨sec, tail, hcalls⟩
        revert hcalls
        split <;> (try split) <;> (try split) <;> simp
      · split <;> (try split) <;> (try split) <;> exact ⟨_, rfl⟩
  · unfold resourceNsxtFirewallSectionUpdate resourceNsxtFirewallSectionUpdateEmpty
    simp [sectionData, getRulesFromSchema, okServicesApi, resourceNsxtFirewallSectionRead,
      StatusNotFound]

/-! ## Certificate data source: lookup by name -/

theorem dataSourceNsxtCertificateReadLoop_eq (objName : String) :
    ∀ (results : List Certificate) (obj : Certificate) (found : Bool),
      dataSourceNsxtCertificateReadLoop objName results obj found =
        match certificatesNamed objName results, found with
        | [], _ => Except.ok (obj, found)
        | [c], false => Except.ok (c, true)
        | _, _ => Except.error ("Found multiple certificates with name '" ++ objName ++ "'") := by
  intro results
  induction results with
  | nil => intro obj found; simp [dataSourceNsxtCertificateReadLoop, certificatesNamed]
  | cons x rest ih =>
    intro obj found
    rw [dataSourceNsxtCertificateReadLoop]
    by_cases hx : x.DisplayName = objName
    · have hf : certificatesNamed objName (x :: rest) = x :: certificatesNamed objName rest := by
        simp [certificatesNamed, hx]
      rw [hf]
      cases found with
      | true => simp [hx]
      | false =>
        simp only [hx, if_true, Bool.false_eq_true, if_false]
        rw [ih]
        cases hm : certificatesNamed objName rest with
        | nil => rfl
        | cons y ys => cases ys <;> rfl
    · have hf : certificatesNamed objName (x :: rest) = certificatesNamed objName rest := by
        simp [certificatesNamed, hx]
      rw [hf]
      simp only [hx, if_false]
      exact ih obj found

/-- C29: `dataSourceNsxtCertificateRead` with an empty id and a non-empty display name,
when the list call succeeds: it succeeds exactly when one certificate of the listed results
has that display name, and then sets the identity and attribute `id`, `display_name` and
`description` from that certificate; it fails with "Found multiple certificates ..." when two or more have it
and with "... was not found" when none has it.  A non-empty id takes precedence: the
result does not depend on the display name.  With both empty it fails. -/
theorem dataSourceNsxtCertificateRead_by_name (api : NsxComponentAdministrationApi) :
    (∀ d : CertificateData, d.id = "" → d.display_name ≠ "" → api.GetCertificates.err = none →
      (∀ c, certificatesNamed d.display_name api.GetCertificates.value = [c] →
        dataSourceNsxtCertificateRead api d =
          Except.ok { id := c.Id, display_name := c.DisplayName,
                      description := c.Description, Id := c.Id }) ∧
      (2 ≤ (certificatesNamed d.display_name api.GetCertificates.value).length →
        dataSourceNsxtCertificateRead api d =
          Except.error ("Found multiple certificates with name '" ++ d.display_name ++ "'")) ∧
      (certificatesNamed d.display_name api.GetCertificates.value = [] →
        dataSourceNsxtCertificateRead api d =
          Except.error ("Certificate with name '" ++ d.display_name ++ "' was not found")) ∧
      ((∃ d2, dataSourceNsxtCertificateRead api d = Except.ok d2) ↔
        (certificatesNamed d.display_name api.GetCertificates.value).length = 1)) ∧
    (∀ (d : CertificateData) (name : String), d.id ≠ "" →
      dataSourceNsxtCertificateRead api { d with display_name := name } =
        dataSourceNsxtCertificateRead api d ∧
      ((api.GetCertificate d.id).StatusCode ≠ some StatusNotFound →
        (api.GetCertificate d.id).err = none →
        dataSourceNsxtCertificateRead api d =
          Except.ok { id := (api.GetCertificate d.id).value.Id,
                      display_name := (api.GetCertificate d.id).value.DisplayName,
                      description := (api.GetCertificate d.id).value.Description,
                      Id := (api.GetCertificate d.id).value.Id })) ∧
    (∀ d : CertificateData, d.id = "" → d.display_name = "" →
      dataSourceNsxtCertificateRead api d =
        Except.error "Error obtaining certificate ID or name during read") ∧
    dataSourceNsxtCertificateRead
        (listingCertificateApi [⟨"c1", "web", "first"⟩, ⟨"c2", "db", "second"⟩])
        ⟨"", "db", "", ""⟩ = Except.ok ⟨"c2", "db", "second", "c2"⟩ := by
  refine ⟨?_, ?_, ?_, by rfl⟩
  · intro d hid hname herr
    have hrun : dataSourceNsxtCertificateRead api d =
        match certificatesNamed d.display_name api.GetCertificates.value with
        | [] => Except.error ("Certificate with name '" ++ d.display_name ++ "' was not found")
        | [c] => Except.ok { id := c.Id, display_name := c.DisplayName,
                             description := c.Description, Id := c.Id }
        | _ => Except.error ("Found multiple certificates with name '" ++
                 d.display_name ++ "'") := by
      unfold dataSourceNsxtCertificateRead
      simp only [hid, ne_eq, not_true_eq_false, if_false, hname, not_false_eq_true, if_true,
        herr, dataSourceNsxtCertificateReadLoop_eq]
      cases hm : certificatesNamed d.display_name api.GetCertificates.value with
      | nil => rfl
      | cons y ys => cases ys <;> rfl
    refine ⟨?_, ?_, ?_, ?_⟩
    · intro c hc
      rw [hrun, hc]
    · intro h2
      rw [hrun]
      cases hm : certificatesNamed d.display_name api.GetCertificates.value with
      | nil => rw [hm] at h2; simp at h2
      | cons y ys =>
        cases ys with
        | nil => rw [hm] at h2; simp at h2
        | cons z zs => rfl
    · intro h0
      rw [hrun, h0]
    · rw [hrun]
      cases hm : certificatesNamed d.display_name api.GetCertificates.value with
      | nil => simp
      | cons y ys => cases ys <;> simp
  · intro d name hid
    refine ⟨?_, ?_⟩
    · unfold dataSourceNsxtCertificateRead
      simp only [hid, ne_eq, not_false_eq_true, if_true]
    · intro hcode herr
      unfold dataSourceNsxtCertificateRead
      simp only [hid, ne_eq, not_false_eq_true, if_true, hcode, if_false, herr,
        not_true_eq_false]
  · intro d hid hname
    unfold dataSourceNsxtCertificateRead
    simp [hid, hname]


/-! ## Gateway redistribution config: the locale service that is read -/

/-- C30: with the identity, the gateway and the locale service stored,
`resourceNsxtPolicyGatewayRedistributionConfigRead` issues exactly one `Get`: on the global
manager for the stored `locale_service_id`, on the local manager for the constant
`defaultPolicyLocaleServiceID`, whatever the stored `locale_service_id` is, while the patch
of Create and Update names the stored locale service on both managers.  On a local manager
whose gateway has the locale service `ls-1`, Update and Create patch `ls-1` and then read
`default`, and the BGP flag just patched is read back as false. -/
theorem resourceNsxtPolicyGatewayRedistributionConfigRead_locale_service (m : PolicyEnv)
    (d : RedistributionConfigData) (h : List LsCall) :
    (d.Id ≠ "" → d.gateway_id ≠ "" → d.locale_service_id ≠ "" →
      (resourceNsxtPolicyGatewayRedistributionConfigRead m d h).calls =
        [if m.isPolicyGlobalManager = true then
           LsCall.Get true d.gateway_id d.locale_service_id
         else LsCall.Get false d.gateway_id m.defaultPolicyLocaleServiceID] ∧
      (∃ service tail, (resourceNsxtPolicyGatewayRedistributionConfigUpdate m d h).calls =
        LsCall.Patch m.isPolicyGlobalManager d.gateway_id d.locale_service_id service ::
          tail)) ∧
    (∀ gwID localeServiceID, ∃ service,
      (policyGatewayRedistributionConfigPatch m d gwID localeServiceID h).2 =
        [LsCall.Patch m.isPolicyGlobalManager gwID localeServiceID service]) ∧
    resourceNsxtPolicyGatewayRedistributionConfigUpdate (okPolicyEnv false)
        redistributionData [] =
      ⟨LsOut.ok ⟨"uuid-1", "gw", "", "gw", "ls-1", false, false⟩,
       [LsCall.Patch false "gw" "ls-1"
          ⟨some "ls-1", some "LocaleServices", some ⟨some true, some false⟩⟩,
        LsCall.Get false "gw" "default"]⟩ ∧
    resourceNsxtPolicyGatewayRedistributionConfigUpdate (okPolicyEnv true)
        redistributionData [] =
      ⟨LsOut.ok ⟨"uuid-1", "gw", "", "gw", "ls-1", true, false⟩,
       [LsCall.Patch true "gw" "ls-1"
          ⟨some "ls-1", some "LocaleServices", some ⟨some true, some false⟩⟩,
        LsCall.Get true "gw" "ls-1"]⟩ ∧
    resourceNsxtPolicyGatewayRedistributionConfigCreate (okPolicyEnv false)
        ⟨"", "gw", "", "", "", true, false⟩ [] =
      ⟨LsOut.ok ⟨"uuid-1", "gw", "", "gw", "ls-1", false, false⟩,
       [LsCall.Patch false "gw" "ls-1"
          ⟨some "ls-1", some "LocaleServices", some ⟨some true, some false⟩⟩,
        LsCall.Get false "gw" "default"]⟩ := by
  have hpatch : ∀ gwID localeServiceID, ∃ service,
      (policyGatewayRedistributionConfigPatch m d gwID localeServiceID h).2 =
        [LsCall.Patch m.isPolicyGlobalManager gwID localeServiceID service] := by
    intro gwID localeServiceID
    unfold policyGatewayRedistributionConfigPatch
    by_cases hg : m.isPolicyGlobalManager = true
    · simp only [hg, if_true]
      exact ⟨_, rfl⟩
    · have hf : m.isPolicyGlobalManager = false := by simpa using hg
      simp only [hf, Bool.false_eq_true, if_false]
      exact ⟨_, rfl⟩
  refine ⟨?_, hpatch, by decide, by decide, by decide⟩
  intro hid hgw hls
  have hguard : ¬ (d.Id = "" ∨ d.gateway_id = "" ∨ d.locale_service_id = "") := by
    simp [hid, hgw, hls]
  constructor
  · unfold resourceNsxtPolicyGatewayRedistributionConfigRead
    simp only [hguard, if_false]
    by_cases hg : m.isPolicyGlobalManager = true
    · simp only [hg, if_true]
      cases m.Get h true d.gateway_id d.locale_service_id with
      | error err => rfl
      | ok obj =>
        cases hc : obj.RouteRedistributionConfig <;> simp [hc]
    · have hf : m.isPolicyGlobalManager = false := by simpa using hg
      simp only [hf, Bool.false_eq_true, if_false]
      cases m.Get h false d.gateway_id m.defaultPolicyLocaleServiceID with
      | error err => rfl
      | ok obj =>
        cases hc : obj.RouteRedistributionConfig <;> simp [hc]
  · obtain ⟨service, hs⟩ := hpatch d.gateway_id d.locale_service_id
    unfold resourceNsxtPolicyGatewayRedistributionConfigUpdate
    simp only [hguard, if_false]
    cases hp : (policyGatewayRedistributionConfigPatch m d d.gateway_id
        d.locale_service_id h).1 with
    | some err => exact ⟨service, [], by simp [hs]⟩
    | none =>
      exact ⟨service, (resourceNsxtPolicyGatewayRedistributionConfigRead m d
        (h ++ (policyGatewayRedistributionConfigPatch m d d.gateway_id
          d.locale_service_id h).2)).calls, by simp [hs]⟩

end NsxtUpgrade
